import Mathlib

/-!
# T-Rex Vision motion detector: ring buffer and draw mask

A shallow embedding of `src/T-Rex Vision/main.cpp`.

* The process-wide globals (`diffThresh`, `prevFramesToStore`, `ringBuffer`,
  `ringBufferOldest`, the two trackbar positions) are one explicit `State` record that
  every operation takes and returns.
* A `cv::Mat` of `unsigned char` is its dimensions together with its row-major bytes.
* `int` variables are `Int`.  None of the values stored in them leaves the range of
  a 32-bit `int` in the states studied here: the pixel sum is at most `255 * size`
  (see `pixelSum_le`) and the configuration values stay within `0 .. 100`.
* `std::vector::at` throws `std::out_of_range` on a bad index; `addToRingBuffer`
  therefore returns an `Option`, `none` standing for the exception.
* `float` values are given two readings.  A `FloatVal` is a rational number, an
  infinity or NaN.  In the exact-arithmetic reading (`FloatVal.add`, `maskValue`,
  `renderRingBuffer`) the operations `+ - * /` are the exact rational ones, extended by
  the IEEE 754 rules for the special values, and nothing is rounded.  In the binary32
  reading (`FloatVal.add32`, `maskValue32`, `renderRingBuffer32`) every conversion and
  every operation is followed by rounding to the nearest single-precision number, ties
  to even: 24 significant bits, exponents down to the subnormal spacing `2 ^ (-149)`,
  overflow to an infinity; the square root is the correctly rounded one.  Each operation
  is rounded on its own (no fused multiply-add, no wider intermediate format).  The two
  readings are compared in the section on single precision.
-/

namespace TRexVision

/-! ## Images -/

/-- One `unsigned char` sample. -/
abbrev UChar := Fin 256

/-- A single-channel 8-bit `cv::Mat`: `rows`, `cols`, and the samples in row-major
order (a continuous matrix, as `Mat::zeros` and `Mat::clone` make them). -/
structure Mat where
  rows : Nat
  cols : Nat
  data : List UChar
deriving DecidableEq, Repr

namespace Mat

/-- The matrix made by `Mat::zeros(rows, cols, DataType<unsigned char>::type)`. -/
def zeros (rows cols : Nat) : Mat :=
  { rows := rows, cols := cols, data := List.replicate (rows * cols) 0 }

/-- The read `m.at<unsigned char>(row, col)`, as an `int`: the byte at offset
`row * cols + col`.  A read outside the allocation is undefined in C++; the model
gives 0 there, and the statements about reads are made for matrices that contain the
pixel. -/
def pixelAt (m : Mat) (row col : Nat) : Int :=
  ((m.data.getD (row * m.cols + col) 0).val : Int)

/-- The write `m.at<unsigned char>(row, col) = v`. -/
def setAt (m : Mat) (row col : Nat) (v : UChar) : Mat :=
  { m with data := m.data.set (row * m.cols + col) v }

/-- `Mat::clone()`: a deep copy, which as a value is the matrix itself. -/
def clone (m : Mat) : Mat := m

/-- A matrix of `rows × cols` samples with a buffer of exactly that size. -/
def HasSize (m : Mat) (rows cols : Nat) : Prop :=
  m.rows = rows ∧ m.cols = cols ∧ m.data.length = rows * cols

instance (m : Mat) (rows cols : Nat) : Decidable (m.HasSize rows cols) := by
  unfold HasSize; infer_instance

end Mat

/-! ## Program state -/

/-- The globals of `main.cpp` that the ring buffer and the mask computation use. -/
structure State where
  diffThresholdTrackbarPos : Int
  prevFramesToStoreTrackbarPos : Int
  diffThresh : Int
  prevFramesToStore : Int
  ringBuffer : List Mat
  ringBufferOldest : Int
deriving DecidableEq, Repr

/-- The state at program start: `diffThresh = 10`, `prevFramesToStore = 3`, an empty
`ringBuffer`, `ringBufferOldest = 0`, and the zero-initialised trackbar positions. -/
def State.initial : State :=
  { diffThresholdTrackbarPos := 0
    prevFramesToStoreTrackbarPos := 0
    diffThresh := 10
    prevFramesToStore := 3
    ringBuffer := []
    ringBufferOldest := 0 }

/-! ## The ring buffer -/

/-- The loop `for (int i = 0; i < prevFramesToStore + 1; i++) ringBuffer.push_back(toAdd.clone())`
with `count` iterations left. -/
def fillLoop (toAdd : Mat) : Nat → List Mat → List Mat
  | 0, rb => rb
  | count + 1, rb => fillLoop toAdd count (rb ++ [toAdd.clone])

/-- `addToRingBuffer(toAdd)`.  On an empty buffer the loop runs `prevFramesToStore + 1`
times (not at all when that is not positive) and `ringBufferOldest` is not touched.
Otherwise `ringBuffer.at(ringBufferOldest)` is overwritten, which throws
(`none`) when the index is not a valid slot, and the index advances, wrapping to 0
when it reaches the size. -/
def addToRingBuffer (s : State) (toAdd : Mat) : Option State :=
  if s.ringBuffer.isEmpty then
    some { s with ringBuffer := fillLoop toAdd (s.prevFramesToStore + 1).toNat s.ringBuffer }
  else if 0 ≤ s.ringBufferOldest ∧ s.ringBufferOldest < s.ringBuffer.length then
    let rb := s.ringBuffer.set s.ringBufferOldest.toNat toAdd.clone
    let oldest := s.ringBufferOldest + 1
    some { s with
      ringBuffer := rb
      ringBufferOldest := if oldest ≥ rb.length then 0 else oldest }
  else
    none

/-- `emptyRingBuffer()`: `ringBuffer.clear(); ringBufferOldest = 0;`. -/
def emptyRingBuffer (s : State) : State :=
  { s with ringBuffer := [], ringBufferOldest := 0 }

/-- Pushing a list of frames one after the other, stopping at the first exception. -/
def addAll (s : State) : List Mat → Option State
  | [] => some s
  | f :: fs => (addToRingBuffer s f).bind (fun s1 => addAll s1 fs)

/-! ## Exact-arithmetic `float` values -/

/-- A `float` in the exact-arithmetic reading: a rational number, `+∞`/`-∞`
(`negative` is the sign bit) or NaN. -/
inductive FloatVal where
  | num (q : ℚ)
  | inf (negative : Bool)
  | nan
deriving DecidableEq

namespace FloatVal

/-- The conversion `(float)i` of an integer. -/
def ofInt (i : Int) : FloatVal := num (i : ℚ)

/-- The conversion to `float` of a `size_t`. -/
def ofSize (n : Nat) : FloatVal := num (n : ℚ)

/-- Negation. -/
def neg : FloatVal → FloatVal
  | num q => num (-q)
  | inf s => inf (!s)
  | nan => nan

/-- Addition: exact on numbers; `∞ + (-∞)` is NaN. -/
def add : FloatVal → FloatVal → FloatVal
  | num a, num b => num (a + b)
  | nan, _ => nan
  | _, nan => nan
  | inf s, inf s2 => if s = s2 then inf s else nan
  | inf s, num _ => inf s
  | num _, inf s => inf s

/-- Subtraction. -/
def sub (a b : FloatVal) : FloatVal := add a (neg b)

/-- Multiplication: exact on numbers; `0 * ∞` is NaN. -/
def mul : FloatVal → FloatVal → FloatVal
  | num a, num b => num (a * b)
  | nan, _ => nan
  | _, nan => nan
  | inf s, inf s2 => inf (s != s2)
  | inf s, num b => if b = 0 then nan else inf (s != decide (b < 0))
  | num a, inf s => if a = 0 then nan else inf (s != decide (a < 0))

/-- Division: exact on numbers with a non-zero divisor; `0 / 0` and `∞ / ∞` are NaN,
and a non-zero number over zero is an infinity.  A zero divisor is taken as `+0`:
the only divisor in the program is the conversion of `ringBuffer.size()`. -/
def div : FloatVal → FloatVal → FloatVal
  | num a, num b =>
    if b = 0 then (if a = 0 then nan else inf (decide (a < 0))) else num (a / b)
  | nan, _ => nan
  | _, nan => nan
  | inf _, inf _ => nan
  | inf s, num b => inf (s != decide (b < 0))
  | num _, inf _ => num 0

/-- The comparison `sqrt(x) > (float)t` of lines 114 and 117, decided without computing
the (in general irrational) square root: for a number `q ≥ 0`, `sqrt q > t` holds when
`t` is negative or `t * t < q` (`sqrtExceeds_num_iff` relates this to `Real.sqrt`).
The square root of a negative number or of `-∞` is NaN, a comparison with NaN is
false, and `sqrt(+∞) = +∞` exceeds every `t`. -/
def sqrtExceeds (x : FloatVal) (t : Int) : Bool :=
  match x with
  | num q => if q < 0 then false else (decide (t < 0) || decide ((t : ℚ) * (t : ℚ) < q))
  | inf s => !s
  | nan => false

end FloatVal

/-! ## Single-precision `float` values -/

/-- Rounding of a rational to the nearest integer, ties to the even one. -/
def roundHalfEven (x : ℚ) : Int :=
  let f := ⌊x⌋
  if x - f < 1 / 2 then f
  else if 1 / 2 < x - f then f + 1
  else if f % 2 = 0 then f else f + 1

/-- The exponent of the grid spacing of binary32 around `q`: 24 significant bits in
the binade of `q`, and the subnormal spacing `2 ^ (-149)` below `2 ^ (-126)`. -/
def ulpExp (q : ℚ) : Int := max (Int.log 2 |q|) (-126) - 23

/-- Rounding to the binary32 grid, to nearest, ties to even, before the overflow test. -/
def rnd (q : ℚ) : ℚ :=
  if q = 0 then 0 else (roundHalfEven (q / (2 : ℚ) ^ ulpExp q) : ℚ) * (2 : ℚ) ^ ulpExp q

/-- The bits of the integer square root of `n`, from bit `k - 1` down, added to `r`. -/
def isqrtBits : Nat → Nat → Nat → Nat
  | 0, _, r => r
  | k + 1, n, r =>
    if (r + 2 ^ k) * (r + 2 ^ k) ≤ n then isqrtBits k n (r + 2 ^ k) else isqrtBits k n r

/-- The integer square root: the largest `r` with `r * r ≤ n` (`isqrt_spec`). -/
def isqrt (n : Nat) : Nat := isqrtBits (Nat.log2 n / 2 + 1) n 0

/-- The correctly rounded binary32 square root of a positive rational `q`: with the
result in the binade of exponent `Int.log 2 q / 2`, its 24-bit significand is the
integer nearest to `sqrt (q / 4 ^ u)`, found from the integer square root. -/
def sqrtRound (q : ℚ) : ℚ :=
  let u : Int := Int.log 2 q / 2 - 23
  let x : ℚ := q / (2 : ℚ) ^ (2 * u)
  let s : Nat := isqrt ⌊x⌋₊
  let mid : ℚ := (s : ℚ) * s + s + 1 / 4
  let m : Nat :=
    if x < mid then s else if mid < x then s + 1 else if s % 2 = 0 then s else s + 1
  (m : ℚ) * (2 : ℚ) ^ u

namespace FloatVal

/-- The binary32 number nearest to an exact result; a result that rounds to `2 ^ 128`
or beyond in magnitude is an infinity.  The sign of a zero is not kept: the only
divisor in the program is a size, and a comparison does not tell `-0` from `+0`. -/
def round32 : FloatVal → FloatVal
  | num q => if (2 : ℚ) ^ (128 : Nat) ≤ |rnd q| then inf (decide (q < 0)) else num (rnd q)
  | inf s => inf s
  | nan => nan

/-- The conversion `(float)i` of an `int`, rounded. -/
def ofInt32 (i : Int) : FloatVal := round32 (num (i : ℚ))

/-- The conversion to `float` of a `size_t`, rounded. -/
def ofSize32 (n : Nat) : FloatVal := round32 (num (n : ℚ))

/-- Single-precision addition. -/
def add32 (a b : FloatVal) : FloatVal := round32 (add a b)

/-- Single-precision subtraction. -/
def sub32 (a b : FloatVal) : FloatVal := round32 (sub a b)

/-- Single-precision multiplication. -/
def mul32 (a b : FloatVal) : FloatVal := round32 (mul a b)

/-- Single-precision division. -/
def div32 (a b : FloatVal) : FloatVal := round32 (div a b)

/-- The call `sqrt(x)` of line 114 on a `float`: NaN for a negative number and for
`-∞`, and the correctly rounded root otherwise.  (Whether the call resolves to the
`float` or to the `double` overload, the value stored in `float stdDev` is the same:
rounding the 53-bit root to 24 bits gives the correctly rounded 24-bit root.) -/
def sqrt32 : FloatVal → FloatVal
  | num q => if q < 0 then nan else if q = 0 then num 0 else num (sqrtRound q)
  | inf s => if s then nan else inf false
  | nan => nan

/-- The comparison `a > b` of two `float` values: false when either is NaN. -/
def gt : FloatVal → FloatVal → Bool
  | num a, num b => decide (b < a)
  | nan, _ => false
  | _, nan => false
  | inf s, inf s2 => !s && s2
  | inf s, num _ => !s
  | num _, inf s => s

end FloatVal

/-! ## The draw mask -/

/-- Lines 96-100: the `int` sum of the samples at `(row, col)` over the ring buffer. -/
def pixelSum (rb : List Mat) (row col : Nat) : Int :=
  rb.foldl (fun sum m => sum + m.pixelAt row col) 0

/-- Lines 107-111: the accumulated squared differences from `mean`. -/
def sumSquaredDifferences (rb : List Mat) (mean : FloatVal) (row col : Nat) : FloatVal :=
  rb.foldl
    (fun acc m =>
      FloatVal.add acc
        (FloatVal.mul (FloatVal.sub (FloatVal.ofInt (m.pixelAt row col)) mean)
          (FloatVal.sub (FloatVal.ofInt (m.pixelAt row col)) mean)))
    (FloatVal.num 0)

/-- Lines 96-126, the body of the two pixel loops: the value written to
`drawMask.at<unsigned char>(row, col)`. -/
def maskValue (rb : List Mat) (diffThresh : Int) (row col : Nat) : UChar :=
  let sum := pixelSum rb row col
  let mean := FloatVal.div (FloatVal.ofInt sum) (FloatVal.ofSize rb.length)
  let ssd := sumSquaredDifferences rb mean row col
  if FloatVal.sqrtExceeds (FloatVal.div ssd (FloatVal.ofSize rb.length)) diffThresh then 255
  else 0

/-- The inner loop over `col` of `renderRingBuffer`, for one `row`. -/
def renderRow (rb : List Mat) (diffThresh : Int) (row : Nat) (drawMask : Mat) : Mat :=
  (List.range drawMask.cols).foldl
    (fun dm col => dm.setAt row col (maskValue rb diffThresh row col)) drawMask

/-- `renderRingBuffer()` up to line 128: the `drawMask` it computes from the ring buffer
and `diffThresh`.  (What follows in the source copies `image` through the mask and
shows it, which touches none of the state modelled here.) -/
def renderRingBuffer (s : State) : Mat :=
  let drawMask := Mat.zeros 480 640
  (List.range drawMask.rows).foldl
    (fun dm row => renderRow s.ringBuffer s.diffThresh row dm) drawMask

/-! ## The draw mask in single precision -/

/-- One pass of the loop of lines 108-111 in binary32: the sample `x` is converted to
`float`, `mean` is subtracted, the difference is multiplied by itself and the product
is added to the accumulator, with a rounding after each of the three operations. -/
def ssdStep32 (mean acc : FloatVal) (x : Int) : FloatVal :=
  FloatVal.add32 acc
    (FloatVal.mul32 (FloatVal.sub32 (FloatVal.ofInt32 x) mean)
      (FloatVal.sub32 (FloatVal.ofInt32 x) mean))

/-- Lines 107-111 in binary32: `sumSquaredDifferences`, accumulated in slot order. -/
def sumSquaredDifferences32 (rb : List Mat) (mean : FloatVal) (row col : Nat) : FloatVal :=
  rb.foldl (fun acc m => ssdStep32 mean acc (m.pixelAt row col)) (FloatVal.num 0)

/-- Lines 96-114 in binary32: the `float stdDev` computed for the pixel `(row, col)`. -/
def stdDev32 (rb : List Mat) (row col : Nat) : FloatVal :=
  let sum := pixelSum rb row col
  let mean := FloatVal.div32 (FloatVal.ofInt32 sum) (FloatVal.ofSize32 rb.length)
  let ssd := sumSquaredDifferences32 rb mean row col
  FloatVal.sqrt32 (FloatVal.div32 ssd (FloatVal.ofSize32 rb.length))

/-- Lines 96-126 in binary32: the value written to `drawMask.at<unsigned char>(row, col)`,
from the comparison `stdDev > diffThresh` with `diffThresh` converted to `float`. -/
def maskValue32 (rb : List Mat) (diffThresh : Int) (row col : Nat) : UChar :=
  if FloatVal.gt (stdDev32 rb row col) (FloatVal.ofInt32 diffThresh) then 255 else 0

/-- The inner loop over `col` of `renderRingBuffer`, for one `row`, in binary32. -/
def renderRow32 (rb : List Mat) (diffThresh : Int) (row : Nat) (drawMask : Mat) : Mat :=
  (List.range drawMask.cols).foldl
    (fun dm col => dm.setAt row col (maskValue32 rb diffThresh row col)) drawMask

/-- `renderRingBuffer()` up to line 128 with the `float` operations in binary32: the
`drawMask` it computes from the ring buffer and `diffThresh`. -/
def renderRingBuffer32 (s : State) : Mat :=
  let drawMask := Mat.zeros 480 640
  (List.range drawMask.rows).foldl
    (fun dm row => renderRow32 s.ringBuffer s.diffThresh row dm) drawMask

/-! ## Population statistics, as the specification words them -/

/-- The samples of the buffered frames at one pixel, as rationals. -/
def samplesAt (rb : List Mat) (row col : Nat) : List ℚ :=
  rb.map (fun m => ((m.pixelAt row col : Int) : ℚ))

/-- The mean of a list of samples: their sum over their number. -/
def popMean (xs : List ℚ) : ℚ := xs.sum / xs.length

/-- The population variance: the sum of the squared deviations from the mean over the
number of samples. -/
def popVariance (xs : List ℚ) : ℚ :=
  (xs.map (fun x => (x - popMean xs) ^ 2)).sum / xs.length

/-- The sum of the squares of the samples at `(row, col)` over the ring buffer. -/
def pixelSumSq (rb : List Mat) (row col : Nat) : Int :=
  (rb.map (fun m => m.pixelAt row col ^ 2)).sum

/-- The specification's `computeMask` for comparison with `renderRingBuffer`: the
`NotReady` condition (`none`) on an empty history buffer, the mask otherwise. -/
def specComputeMask (s : State) : Option Mat :=
  if s.ringBuffer.isEmpty then none else some (renderRingBuffer s)

/-! ## Changing the history depth -/

/-- The callback `onPrevFramesToStoreTrackbar(int, void*)`. -/
def onPrevFramesToStoreTrackbar (_pos : Int) (s : State) : State :=
  emptyRingBuffer s

/-- The frame-memory trackbar reporting a new position `pos`: the library stores it in
the variable given to `createTrackbar` (`&prevFramesToStore`) and calls the callback. -/
def frameMemoryTrackbarChanged (pos : Int) (s : State) : State :=
  onPrevFramesToStoreTrackbar pos { s with prevFramesToStore := pos }

/-- The library call `setTrackbarPos` on the frame-memory trackbar.  Whether it reports
the change to the program is up to the library: `report = some v` stands for the
library storing `v` and calling the callback, `none` for it doing neither. -/
def setFrameMemoryTrackbarPos (report : Option Int) (s : State) : State :=
  match report with
  | none => s
  | some v => frameMemoryTrackbarChanged v s

/-- The case `'3'` of the `switch` in `process` (lines 209-219); `pos` is what
`getTrackbarPos` returned. -/
def keyDecreaseFrames (pos : Int) (report : Option Int) (s : State) : State :=
  let s1 := { s with prevFramesToStoreTrackbarPos := pos }
  let s2 := { s1 with prevFramesToStoreTrackbarPos := s1.prevFramesToStoreTrackbarPos - 1 }
  let s3 :=
    if s2.prevFramesToStoreTrackbarPos < 0 then
      { s2 with prevFramesToStoreTrackbarPos := s2.prevFramesToStoreTrackbarPos + 1 }
    else s2
  let s4 := setFrameMemoryTrackbarPos report s3
  let s5 := { s4 with prevFramesToStore := s4.prevFramesToStoreTrackbarPos }
  emptyRingBuffer s5

/-- The case `'4'` of the `switch` in `process` (lines 221-231). -/
def keyIncreaseFrames (pos : Int) (report : Option Int) (s : State) : State :=
  let s1 := { s with prevFramesToStoreTrackbarPos := pos }
  let s2 := { s1 with prevFramesToStoreTrackbarPos := s1.prevFramesToStoreTrackbarPos + 1 }
  let s3 :=
    if s2.prevFramesToStoreTrackbarPos > 100 then
      { s2 with prevFramesToStoreTrackbarPos := s2.prevFramesToStoreTrackbarPos - 1 }
    else s2
  let s4 := setFrameMemoryTrackbarPos report s3
  let s5 := { s4 with prevFramesToStore := s4.prevFramesToStoreTrackbarPos }
  emptyRingBuffer s5

/-- The states the program can be in, as far as the ring buffer is concerned: the
initial state, and what pushes, `emptyRingBuffer` and depth changes (a non-negative
value stored in `prevFramesToStore`, then `emptyRingBuffer`) make of a reachable
state.  `config` covers the assignments that leave the ring buffer alone: to the
trackbar positions and to `diffThresh`. -/
inductive Reachable : State → Prop where
  | init : Reachable State.initial
  | push {s s1 : State} (f : Mat) :
      Reachable s → addToRingBuffer s f = some s1 → Reachable s1
  | empty {s : State} : Reachable s → Reachable (emptyRingBuffer s)
  | depth {s : State} (n : Int) :
      Reachable s → 0 ≤ n → Reachable (emptyRingBuffer { s with prevFramesToStore := n })
  | config {s : State} (a b t : Int) :
      Reachable s →
      Reachable { s with
        diffThresholdTrackbarPos := a, prevFramesToStoreTrackbarPos := b, diffThresh := t }

/-- The ring invariant with respect to a history `hist` of pushed frames and a depth
`d`: read from the slot `ringBufferOldest` round to the slot before it, the buffer is
the last `d` entries of `hist`, oldest first. -/
def HoldsLast (d : Nat) (hist : List Mat) (s : State) : Prop :=
  d ≤ hist.length ∧
    ∃ a b : List Mat, s.ringBuffer = a ++ b ∧ s.ringBufferOldest = (a.length : Int) ∧
      b ≠ [] ∧ b ++ a = hist.drop (hist.length - d)

/-- What a depth change has to leave behind: an empty buffer with
`ringBufferOldest = 0` and a non-negative `prevFramesToStore`, from which the next
`addToRingBuffer(f)` succeeds and leaves exactly `prevFramesToStore + 1` frames, each
of them `f`. -/
def BootstrapsNext (s : State) : Prop :=
  s.ringBuffer = [] ∧ s.ringBufferOldest = 0 ∧ 0 ≤ s.prevFramesToStore ∧
    ∀ f : Mat, ∃ s1, addToRingBuffer s f = some s1 ∧
      (s1.ringBuffer.length : Int) = s.prevFramesToStore + 1 ∧ ∀ m ∈ s1.ringBuffer, m = f

/-! ## The driver `process` -/

/-- Lines 165-169 of `process`: the blurred grayscale frame is pushed and the mask is
computed from the buffer as the push left it.  `none` stands for the exception of
`ringBuffer.at`. -/
def processFrame (s : State) (blurGray : Mat) : Option (State × Mat) :=
  (addToRingBuffer s blurGray).map (fun s1 => (s1, renderRingBuffer s1))

/-- The callback `onDiffThresholdTrackbar(int, void*)`, whose body is empty. -/
def onDiffThresholdTrackbar (_pos : Int) (s : State) : State := s

/-- The library call `setTrackbarPos` on the threshold trackbar, created on
`&diffThresh`: `report = some v` stands for the library storing `v` and calling the
callback, `none` for it doing neither. -/
def setDiffThresholdTrackbarPos (report : Option Int) (s : State) : State :=
  match report with
  | none => s
  | some v => onDiffThresholdTrackbar v { s with diffThresh := v }

/-- The case `'1'` of the `switch` in `process` (lines 187-196); `pos` is what
`getTrackbarPos` returned. -/
def keyDecreaseThreshold (pos : Int) (report : Option Int) (s : State) : State :=
  let s1 := { s with diffThresholdTrackbarPos := pos }
  let s2 := { s1 with diffThresholdTrackbarPos := s1.diffThresholdTrackbarPos - 1 }
  let s3 :=
    if s2.diffThresholdTrackbarPos < 0 then
      { s2 with diffThresholdTrackbarPos := s2.diffThresholdTrackbarPos + 1 }
    else s2
  let s4 := setDiffThresholdTrackbarPos report s3
  { s4 with diffThresh := s4.diffThresholdTrackbarPos }

/-- The case `'2'` of the `switch` in `process` (lines 198-207). -/
def keyIncreaseThreshold (pos : Int) (report : Option Int) (s : State) : State :=
  let s1 := { s with diffThresholdTrackbarPos := pos }
  let s2 := { s1 with diffThresholdTrackbarPos := s1.diffThresholdTrackbarPos + 1 }
  let s3 :=
    if s2.diffThresholdTrackbarPos > 100 then
      { s2 with diffThresholdTrackbarPos := s2.diffThresholdTrackbarPos - 1 }
    else s2
  let s4 := setDiffThresholdTrackbarPos report s3
  { s4 with diffThresh := s4.diffThresholdTrackbarPos }

/-- The `switch (key)` of `process` (lines 173-235): the state it leaves and the value
`process` returns (`true` ends the program).  `pos` is the result of the case's
`getTrackbarPos` call and `report` the behaviour of its `setTrackbarPos` call.  The
screenshot case writes a file and changes none of the state modelled here. -/
def processKey (key : Char) (pos : Int) (report : Option Int) (s : State) : State × Bool :=
  if key = 'q' ∨ key = 'Q' ∨ key = Char.ofNat 27 then (s, true)
  else if key = ' ' then (s, false)
  else if key = '1' then (keyDecreaseThreshold pos report s, false)
  else if key = '2' then (keyIncreaseThreshold pos report s, false)
  else if key = '3' then (keyDecreaseFrames pos report s, false)
  else if key = '4' then (keyIncreaseFrames pos report s, false)
  else (s, false)

/-! ## Frames used as concrete inputs -/

/-- A 480 × 640 frame whose samples all equal `v`. -/
def uniformFrame (v : UChar) : Mat :=
  { rows := 480, cols := 640, data := List.replicate (480 * 640) v }

/-- The initial state with the history depth set to 1 (two buffered frames). -/
def depthOneStart : State := { State.initial with prevFramesToStore := 1 }

/-- A state with a black and a white frame buffered. -/
def contrastState : State :=
  { State.initial with
    prevFramesToStore := 1
    ringBuffer := [uniformFrame 0, uniformFrame 255]
    ringBufferOldest := 0 }

/-- A state with two buffered frames whose samples are 0 and 20, and threshold 10. -/
def boundaryState : State :=
  { State.initial with
    diffThresh := 10
    prevFramesToStore := 1
    ringBuffer := [uniformFrame 0, uniformFrame 20]
    ringBufferOldest := 0 }

/-- A 1 × 1 frame. -/
def smallFrame : Mat := { rows := 1, cols := 1, data := [5] }

/-- The initial state with the history depth set to 0 (one buffered frame). -/
def depthZeroStart : State := { State.initial with prevFramesToStore := 0 }

/-- A state with two buffered frames whose oldest slot is the second one. -/
def twoSlotState : State :=
  { State.initial with
    prevFramesToStore := 1
    ringBuffer := [uniformFrame 1, uniformFrame 2]
    ringBufferOldest := 1 }

/-- A buffer of nine uniform frames whose samples have the exact standard deviation 94:
the sum is 975, the sum of squares 185149, and `9 * 185149 - 975 ^ 2 = 94 ^ 2 * 9 ^ 2`. -/
def nineFrameState : State :=
  { State.initial with
    diffThresh := 94
    prevFramesToStore := 8
    ringBuffer := [uniformFrame 3, uniformFrame 191, uniformFrame 195, uniformFrame 4,
      uniformFrame 193, uniformFrame 4, uniformFrame 190, uniformFrame 193, uniformFrame 2] }

/-- A buffer of nine uniform frames whose samples have the exact standard deviation 98:
the sum is 1167, the sum of squares 237757, and `9 * 237757 - 1167 ^ 2 = 98 ^ 2 * 9 ^ 2`. -/
def orderedState : State :=
  { State.initial with
    diffThresh := 98
    prevFramesToStore := 8
    ringBuffer := [uniformFrame 6, uniformFrame 216, uniformFrame 26, uniformFrame 245,
      uniformFrame 33, uniformFrame 39, uniformFrame 241, uniformFrame 228, uniformFrame 133] }

/-- The frames of `orderedState` in other slots. -/
def permutedState : State :=
  { State.initial with
    diffThresh := 98
    prevFramesToStore := 8
    ringBuffer := [uniformFrame 133, uniformFrame 26, uniformFrame 228, uniformFrame 6,
      uniformFrame 245, uniformFrame 33, uniformFrame 39, uniformFrame 241, uniformFrame 216] }

/-- Four frames with samples 0, 0, 20, 20: mean 10 and standard deviation 10. -/
def fourSlotState : State :=
  { State.initial with
    ringBuffer := [uniformFrame 0, uniformFrame 0, uniformFrame 20, uniformFrame 20]
    ringBufferOldest := 2 }

/-! ## Theorems: the ring buffer -/

theorem fillLoop_eq (toAdd : Mat) (count : Nat) (rb : List Mat) :
    fillLoop toAdd count rb = rb ++ List.replicate count toAdd := by
  induction count generalizing rb with
  | zero => simp [fillLoop]
  | succ k ih =>
    simp only [fillLoop, ih, Mat.clone, List.replicate_succ, List.append_assoc,
      List.singleton_append]

theorem addToRingBuffer_of_empty (s : State) (f : Mat) (h : s.ringBuffer = []) :
    addToRingBuffer s f =
      some { s with ringBuffer := List.replicate (s.prevFramesToStore + 1).toNat f } := by
  simp [addToRingBuffer, h, fillLoop_eq]

theorem addToRingBuffer_of_slot (s : State) (f : Mat) (i : Nat)
    (hi : i < s.ringBuffer.length) (ho : s.ringBufferOldest = (i : Int)) :
    addToRingBuffer s f =
      some { s with
        ringBuffer := s.ringBuffer.set i f
        ringBufferOldest := if i + 1 = s.ringBuffer.length then 0 else ((i + 1 : Nat) : Int) } := by
  have hne : s.ringBuffer.isEmpty = false := by
    cases hrb : s.ringBuffer with
    | nil => rw [hrb] at hi; simp at hi
    | cons a l => rfl
  have hcond : (0 : Int) ≤ (i : Int) ∧ (i : Int) < (s.ringBuffer.length : Int) := by omega
  unfold addToRingBuffer
  rw [hne]
  simp only [Bool.false_eq_true, if_false, Mat.clone, ho, if_pos hcond, Int.toNat_ofNat,
    List.length_set]
  by_cases hlast : i + 1 = s.ringBuffer.length
  · have : ((i : Int) + 1 ≥ (s.ringBuffer.length : Int)) := by omega
    rw [if_pos this, if_pos hlast]
  · have : ¬ ((i : Int) + 1 ≥ (s.ringBuffer.length : Int)) := by omega
    rw [if_neg this, if_neg hlast]
    simp

/-- C3: on an empty buffer with `ringBufferOldest = 0` (the state at startup and after
`emptyRingBuffer`) and `prevFramesToStore = N ≥ 0`, `addToRingBuffer(f)` succeeds and
leaves exactly `N + 1` frames, each equal to `f`, with `ringBufferOldest` still 0. -/
theorem addToRingBuffer_bootstrap (s : State) (f : Mat) (N : Nat)
    (hempty : s.ringBuffer = []) (hold : s.ringBufferOldest = 0)
    (hN : s.prevFramesToStore = (N : Int)) :
    ∃ s1, addToRingBuffer s f = some s1 ∧
      s1.ringBuffer.length = N + 1 ∧
      (∀ m ∈ s1.ringBuffer, m = f) ∧
      s1.ringBufferOldest = 0 := by
  refine ⟨_, addToRingBuffer_of_empty s f hempty, ?_, ?_, ?_⟩
  · simp only [List.length_replicate, hN]; omega
  · intro m hm
    exact (List.mem_replicate.mp hm).2
  · exact hold

theorem addToRingBuffer_bootstrap_witness :
    State.initial.ringBuffer = [] ∧ State.initial.ringBufferOldest = 0 ∧
    State.initial.prevFramesToStore = ((3 : Nat) : Int) ∧
    ∃ s1, addToRingBuffer State.initial (uniformFrame 7) = some s1 ∧
      s1.ringBuffer.length = 3 + 1 ∧
      (∀ m ∈ s1.ringBuffer, m = uniformFrame 7) ∧
      s1.ringBufferOldest = 0 :=
  ⟨rfl, rfl, rfl, addToRingBuffer_bootstrap State.initial (uniformFrame 7) 3 rfl rfl rfl⟩

/-- C5: on a buffer whose `ringBufferOldest` is the slot `i < size` (so the buffer
is not empty), `addToRingBuffer(f)` succeeds, puts `f` in slot `i`, leaves every other
slot and the size as they were, sets `ringBufferOldest` to `(i + 1) mod size`, and
changes nothing else in the state. -/
theorem addToRingBuffer_overwrite (s : State) (f : Mat) (i : Nat)
    (hi : i < s.ringBuffer.length) (ho : s.ringBufferOldest = (i : Int)) :
    ∃ s1, addToRingBuffer s f = some s1 ∧
      s1.ringBuffer.length = s.ringBuffer.length ∧
      s1.ringBuffer[i]? = some f ∧
      (∀ j, j ≠ i → s1.ringBuffer[j]? = s.ringBuffer[j]?) ∧
      s1.ringBufferOldest = (((i + 1) % s.ringBuffer.length : Nat) : Int) ∧
      s1.diffThresh = s.diffThresh ∧ s1.prevFramesToStore = s.prevFramesToStore ∧
      s1.diffThresholdTrackbarPos = s.diffThresholdTrackbarPos ∧
      s1.prevFramesToStoreTrackbarPos = s.prevFramesToStoreTrackbarPos := by
  refine ⟨_, addToRingBuffer_of_slot s f i hi ho, ?_, ?_, ?_, ?_, rfl, rfl, rfl, rfl⟩
  · simp
  · simp [List.getElem?_set, hi]
  · intro j hj
    simp [List.getElem?_set, Ne.symm hj]
  · by_cases hlast : i + 1 = s.ringBuffer.length
    · simp [hlast]
    · have hlt : i + 1 < s.ringBuffer.length := by omega
      simp [hlast, Nat.mod_eq_of_lt hlt]

theorem addToRingBuffer_overwrite_witness :
    1 < twoSlotState.ringBuffer.length ∧ twoSlotState.ringBufferOldest = ((1 : Nat) : Int) ∧
    ∃ s1, addToRingBuffer twoSlotState (uniformFrame 3) = some s1 ∧
      s1.ringBuffer.length = twoSlotState.ringBuffer.length ∧
      s1.ringBuffer[1]? = some (uniformFrame 3) ∧
      (∀ j, j ≠ 1 → s1.ringBuffer[j]? = twoSlotState.ringBuffer[j]?) ∧
      s1.ringBufferOldest = (((1 + 1) % twoSlotState.ringBuffer.length : Nat) : Int) ∧
      s1.diffThresh = twoSlotState.diffThresh ∧
      s1.prevFramesToStore = twoSlotState.prevFramesToStore ∧
      s1.diffThresholdTrackbarPos = twoSlotState.diffThresholdTrackbarPos ∧
      s1.prevFramesToStoreTrackbarPos = twoSlotState.prevFramesToStoreTrackbarPos :=
  ⟨by simp [twoSlotState], rfl,
    addToRingBuffer_overwrite twoSlotState (uniformFrame 3) 1 (by simp [twoSlotState]) rfl⟩

/-- C7: `emptyRingBuffer` leaves a buffer of size 0 and `ringBufferOldest = 0`, does
not change `diffThresh` or `prevFramesToStore`, and applying it twice gives the state
that applying it once gives. -/
theorem emptyRingBuffer_resets (s : State) :
    (emptyRingBuffer s).ringBuffer.length = 0 ∧
    (emptyRingBuffer s).ringBufferOldest = 0 ∧
    (emptyRingBuffer s).diffThresh = s.diffThresh ∧
    (emptyRingBuffer s).prevFramesToStore = s.prevFramesToStore ∧
    emptyRingBuffer (emptyRingBuffer s) = emptyRingBuffer s :=
  ⟨rfl, rfl, rfl, rfl, rfl⟩

/-- The invariant of the reachable states, with the sign of `prevFramesToStore` that
makes it inductive. -/
theorem reachable_inv {s : State} (h : Reachable s) :
    0 ≤ s.prevFramesToStore ∧
    ((s.ringBuffer = [] ∧ s.ringBufferOldest = 0) ∨
      ((s.ringBuffer.length : Int) = s.prevFramesToStore + 1 ∧
        0 ≤ s.ringBufferOldest ∧ s.ringBufferOldest < (s.ringBuffer.length : Int))) := by
  induction h with
  | init => exact ⟨by decide, Or.inl ⟨rfl, rfl⟩⟩
  | @push s s1 f _ hadd ih =>
    obtain ⟨hN, hcase⟩ := ih
    rcases hcase with ⟨hempty, hold⟩ | ⟨hlen, hlo, hhi⟩
    · rw [addToRingBuffer_of_empty s f hempty] at hadd
      cases hadd
      refine ⟨hN, Or.inr ⟨?_, ?_, ?_⟩⟩
      · simp only [List.length_replicate]; omega
      · simp only [hold]; exact le_refl _
      · simp only [hold, List.length_replicate]; omega
    · obtain ⟨i, hi⟩ := Int.eq_ofNat_of_zero_le hlo
      have hilt : i < s.ringBuffer.length := by omega
      rw [addToRingBuffer_of_slot s f i hilt hi] at hadd
      cases hadd
      refine ⟨hN, Or.inr ⟨?_, ?_, ?_⟩⟩
      · simpa using hlen
      · by_cases hlast : i + 1 = s.ringBuffer.length
        · simp [hlast]
        · simp only [if_neg hlast]; omega
      · by_cases hlast : i + 1 = s.ringBuffer.length
        · simp only [if_pos hlast, List.length_set]; omega
        · simp only [if_neg hlast, List.length_set]; omega
  | empty _ ih => exact ⟨ih.1, Or.inl ⟨rfl, rfl⟩⟩
  | depth n _ hn _ => exact ⟨hn, Or.inl ⟨rfl, rfl⟩⟩
  | config a b t _ ih => exact ih

/-- C6: in every reachable state the buffer is either empty with
`ringBufferOldest = 0`, or holds exactly `prevFramesToStore + 1` frames with
`0 ≤ ringBufferOldest < size`; hence `ringBuffer.at(ringBufferOldest)` does not throw:
every `addToRingBuffer` from a reachable state succeeds. -/
theorem reachable_buffer_invariant (s : State) (h : Reachable s) :
    ((s.ringBuffer = [] ∧ s.ringBufferOldest = 0) ∨
      ((s.ringBuffer.length : Int) = s.prevFramesToStore + 1 ∧
        0 ≤ s.ringBufferOldest ∧ s.ringBufferOldest < (s.ringBuffer.length : Int))) ∧
    ∀ f : Mat, ∃ s1, addToRingBuffer s f = some s1 := by
  refine ⟨(reachable_inv h).2, fun f => ?_⟩
  rcases (reachable_inv h).2 with ⟨hempty, _⟩ | ⟨_, hlo, hhi⟩
  · exact ⟨_, addToRingBuffer_of_empty s f hempty⟩
  · obtain ⟨i, hi⟩ := Int.eq_ofNat_of_zero_le hlo
    exact ⟨_, addToRingBuffer_of_slot s f i (by omega) hi⟩

theorem reachable_buffer_invariant_witness :
    Reachable State.initial ∧
    (((State.initial.ringBuffer = [] ∧ State.initial.ringBufferOldest = 0) ∨
      ((State.initial.ringBuffer.length : Int) = State.initial.prevFramesToStore + 1 ∧
        0 ≤ State.initial.ringBufferOldest ∧
        State.initial.ringBufferOldest < (State.initial.ringBuffer.length : Int))) ∧
    ∀ f : Mat, ∃ s1, addToRingBuffer State.initial f = some s1) :=
  ⟨Reachable.init, reachable_buffer_invariant State.initial Reachable.init⟩

/-! ### Rotation -/

theorem holdsLast_push {d : Nat} {hist : List Mat} {s : State} (f : Mat)
    (h : HoldsLast d hist s) :
    ∃ s1, addToRingBuffer s f = some s1 ∧ HoldsLast d (hist ++ [f]) s1 := by
  obtain ⟨hd, a, b, hrb, ho, hb, hba⟩ := h
  cases b with
  | nil => exact absurd rfl hb
  | cons y b1 =>
    have hi : a.length < s.ringBuffer.length := by rw [hrb]; simp
    have hset : s.ringBuffer.set a.length f = a ++ f :: b1 := by rw [hrb]; simp
    have hdlen : d = b1.length + 1 + a.length := by
      have := congrArg List.length hba
      simp only [List.length_append, List.length_cons, List.length_drop] at this
      omega
    have hrest : b1 ++ a = hist.drop (hist.length - d + 1) := by
      rw [← List.tail_drop, ← hba]; rfl
    have hnew : (hist ++ [f]).drop ((hist ++ [f]).length - d) = (b1 ++ a) ++ [f] := by
      have e : (hist ++ [f]).length - d = hist.length - d + 1 := by
        simp only [List.length_append, List.length_singleton]; omega
      rw [e, List.drop_append_of_le_length (by omega), hrest]
    refine ⟨_, addToRingBuffer_of_slot s f a.length hi ho, ?_, ?_⟩
    · simp only [List.length_append, List.length_singleton]; omega
    · by_cases hlast : a.length + 1 = s.ringBuffer.length
      · have hb1 : b1 = [] := by
          rw [hrb] at hlast
          simp only [List.length_append, List.length_cons] at hlast
          exact List.length_eq_zero.mp (by omega)
        subst hb1
        refine ⟨[], a ++ [f], ?_, ?_, ?_, ?_⟩
        · simp [hset]
        · simp [hlast]
        · simp
        · rw [hnew]; simp
      · have hb1 : b1 ≠ [] := by
          intro hnil
          apply hlast
          rw [hrb, hnil]; simp
        refine ⟨a ++ [f], b1, ?_, ?_, hb1, ?_⟩
        · simp [hset]
        · simp [hlast]
        · rw [hnew]; simp

theorem holdsLast_addAll {d : Nat} (fs : List Mat) :
    ∀ (hist : List Mat) (s : State), HoldsLast d hist s →
      ∃ s1, addAll s fs = some s1 ∧ HoldsLast d (hist ++ fs) s1 := by
  induction fs with
  | nil => intro hist s h; exact ⟨s, rfl, by simpa using h⟩
  | cons f fs ih =>
    intro hist s h
    obtain ⟨s1, hs1, h1⟩ := holdsLast_push f h
    obtain ⟨s2, hs2, h2⟩ := ih (hist ++ [f]) s1 h1
    refine ⟨s2, ?_, ?_⟩
    · simp [addAll, hs1, hs2]
    · simpa using h2

/-- C2: with `prevFramesToStore = N` (depth `N + 1`), any `k > N + 1` pushes from the
empty buffer all succeed, and the resulting buffer has exactly `N + 1` frames and is,
as a multiset, the last `N + 1` frames pushed. -/
theorem ring_rotation (N : Nat) (s : State) (frames : List Mat)
    (hempty : s.ringBuffer = []) (hold : s.ringBufferOldest = 0)
    (hN : s.prevFramesToStore = (N : Int)) (hk : N + 1 < frames.length) :
    ∃ s1, addAll s frames = some s1 ∧
      s1.ringBuffer.length = N + 1 ∧
      (s1.ringBuffer : Multiset Mat) =
        ((frames.drop (frames.length - (N + 1)) : List Mat) : Multiset Mat) := by
  cases frames with
  | nil => simp at hk
  | cons f1 rest =>
    have hrest : N + 1 ≤ rest.length := by simpa using hk
    have htoNat : (s.prevFramesToStore + 1).toNat = N + 1 := by rw [hN]; omega
    have h0 : HoldsLast (N + 1) (List.replicate (N + 1) f1)
        { s with ringBuffer := List.replicate (N + 1) f1 } := by
      refine ⟨by simp, [], List.replicate (N + 1) f1, by simp, by simpa using hold, ?_, by simp⟩
      simp [List.replicate_succ]
    obtain ⟨s1, hs1, hd, a, b, hrb, _, _, hba⟩ := holdsLast_addAll rest _ _ h0
    have hdrop : (List.replicate (N + 1) f1 ++ rest).drop
        ((List.replicate (N + 1) f1 ++ rest).length - (N + 1)) =
        (f1 :: rest).drop ((f1 :: rest).length - (N + 1)) := by
      have e1 : (List.replicate (N + 1) f1 ++ rest).length - (N + 1) =
          (List.replicate (N + 1) f1).length + (rest.length - (N + 1)) := by
        simp only [List.length_append, List.length_replicate]; omega
      have e2 : (f1 :: rest).length - (N + 1) = (rest.length - (N + 1)) + 1 := by
        simp only [List.length_cons]; omega
      rw [e1, List.drop_append, e2, List.drop_succ_cons]
    refine ⟨s1, ?_, ?_, ?_⟩
    · simp [addAll, addToRingBuffer_of_empty s f1 hempty, htoNat, hs1]
    · have := congrArg List.length hba
      rw [hrb]
      simp only [List.length_append, List.length_drop, List.length_replicate] at this ⊢
      omega
    · rw [hrb, ← hdrop, ← hba]
      exact Multiset.coe_eq_coe.mpr List.perm_append_comm

theorem ring_rotation_witness :
    depthOneStart.ringBuffer = [] ∧ depthOneStart.ringBufferOldest = 0 ∧
    depthOneStart.prevFramesToStore = ((1 : Nat) : Int) ∧
    1 + 1 < [uniformFrame 0, uniformFrame 0, uniformFrame 255].length ∧
    ∃ s1, addAll depthOneStart [uniformFrame 0, uniformFrame 0, uniformFrame 255] = some s1 ∧
      s1.ringBuffer.length = 1 + 1 ∧
      (s1.ringBuffer : Multiset Mat) =
        (([uniformFrame 0, uniformFrame 0, uniformFrame 255].drop
          ([uniformFrame 0, uniformFrame 0, uniformFrame 255].length - (1 + 1)) : List Mat) :
          Multiset Mat) :=
  ⟨rfl, rfl, rfl, by decide,
    ring_rotation 1 depthOneStart [uniformFrame 0, uniformFrame 0, uniformFrame 255]
      rfl rfl rfl (by decide)⟩

/-! ### Depth changes -/

theorem bootstrapsNext_of_empty (s : State)
    (hempty : s.ringBuffer = []) (hold : s.ringBufferOldest = 0)
    (hN : 0 ≤ s.prevFramesToStore) : BootstrapsNext s := by
  refine ⟨hempty, hold, hN, fun f => ⟨_, addToRingBuffer_of_empty s f hempty, ?_, ?_⟩⟩
  · simp only [List.length_replicate]; omega
  · intro m hm
    exact (List.mem_replicate.mp hm).2

theorem keyDecreaseFrames_depth (pos : Int) (report : Option Int) (s : State) :
    (keyDecreaseFrames pos report s).prevFramesToStore = if pos - 1 < 0 then pos else pos - 1 := by
  cases report with
  | none =>
    simp only [keyDecreaseFrames, setFrameMemoryTrackbarPos, emptyRingBuffer]
    split
    · simp only; omega
    · simp only
  | some v =>
    simp only [keyDecreaseFrames, setFrameMemoryTrackbarPos, frameMemoryTrackbarChanged,
      onPrevFramesToStoreTrackbar, emptyRingBuffer]
    split
    · simp only; omega
    · simp only

theorem keyIncreaseFrames_depth (pos : Int) (report : Option Int) (s : State) :
    (keyIncreaseFrames pos report s).prevFramesToStore =
      if pos + 1 > 100 then pos else pos + 1 := by
  cases report with
  | none =>
    simp only [keyIncreaseFrames, setFrameMemoryTrackbarPos, emptyRingBuffer]
    split
    · simp only; omega
    · simp only
  | some v =>
    simp only [keyIncreaseFrames, setFrameMemoryTrackbarPos, frameMemoryTrackbarChanged,
      onPrevFramesToStoreTrackbar, emptyRingBuffer]
    split
    · simp only; omega
    · simp only

/-- C9: each path that changes the history depth ends with the buffer empty,
`ringBufferOldest = 0` and `prevFramesToStore ≥ 0`, so that the next
`addToRingBuffer(f)` succeeds and leaves exactly `prevFramesToStore + 1` frames, every
one a copy of `f`: key `'3'` and key `'4'` (for a trackbar position `pos ≥ 0`, whatever
the library does on `setTrackbarPos`), the frame-memory trackbar reporting a position
`pos ≥ 0`, and the callback `onPrevFramesToStoreTrackbar` on its own when
`prevFramesToStore ≥ 0` already. -/
theorem depth_change_resets (s : State) (pos : Int) (report : Option Int) (hpos : 0 ≤ pos) :
    BootstrapsNext (keyDecreaseFrames pos report s) ∧
    BootstrapsNext (keyIncreaseFrames pos report s) ∧
    BootstrapsNext (frameMemoryTrackbarChanged pos s) ∧
    (0 ≤ s.prevFramesToStore → BootstrapsNext (onPrevFramesToStoreTrackbar pos s)) := by
  refine ⟨?_, ?_, ?_, ?_⟩
  · refine bootstrapsNext_of_empty _ rfl rfl ?_
    rw [keyDecreaseFrames_depth]
    split <;> omega
  · refine bootstrapsNext_of_empty _ rfl rfl ?_
    rw [keyIncreaseFrames_depth]
    split <;> omega
  · exact bootstrapsNext_of_empty _ rfl rfl hpos
  · intro hs
    exact bootstrapsNext_of_empty _ rfl rfl hs

theorem depth_change_resets_witness :
    (0 : Int) ≤ 2 ∧
    (BootstrapsNext (keyDecreaseFrames 2 (some 1) twoSlotState) ∧
    BootstrapsNext (keyIncreaseFrames 2 (some 1) twoSlotState) ∧
    BootstrapsNext (frameMemoryTrackbarChanged 2 twoSlotState) ∧
    (0 ≤ twoSlotState.prevFramesToStore →
      BootstrapsNext (onPrevFramesToStoreTrackbar 2 twoSlotState))) :=
  ⟨by decide, depth_change_resets twoSlotState 2 (some 1) (by decide)⟩

/-- The key handlers and the trackbar lead from reachable states to reachable states. -/
theorem reachable_depth_paths (s : State) (pos : Int) (report : Option Int)
    (h : Reachable s) (hpos : 0 ≤ pos) (hrep : ∀ v, report = some v → 0 ≤ v) :
    Reachable (keyDecreaseFrames pos report s) ∧
    Reachable (keyIncreaseFrames pos report s) ∧
    Reachable (frameMemoryTrackbarChanged pos s) ∧
    Reachable (onPrevFramesToStoreTrackbar pos s) := by
  have hlib : ∀ s0 : State, Reachable s0 → Reachable (setFrameMemoryTrackbarPos report s0) := by
    intro s0 h0
    cases report with
    | none => exact h0
    | some v => exact Reachable.depth v h0 (hrep v rfl)
  refine ⟨?_, ?_, Reachable.depth pos h hpos, Reachable.empty h⟩
  · have h3 : ∀ b : Int, Reachable { s with prevFramesToStoreTrackbarPos := b } :=
      fun b => Reachable.config s.diffThresholdTrackbarPos b s.diffThresh h
    unfold keyDecreaseFrames
    simp only
    split
    · exact Reachable.depth _ (hlib _ (h3 _)) (by
        cases report <;> simp [setFrameMemoryTrackbarPos, frameMemoryTrackbarChanged,
          onPrevFramesToStoreTrackbar, emptyRingBuffer] <;> omega)
    · exact Reachable.depth _ (hlib _ (h3 _)) (by
        cases report <;> simp [setFrameMemoryTrackbarPos, frameMemoryTrackbarChanged,
          onPrevFramesToStoreTrackbar, emptyRingBuffer] <;> omega)
  · have h3 : ∀ b : Int, Reachable { s with prevFramesToStoreTrackbarPos := b } :=
      fun b => Reachable.config s.diffThresholdTrackbarPos b s.diffThresh h
    unfold keyIncreaseFrames
    simp only
    split
    · exact Reachable.depth _ (hlib _ (h3 _)) (by
        cases report <;> simp [setFrameMemoryTrackbarPos, frameMemoryTrackbarChanged,
          onPrevFramesToStoreTrackbar, emptyRingBuffer] <;> omega)
    · exact Reachable.depth _ (hlib _ (h3 _)) (by
        cases report <;> simp [setFrameMemoryTrackbarPos, frameMemoryTrackbarChanged,
          onPrevFramesToStoreTrackbar, emptyRingBuffer] <;> omega)

/-! ## Theorems: the draw mask -/

theorem foldl_add_eq_sum (g : Mat → Int) (rb : List Mat) (a : Int) :
    rb.foldl (fun sum m => sum + g m) a = a + (rb.map g).sum := by
  induction rb generalizing a with
  | nil => simp
  | cons m rb ih => simp [List.foldl_cons, ih, add_assoc]

theorem pixelSum_eq_sum (rb : List Mat) (row col : Nat) :
    pixelSum rb row col = (rb.map (fun m => m.pixelAt row col)).sum := by
  simp [pixelSum, foldl_add_eq_sum]

theorem Mat.pixelAt_bounds (m : Mat) (row col : Nat) :
    0 ≤ m.pixelAt row col ∧ m.pixelAt row col ≤ 255 := by
  unfold Mat.pixelAt
  have := (m.data.getD (row * m.cols + col) 0).isLt
  omega

/-- The `int` sum of the samples lies between 0 and `255 * size`. -/
theorem pixelSum_le (rb : List Mat) (row col : Nat) :
    0 ≤ pixelSum rb row col ∧ pixelSum rb row col ≤ 255 * (rb.length : Int) := by
  rw [pixelSum_eq_sum]
  induction rb with
  | nil => simp
  | cons m rb ih =>
    have hb := Mat.pixelAt_bounds m row col
    simp only [List.map_cons, List.sum_cons, List.length_cons]
    push_cast
    omega

theorem pixelSum_cast (rb : List Mat) (row col : Nat) :
    ((pixelSum rb row col : Int) : ℚ) = (samplesAt rb row col).sum := by
  rw [pixelSum_eq_sum, samplesAt]
  induction rb with
  | nil => simp
  | cons m rb ih => simp [ih]

theorem samplesAt_length (rb : List Mat) (row col : Nat) :
    (samplesAt rb row col).length = rb.length := by
  simp [samplesAt]

theorem FloatVal.sq_diff_num (acc x mean : ℚ) :
    FloatVal.add (FloatVal.num acc)
      (FloatVal.mul (FloatVal.sub (FloatVal.num x) (FloatVal.num mean))
        (FloatVal.sub (FloatVal.num x) (FloatVal.num mean))) =
    FloatVal.num (acc + (x - mean) ^ 2) := by
  simp only [FloatVal.sub, FloatVal.neg, FloatVal.add, FloatVal.mul]
  congr 1
  ring

theorem ssd_foldl (rb : List Mat) (mean a : ℚ) (row col : Nat) :
    rb.foldl
      (fun acc m =>
        FloatVal.add acc
          (FloatVal.mul (FloatVal.sub (FloatVal.ofInt (m.pixelAt row col)) (FloatVal.num mean))
            (FloatVal.sub (FloatVal.ofInt (m.pixelAt row col)) (FloatVal.num mean))))
      (FloatVal.num a) =
    FloatVal.num (a + ((samplesAt rb row col).map (fun x => (x - mean) ^ 2)).sum) := by
  induction rb generalizing a with
  | nil => simp [samplesAt]
  | cons m rb ih =>
    rw [List.foldl_cons]
    have step := FloatVal.sq_diff_num a ((m.pixelAt row col : Int) : ℚ) mean
    simp only [FloatVal.ofInt] at ih ⊢
    rw [step, ih]
    congr 1
    simp only [samplesAt, List.map_cons, List.sum_cons]
    ring

theorem sumSquaredDifferences_num (rb : List Mat) (mean : ℚ) (row col : Nat) :
    sumSquaredDifferences rb (FloatVal.num mean) row col =
      FloatVal.num ((samplesAt rb row col).map (fun x => (x - mean) ^ 2)).sum := by
  simp [sumSquaredDifferences, ssd_foldl]

/-- On a non-empty buffer no special value arises: the quantity compared with the
threshold is the square root of the population variance of the samples. -/
theorem maskValue_of_ne_nil (rb : List Mat) (t : Int) (row col : Nat) (hne : rb ≠ []) :
    maskValue rb t row col =
      if FloatVal.sqrtExceeds (FloatVal.num (popVariance (samplesAt rb row col))) t then 255
      else 0 := by
  have hlen : (rb.length : ℚ) ≠ 0 := by
    have : rb.length ≠ 0 := fun h => hne (List.length_eq_zero.mp h)
    exact_mod_cast this
  simp only [maskValue, FloatVal.ofInt, FloatVal.ofSize, FloatVal.div, if_neg hlen,
    sumSquaredDifferences_num, pixelSum_cast, popVariance, popMean, samplesAt_length]

/-- On an empty buffer both divisions are `0 / 0`: the comparison is against NaN and
the pixel is written as 0. -/
theorem maskValue_nil (t : Int) (row col : Nat) : maskValue [] t row col = 0 := by
  simp [maskValue, pixelSum, sumSquaredDifferences, FloatVal.ofInt, FloatVal.ofSize,
    FloatVal.div, FloatVal.sqrtExceeds]

theorem sqrtExceeds_num_iff (q : ℚ) (t : Int) (hq : 0 ≤ q) :
    FloatVal.sqrtExceeds (FloatVal.num q) t = true ↔ (t : ℝ) < Real.sqrt (q : ℝ) := by
  have hq2 : ¬ q < 0 := not_lt.mpr hq
  simp only [FloatVal.sqrtExceeds, if_neg hq2, Bool.or_eq_true, decide_eq_true_eq]
  by_cases ht : t < 0
  · have h1 : (t : ℝ) < 0 := by exact_mod_cast ht
    constructor
    · intro _; exact lt_of_lt_of_le h1 (Real.sqrt_nonneg _)
    · intro _; exact Or.inl ht
  · have h0 : (0 : ℝ) ≤ (t : ℝ) := by exact_mod_cast (not_lt.mp ht)
    rw [Real.lt_sqrt h0]
    constructor
    · rintro (h | h)
      · exact absurd h ht
      · have : (((t : ℚ) * (t : ℚ) : ℚ) : ℝ) < (q : ℝ) := by exact_mod_cast h
        simpa [pow_two] using this
    · intro h
      right
      have : (((t : ℚ) * (t : ℚ) : ℚ) : ℝ) < (q : ℝ) := by simpa [pow_two] using h
      exact_mod_cast this

theorem sqrtExceeds_mono (x : FloatVal) (t1 t2 : Int) (h : t1 ≤ t2)
    (h2 : FloatVal.sqrtExceeds x t2 = true) : FloatVal.sqrtExceeds x t1 = true := by
  cases x with
  | nan => simp [FloatVal.sqrtExceeds] at h2
  | inf s => simpa [FloatVal.sqrtExceeds] using h2
  | num q =>
    by_cases hq : q < 0
    · simp [FloatVal.sqrtExceeds, hq] at h2
    · simp only [FloatVal.sqrtExceeds, if_neg hq, Bool.or_eq_true, decide_eq_true_eq] at h2 ⊢
      by_cases ht1 : t1 < 0
      · exact Or.inl ht1
      · right
        have h10 : (0 : ℚ) ≤ (t1 : ℚ) := by exact_mod_cast (not_lt.mp ht1)
        have h12 : (t1 : ℚ) ≤ (t2 : ℚ) := by exact_mod_cast h
        rcases h2 with h2 | h2
        · omega
        · calc (t1 : ℚ) * (t1 : ℚ) ≤ (t2 : ℚ) * (t2 : ℚ) :=
                mul_le_mul h12 h12 h10 (le_trans h10 h12)
            _ < q := h2

/-! ### The pixel loops -/

theorem Mat.zeros_rows (rows cols : Nat) : (Mat.zeros rows cols).rows = rows := rfl

theorem Mat.zeros_cols (rows cols : Nat) : (Mat.zeros rows cols).cols = cols := rfl

theorem Mat.zeros_data_length (rows cols : Nat) :
    (Mat.zeros rows cols).data.length = rows * cols := by
  simp [Mat.zeros]

theorem Mat.setAt_cols (m : Mat) (row col : Nat) (v : UChar) :
    (m.setAt row col v).cols = m.cols := rfl

theorem Mat.setAt_data (m : Mat) (row col : Nat) (v : UChar) :
    (m.setAt row col v).data = m.data.set (row * m.cols + col) v := rfl

theorem setAt_fold_cols (g : Nat → UChar) (row : Nat) (dm : Mat) (hW : dm.cols = 640) (k : Nat)
    (hk : k ≤ 640) :
    ((List.range k).foldl (fun d col => d.setAt row col (g col)) dm).cols = 640 ∧
    ((List.range k).foldl (fun d col => d.setAt row col (g col)) dm).data.length =
      dm.data.length ∧
    ∀ r c, c < 640 →
      ((List.range k).foldl (fun d col => d.setAt row col (g col)) dm).data[r * 640 + c]? =
        if r = row ∧ c < k ∧ r * 640 + c < dm.data.length then some (g c)
        else dm.data[r * 640 + c]? := by
  induction k with
  | zero => simp [hW]
  | succ k ih =>
    obtain ⟨ihW, ihlen, ihget⟩ := ih (by omega)
    rw [List.range_succ, List.foldl_append]
    simp only [List.foldl_cons, List.foldl_nil, Mat.setAt_cols, Mat.setAt_data,
      List.length_set, ihW]
    refine ⟨trivial, ihlen, ?_⟩
    intro r c hc
    rw [List.getElem?_set, ihget r c hc, ihlen]
    by_cases hidx : row * 640 + k = r * 640 + c
    · have hr : r = row := by omega
      have hck : c = k := by omega
      subst hr; subst hck
      by_cases hlt : r * 640 + c < dm.data.length
      · simp [hlt]
      · have hnone : dm.data[r * 640 + c]? = none := List.getElem?_eq_none (by omega)
        simp [hlt, hnone]
    · have hne : ¬ (r = row ∧ c = k) := by
        rintro ⟨rfl, rfl⟩; exact hidx rfl
      rw [if_neg hidx]
      by_cases hcond : r = row ∧ c < k ∧ r * 640 + c < dm.data.length
      · have hcond2 : r = row ∧ c < k + 1 ∧ r * 640 + c < dm.data.length :=
          ⟨hcond.1, by omega, hcond.2.2⟩
        rw [if_pos hcond, if_pos hcond2]
      · have hcond2 : ¬ (r = row ∧ c < k + 1 ∧ r * 640 + c < dm.data.length) := by
          rintro ⟨h1, h2, h3⟩
          by_cases hck : c = k
          · exact hne ⟨h1, hck⟩
          · exact hcond ⟨h1, by omega, h3⟩
        rw [if_neg hcond, if_neg hcond2]

theorem renderRow_spec (rb : List Mat) (t : Int) (row : Nat) (dm : Mat) (hW : dm.cols = 640) :
    (renderRow rb t row dm).cols = 640 ∧
    (renderRow rb t row dm).data.length = dm.data.length ∧
    ∀ r c, c < 640 →
      (renderRow rb t row dm).data[r * 640 + c]? =
        if r = row ∧ r * 640 + c < dm.data.length then some (maskValue rb t row c)
        else dm.data[r * 640 + c]? := by
  unfold renderRow
  rw [hW]
  obtain ⟨h1, h2, h3⟩ := setAt_fold_cols (fun col => maskValue rb t row col) row dm hW 640
    (le_refl _)
  refine ⟨h1, h2, ?_⟩
  intro r c hc
  rw [h3 r c hc]
  simp only [hc, true_and]

theorem render_fold_rows (rb : List Mat) (t : Int) (dm : Mat) (hW : dm.cols = 640) (k : Nat) :
    ((List.range k).foldl (fun d row => renderRow rb t row d) dm).cols = 640 ∧
    ((List.range k).foldl (fun d row => renderRow rb t row d) dm).data.length =
      dm.data.length ∧
    ∀ r c, c < 640 →
      ((List.range k).foldl (fun d row => renderRow rb t row d) dm).data[r * 640 + c]? =
        if r < k ∧ r * 640 + c < dm.data.length then some (maskValue rb t r c)
        else dm.data[r * 640 + c]? := by
  induction k with
  | zero => simp [hW]
  | succ k ih =>
    obtain ⟨ihW, ihlen, ihget⟩ := ih
    rw [List.range_succ, List.foldl_append]
    simp only [List.foldl_cons, List.foldl_nil]
    obtain ⟨h1, h2, h3⟩ := renderRow_spec rb t k _ ihW
    refine ⟨h1, h2.trans ihlen, ?_⟩
    intro r c hc
    rw [h3 r c hc, ihget r c hc, ihlen]
    by_cases hlt : r * 640 + c < dm.data.length
    · by_cases hrk : r = k
      · subst hrk; simp [hlt]
      · by_cases hr : r < k
        · have : r < k + 1 := by omega
          simp [hrk, hr, this, hlt]
        · have : ¬ r < k + 1 := by omega
          simp [hrk, hr, this]
    · simp [hlt]

/-- Reading the computed `drawMask` at a pixel of the 480 × 640 grid gives the value
the loop body computed for that pixel. -/
theorem renderRingBuffer_pixelAt (s : State) (r c : Nat) (hr : r < 480) (hc : c < 640) :
    (renderRingBuffer s).pixelAt r c =
      ((maskValue s.ringBuffer s.diffThresh r c).val : Int) := by
  obtain ⟨h1, _, h3⟩ :=
    render_fold_rows s.ringBuffer s.diffThresh (Mat.zeros 480 640) (Mat.zeros_cols 480 640) 480
  have hget := h3 r c hc
  have hidx : r * 640 + c < 480 * 640 := by omega
  rw [Mat.zeros_data_length, if_pos ⟨hr, hidx⟩] at hget
  have hdef : renderRingBuffer s =
      (List.range 480).foldl (fun d row => renderRow s.ringBuffer s.diffThresh row d)
        (Mat.zeros 480 640) := by
    unfold renderRingBuffer
    simp only [Mat.zeros_rows]
  rw [hdef]
  unfold Mat.pixelAt
  rw [h1, List.getD_eq_getElem?_getD, hget, Option.getD_some]

theorem fold_setAt_zero (rows cols row : Nat) (colsList : List Nat) :
    colsList.foldl (fun d col => d.setAt row col 0) (Mat.zeros rows cols) =
      Mat.zeros rows cols := by
  induction colsList with
  | nil => rfl
  | cons col rest ih =>
    rw [List.foldl_cons]
    have : (Mat.zeros rows cols).setAt row col 0 = Mat.zeros rows cols := by
      simp [Mat.setAt, Mat.zeros]
    rw [this, ih]

theorem fold_renderRow_nil (t : Int) (rowsList : List Nat) :
    rowsList.foldl (fun d row => renderRow [] t row d) (Mat.zeros 480 640) =
      Mat.zeros 480 640 := by
  induction rowsList with
  | nil => exact List.foldl_nil
  | cons row rest ih =>
    have hrow : renderRow [] t row (Mat.zeros 480 640) = Mat.zeros 480 640 := by
      unfold renderRow
      simp only [maskValue_nil]
      exact fold_setAt_zero 480 640 row _
    rw [List.foldl_cons, hrow, ih]

theorem renderRingBuffer_of_empty (s : State) (h : s.ringBuffer = []) :
    renderRingBuffer s = Mat.zeros 480 640 := by
  unfold renderRingBuffer
  rw [h]
  exact fold_renderRow_nil s.diffThresh _

/-! ### Population statistics -/

theorem sum_sq_dev (xs : List ℚ) (mean : ℚ) :
    (xs.map (fun x => (x - mean) ^ 2)).sum =
      (xs.map (fun x => x ^ 2)).sum - 2 * mean * xs.sum + (xs.length : ℚ) * mean ^ 2 := by
  induction xs with
  | nil => simp
  | cons x xs ih =>
    simp only [List.map_cons, List.sum_cons, List.length_cons, ih]
    push_cast
    ring

theorem popVariance_eq (xs : List ℚ) (hne : xs ≠ []) :
    popVariance xs =
      ((xs.length : ℚ) * (xs.map (fun x => x ^ 2)).sum - xs.sum ^ 2) / (xs.length : ℚ) ^ 2 := by
  have hlen : (xs.length : ℚ) ≠ 0 := by
    have : xs.length ≠ 0 := fun h => hne (List.length_eq_zero.mp h)
    exact_mod_cast this
  rw [popVariance, sum_sq_dev, popMean]
  field_simp
  ring

theorem popVariance_nonneg (xs : List ℚ) : 0 ≤ popVariance xs := by
  unfold popVariance
  apply div_nonneg
  · apply List.sum_nonneg
    intro y hy
    obtain ⟨x, _, rfl⟩ := List.mem_map.mp hy
    exact sq_nonneg _
  · exact Nat.cast_nonneg _

theorem popVariance_replicate (n : Nat) (x : ℚ) : popVariance (List.replicate n x) = 0 := by
  by_cases hn : n = 0
  · subst hn; simp [popVariance]
  · have hq : (n : ℚ) ≠ 0 := by exact_mod_cast hn
    have hmean : popMean (List.replicate n x) = x := by
      simp [popMean, List.sum_replicate, hq]
    simp [popVariance, hmean]

theorem pixelSumSq_cast (rb : List Mat) (row col : Nat) :
    ((pixelSumSq rb row col : Int) : ℚ) = ((samplesAt rb row col).map (fun x => x ^ 2)).sum := by
  unfold pixelSumSq samplesAt
  induction rb with
  | nil => simp
  | cons m rb ih => simp [ih]

/-- The integer form of the threshold test: for `t ≥ 0`, `t² < variance` exactly when
`t² n² < n Σx² − (Σx)²`. -/
theorem variance_test_int (rb : List Mat) (t : Int) (row col : Nat) (hne : rb ≠ []) :
    (t : ℚ) * (t : ℚ) < popVariance (samplesAt rb row col) ↔
      t ^ 2 * (rb.length : Int) ^ 2 <
        (rb.length : Int) * pixelSumSq rb row col - pixelSum rb row col ^ 2 := by
  have hne2 : samplesAt rb row col ≠ [] := by
    intro h
    apply hne
    have := congrArg List.length h
    rw [samplesAt_length] at this
    exact List.length_eq_zero.mp this
  have hpos : (0 : ℚ) < (rb.length : ℚ) ^ 2 := by
    have : rb.length ≠ 0 := fun h => hne (List.length_eq_zero.mp h)
    have h2 : (rb.length : ℚ) ≠ 0 := by exact_mod_cast this
    positivity
  rw [popVariance_eq _ hne2, samplesAt_length, ← pixelSumSq_cast, ← pixelSum_cast,
    lt_div_iff₀ hpos]
  constructor
  · intro h
    have h2 : ((t ^ 2 * (rb.length : Int) ^ 2 : Int) : ℚ) <
        (((rb.length : Int) * pixelSumSq rb row col - pixelSum rb row col ^ 2 : Int) : ℚ) := by
      push_cast
      linarith
    exact_mod_cast h2
  · intro h
    have h2 : ((t ^ 2 * (rb.length : Int) ^ 2 : Int) : ℚ) <
        (((rb.length : Int) * pixelSumSq rb row col - pixelSum rb row col ^ 2 : Int) : ℚ) := by
      exact_mod_cast h
    push_cast at h2
    linarith

theorem maskValue_val (rb : List Mat) (row col : Nat) :
    ∃ x : FloatVal, ∀ t : Int,
      ((maskValue rb t row col).val : Int) = if FloatVal.sqrtExceeds x t then 255 else 0 := by
  refine ⟨FloatVal.div
    (sumSquaredDifferences rb
      (FloatVal.div (FloatVal.ofInt (pixelSum rb row col)) (FloatVal.ofSize rb.length)) row col)
    (FloatVal.ofSize rb.length), fun t => ?_⟩
  unfold maskValue
  simp only
  split <;> rfl

theorem uniformFrame_hasSize (v : UChar) : (uniformFrame v).HasSize 480 640 :=
  ⟨rfl, rfl, List.length_replicate _ _⟩

/-! ### The mask on a non-empty buffer -/

/-- The mask in the exact reading of the `float` operations: for a non-empty buffer of
480 × 640 frames, a threshold `t ≥ 0` and a pixel `(r, c)` of the grid, the value
written is 255 exactly when the population standard deviation of the buffered samples
at `(r, c)` is strictly greater than `t`, and 0 otherwise; equivalently, 255 exactly
when `t² n² < n Σx² − (Σx)²`.  (`renderRingBuffer32_flags_iff` is the statement for the
binary32 arithmetic of the code.) -/
theorem renderRingBuffer_flags_iff (s : State) (r c : Nat)
    (hne : s.ringBuffer ≠ []) (_hsize : ∀ m ∈ s.ringBuffer, m.HasSize 480 640)
    (ht : 0 ≤ s.diffThresh) (hr : r < 480) (hc : c < 640) :
    ((renderRingBuffer s).pixelAt r c = 255 ↔
      (s.diffThresh : ℝ) < Real.sqrt ((popVariance (samplesAt s.ringBuffer r c) : ℚ) : ℝ)) ∧
    ((renderRingBuffer s).pixelAt r c = 0 ↔
      ¬ (s.diffThresh : ℝ) < Real.sqrt ((popVariance (samplesAt s.ringBuffer r c) : ℚ) : ℝ)) ∧
    ((renderRingBuffer s).pixelAt r c = 255 ↔
      s.diffThresh ^ 2 * (s.ringBuffer.length : Int) ^ 2 <
        (s.ringBuffer.length : Int) * pixelSumSq s.ringBuffer r c -
          pixelSum s.ringBuffer r c ^ 2) := by
  have hreal := sqrtExceeds_num_iff (popVariance (samplesAt s.ringBuffer r c)) s.diffThresh
    (popVariance_nonneg _)
  have hint := variance_test_int s.ringBuffer s.diffThresh r c hne
  have hq : ¬ popVariance (samplesAt s.ringBuffer r c) < 0 := not_lt.mpr (popVariance_nonneg _)
  have hexc : FloatVal.sqrtExceeds (FloatVal.num (popVariance (samplesAt s.ringBuffer r c)))
      s.diffThresh = true ↔
      (s.diffThresh : ℚ) * (s.diffThresh : ℚ) < popVariance (samplesAt s.ringBuffer r c) := by
    simp only [FloatVal.sqrtExceeds, if_neg hq, Bool.or_eq_true, decide_eq_true_eq]
    constructor
    · rintro (h | h)
      · omega
      · exact h
    · exact Or.inr
  rw [renderRingBuffer_pixelAt s r c hr hc, maskValue_of_ne_nil _ _ _ _ hne]
  by_cases hflag : FloatVal.sqrtExceeds
      (FloatVal.num (popVariance (samplesAt s.ringBuffer r c))) s.diffThresh = true
  · rw [if_pos hflag]
    refine ⟨?_, ?_, ?_⟩
    · exact ⟨fun _ => hreal.mp hflag, fun _ => rfl⟩
    · constructor
      · intro h; exact absurd h (by decide)
      · intro h; exact absurd (hreal.mp hflag) h
    · exact ⟨fun _ => hint.mp (hexc.mp hflag), fun _ => rfl⟩
  · rw [if_neg hflag]
    refine ⟨?_, ?_, ?_⟩
    · constructor
      · intro h; exact absurd h (by decide)
      · intro h; exact absurd (hreal.mpr h) hflag
    · exact ⟨fun _ h => hflag (hreal.mpr h), fun _ => rfl⟩
    · constructor
      · intro h; exact absurd h (by decide)
      · intro h; exact absurd (hexc.mpr (hint.mpr h)) hflag

theorem uniformFrame_pixelAt (v : UChar) (r c : Nat) (hr : r < 480) (hc : c < 640) :
    (uniformFrame v).pixelAt r c = (v.val : Int) := by
  have hidx : r * 640 + c < 480 * 640 := by omega
  have hget : (List.replicate (480 * 640) v)[r * 640 + c]? = some v := by
    rw [List.getElem?_replicate, if_pos hidx]
  unfold Mat.pixelAt
  rw [List.getD_eq_getElem?_getD]
  show ((((List.replicate (480 * 640) v)[r * 640 + c]?).getD 0).val : Int) = (v.val : Int)
  rw [hget, Option.getD_some]

theorem twoSlotState_frames : ∀ m ∈ twoSlotState.ringBuffer, m.HasSize 480 640 := by
  intro m hm
  have : m = uniformFrame 1 ∨ m = uniformFrame 2 := by
    simpa [twoSlotState] using hm
  rcases this with rfl | rfl <;> exact uniformFrame_hasSize _

theorem renderRingBuffer_flags_iff_witness :
    twoSlotState.ringBuffer ≠ [] ∧ (∀ m ∈ twoSlotState.ringBuffer, m.HasSize 480 640) ∧
    0 ≤ twoSlotState.diffThresh ∧ 0 < 480 ∧ 0 < 640 ∧
    (((renderRingBuffer twoSlotState).pixelAt 0 0 = 255 ↔
      (twoSlotState.diffThresh : ℝ) <
        Real.sqrt ((popVariance (samplesAt twoSlotState.ringBuffer 0 0) : ℚ) : ℝ)) ∧
    ((renderRingBuffer twoSlotState).pixelAt 0 0 = 0 ↔
      ¬ (twoSlotState.diffThresh : ℝ) <
        Real.sqrt ((popVariance (samplesAt twoSlotState.ringBuffer 0 0) : ℚ) : ℝ)) ∧
    ((renderRingBuffer twoSlotState).pixelAt 0 0 = 255 ↔
      twoSlotState.diffThresh ^ 2 * (twoSlotState.ringBuffer.length : Int) ^ 2 <
        (twoSlotState.ringBuffer.length : Int) * pixelSumSq twoSlotState.ringBuffer 0 0 -
          pixelSum twoSlotState.ringBuffer 0 0 ^ 2)) :=
  ⟨List.cons_ne_nil _ _, twoSlotState_frames, by decide, by decide, by decide,
    renderRingBuffer_flags_iff twoSlotState 0 0 (List.cons_ne_nil _ _) twoSlotState_frames
      (by decide) (by decide) (by decide)⟩

/-- C8, as stated, fails: at startup the buffer is empty, the specification's
`computeMask` is `NotReady`, and `renderRingBuffer` signals nothing and computes the
full all-zero mask. -/
theorem render_empty_signals_nothing :
    State.initial.ringBuffer = [] ∧ specComputeMask State.initial = none ∧
    some (renderRingBuffer State.initial) ≠ specComputeMask State.initial ∧
    renderRingBuffer State.initial = Mat.zeros 480 640 :=
  ⟨rfl, rfl, fun h => Option.noConfusion h, renderRingBuffer_of_empty State.initial rfl⟩

/-- C8, amended: on an empty buffer `renderRingBuffer` signals no condition; for every
threshold it computes the complete 480 × 640 mask, which is 0 at every pixel (both
divisions are `0 / 0`, and the comparison of NaN with the threshold is false). -/
theorem render_empty_mask_zero (s : State) (hempty : s.ringBuffer = []) :
    renderRingBuffer s = Mat.zeros 480 640 ∧
    (renderRingBuffer s).HasSize 480 640 ∧
    ∀ r c, (renderRingBuffer s).pixelAt r c = 0 := by
  rw [renderRingBuffer_of_empty s hempty]
  refine ⟨rfl, ⟨rfl, rfl, Mat.zeros_data_length 480 640⟩, ?_⟩
  intro r c
  unfold Mat.pixelAt
  rw [List.getD_eq_getElem?_getD]
  show ((((List.replicate (480 * 640) (0 : UChar))[r * 640 + c]?).getD 0).val : Int) = 0
  rw [List.getElem?_replicate]
  split <;> rfl

theorem render_empty_mask_zero_witness :
    (emptyRingBuffer twoSlotState).ringBuffer = [] ∧
    (renderRingBuffer (emptyRingBuffer twoSlotState) = Mat.zeros 480 640 ∧
    (renderRingBuffer (emptyRingBuffer twoSlotState)).HasSize 480 640 ∧
    ∀ r c, (renderRingBuffer (emptyRingBuffer twoSlotState)).pixelAt r c = 0) :=
  ⟨rfl, render_empty_mask_zero (emptyRingBuffer twoSlotState) rfl⟩

/-! ### Threshold monotonicity -/

/-- C10: for a fixed buffer and thresholds `t1 ≤ t2`, a pixel of the grid that the mask
computed with threshold `t2` flags (255) is also flagged by the mask computed with
threshold `t1`. -/
theorem threshold_monotone (s : State) (t1 t2 : Int) (r c : Nat) (h : t1 ≤ t2)
    (hr : r < 480) (hc : c < 640)
    (hflag : (renderRingBuffer { s with diffThresh := t2 }).pixelAt r c = 255) :
    (renderRingBuffer { s with diffThresh := t1 }).pixelAt r c = 255 := by
  obtain ⟨x, hx⟩ := maskValue_val s.ringBuffer r c
  rw [renderRingBuffer_pixelAt _ r c hr hc] at hflag ⊢
  simp only [hx] at hflag ⊢
  by_cases h2 : FloatVal.sqrtExceeds x t2 = true
  · rw [if_pos (sqrtExceeds_mono x t1 t2 h h2)]
  · rw [if_neg h2] at hflag
    exact absurd hflag (by decide)

theorem contrastState_flagged :
    (renderRingBuffer { contrastState with diffThresh := 100 }).pixelAt 0 0 = 255 := by
  rw [renderRingBuffer_pixelAt _ 0 0 (by decide) (by decide)]
  have hs : samplesAt [uniformFrame 0, uniformFrame 255] 0 0 = [0, 255] := by
    simp [samplesAt, uniformFrame_pixelAt]
    rfl
  show ((maskValue [uniformFrame 0, uniformFrame 255] 100 0 0).val : Int) = 255
  have hexc : FloatVal.sqrtExceeds (FloatVal.num (popVariance [0, 255])) 100 = true := by
    norm_num [popVariance, popMean, FloatVal.sqrtExceeds]
  rw [maskValue_of_ne_nil _ _ _ _ (List.cons_ne_nil _ _), hs, if_pos hexc]
  rfl

theorem threshold_monotone_witness :
    (10 : Int) ≤ 100 ∧ 0 < 480 ∧ 0 < 640 ∧
    (renderRingBuffer { contrastState with diffThresh := 100 }).pixelAt 0 0 = 255 ∧
    (renderRingBuffer { contrastState with diffThresh := 10 }).pixelAt 0 0 = 255 :=
  ⟨by decide, by decide, by decide, contrastState_flagged,
    threshold_monotone contrastState 10 100 0 0 (by decide) (by decide) (by decide)
      contrastState_flagged⟩

/-! ### The boundary case -/

/-- The boundary case in the exact reading of the `float` operations: for a non-empty
buffer of 480 × 640 frames and a pixel of the grid whose population standard deviation
equals the threshold exactly, the value written is 0 (the comparison is strict).
(`boundary_not_flagged32` is the statement for the binary32 arithmetic of the code.) -/
theorem boundary_not_flagged (s : State) (r c : Nat)
    (hne : s.ringBuffer ≠ []) (_hsize : ∀ m ∈ s.ringBuffer, m.HasSize 480 640)
    (hr : r < 480) (hc : c < 640)
    (hsd : Real.sqrt ((popVariance (samplesAt s.ringBuffer r c) : ℚ) : ℝ) =
      (s.diffThresh : ℝ)) :
    (renderRingBuffer s).pixelAt r c = 0 := by
  have hreal := sqrtExceeds_num_iff (popVariance (samplesAt s.ringBuffer r c)) s.diffThresh
    (popVariance_nonneg _)
  have hnot : ¬ FloatVal.sqrtExceeds
      (FloatVal.num (popVariance (samplesAt s.ringBuffer r c))) s.diffThresh = true := by
    intro h
    have := hreal.mp h
    rw [hsd] at this
    exact lt_irrefl _ this
  rw [renderRingBuffer_pixelAt s r c hr hc, maskValue_of_ne_nil _ _ _ _ hne, if_neg hnot]
  rfl

theorem samplesAt_pair (a b : UChar) (r c : Nat) (hr : r < 480) (hc : c < 640) :
    samplesAt [uniformFrame a, uniformFrame b] r c = [((a.val : Int) : ℚ), ((b.val : Int) : ℚ)] := by
  simp [samplesAt, uniformFrame_pixelAt _ r c hr hc]

theorem boundaryState_frames : ∀ m ∈ boundaryState.ringBuffer, m.HasSize 480 640 := by
  intro m hm
  have : m = uniformFrame 0 ∨ m = uniformFrame 20 := by
    simpa [boundaryState] using hm
  rcases this with rfl | rfl <;> exact uniformFrame_hasSize _

theorem boundaryState_stdDev :
    Real.sqrt ((popVariance (samplesAt boundaryState.ringBuffer 0 0) : ℚ) : ℝ) =
      (boundaryState.diffThresh : ℝ) := by
  have hs : samplesAt boundaryState.ringBuffer 0 0 = [0, 20] := by
    show samplesAt [uniformFrame 0, uniformFrame 20] 0 0 = [0, 20]
    rw [samplesAt_pair 0 20 0 0 (by decide) (by decide)]
    rfl
  have hv : popVariance ([0, 20] : List ℚ) = 100 := by
    norm_num [popVariance, popMean]
  have ht : (boundaryState.diffThresh : ℝ) = 10 := by
    show (((10 : Int)) : ℝ) = 10
    norm_num
  rw [hs, hv, ht]
  have h100 : ((100 : ℚ) : ℝ) = (10 : ℝ) ^ 2 := by norm_num
  rw [h100, Real.sqrt_sq (by norm_num)]

theorem boundary_not_flagged_witness :
    boundaryState.ringBuffer ≠ [] ∧ (∀ m ∈ boundaryState.ringBuffer, m.HasSize 480 640) ∧
    0 < 480 ∧ 0 < 640 ∧
    Real.sqrt ((popVariance (samplesAt boundaryState.ringBuffer 0 0) : ℚ) : ℝ) =
      (boundaryState.diffThresh : ℝ) ∧
    (renderRingBuffer boundaryState).pixelAt 0 0 = 0 :=
  ⟨List.cons_ne_nil _ _, boundaryState_frames, by decide, by decide, boundaryState_stdDev,
    boundary_not_flagged boundaryState 0 0 (List.cons_ne_nil _ _) boundaryState_frames
      (by decide) (by decide) boundaryState_stdDev⟩

/-! ### Order independence -/

theorem popVariance_perm {xs ys : List ℚ} (h : xs.Perm ys) : popVariance xs = popVariance ys := by
  have hmean : popMean xs = popMean ys := by
    unfold popMean
    rw [h.sum_eq, h.length_eq]
  unfold popVariance
  rw [hmean, (h.map (fun x => (x - popMean ys) ^ 2)).sum_eq, h.length_eq]

theorem maskValue_perm {rb1 rb2 : List Mat} (h : rb1.Perm rb2) (t : Int) (row col : Nat) :
    maskValue rb1 t row col = maskValue rb2 t row col := by
  by_cases hne : rb1 = []
  · subst hne
    rw [← h.nil_eq]
  · have hne2 : rb2 ≠ [] := fun h2 => hne (by rw [h2] at h; exact h.eq_nil)
    have hs : (samplesAt rb1 row col).Perm (samplesAt rb2 row col) := h.map _
    rw [maskValue_of_ne_nil _ _ _ _ hne, maskValue_of_ne_nil _ _ _ _ hne2, popVariance_perm hs]

/-- In the exact reading of the `float` operations the mask does not depend on the
order of the stored frames: two states whose buffers are permutations of one another and
whose thresholds agree get the same `drawMask`, whatever their `ringBufferOldest`.
(`renderRingBuffer32_perm` is the statement for the binary32 arithmetic of the code.) -/
theorem renderRingBuffer_perm (s1 s2 : State) (hperm : s1.ringBuffer.Perm s2.ringBuffer)
    (ht : s1.diffThresh = s2.diffThresh) :
    renderRingBuffer s1 = renderRingBuffer s2 := by
  have hmv : ∀ row col, maskValue s1.ringBuffer s1.diffThresh row col =
      maskValue s2.ringBuffer s2.diffThresh row col := by
    intro row col
    rw [ht]
    exact maskValue_perm hperm _ row col
  unfold renderRingBuffer renderRow
  simp only [hmv]

theorem renderRingBuffer_perm_witness :
    twoSlotState.ringBuffer.Perm
      ({ twoSlotState with
          ringBuffer := [uniformFrame 2, uniformFrame 1], ringBufferOldest := 0 } :
        State).ringBuffer ∧
    twoSlotState.diffThresh =
      ({ twoSlotState with
          ringBuffer := [uniformFrame 2, uniformFrame 1], ringBufferOldest := 0 } :
        State).diffThresh ∧
    renderRingBuffer twoSlotState =
      renderRingBuffer { twoSlotState with
        ringBuffer := [uniformFrame 2, uniformFrame 1], ringBufferOldest := 0 } :=
  ⟨List.Perm.swap _ _ _, rfl,
    renderRingBuffer_perm twoSlotState _ (List.Perm.swap _ _ _) rfl⟩

/-! ### The concrete scenarios -/

theorem addAll_three_depth_one (s0 : State) (a b c : Mat)
    (hempty : s0.ringBuffer = []) (hold : s0.ringBufferOldest = 0)
    (hN : s0.prevFramesToStore = 1) :
    addAll s0 [a, b, c] = some { s0 with ringBuffer := [b, c], ringBufferOldest := 0 } := by
  have h1 : addToRingBuffer s0 a = some { s0 with ringBuffer := [a, a] } := by
    rw [addToRingBuffer_of_empty s0 a hempty, hN]
    rfl
  have h2 : addToRingBuffer { s0 with ringBuffer := [a, a] } b =
      some { s0 with ringBuffer := [b, a], ringBufferOldest := 1 } := by
    rw [addToRingBuffer_of_slot _ b 0 (by simp) (by simpa using hold)]
    rfl
  have h3 : addToRingBuffer { s0 with ringBuffer := [b, a], ringBufferOldest := 1 } c =
      some { s0 with ringBuffer := [b, c], ringBufferOldest := 0 } := by
    rw [addToRingBuffer_of_slot _ c 1 (by simp) rfl]
    rfl
  simp [addAll, h1, h2, h3]

theorem addAll_three_depth_two (s0 : State) (a b c : Mat)
    (hempty : s0.ringBuffer = []) (hold : s0.ringBufferOldest = 0)
    (hN : s0.prevFramesToStore = 2) :
    addAll s0 [a, b, c] = some { s0 with ringBuffer := [b, c, a], ringBufferOldest := 2 } := by
  have h1 : addToRingBuffer s0 a = some { s0 with ringBuffer := [a, a, a] } := by
    rw [addToRingBuffer_of_empty s0 a hempty, hN]
    rfl
  have h2 : addToRingBuffer { s0 with ringBuffer := [a, a, a] } b =
      some { s0 with ringBuffer := [b, a, a], ringBufferOldest := 1 } := by
    rw [addToRingBuffer_of_slot _ b 0 (by simp) (by simpa using hold)]
    rfl
  have h3 : addToRingBuffer { s0 with ringBuffer := [b, a, a], ringBufferOldest := 1 } c =
      some { s0 with ringBuffer := [b, c, a], ringBufferOldest := 2 } := by
    rw [addToRingBuffer_of_slot _ c 1 (by simp) rfl]
    rfl
  simp [addAll, h1, h2, h3]

theorem samplesAt_black_white (r c : Nat) (hr : r < 480) (hc : c < 640) :
    samplesAt [uniformFrame 0, uniformFrame 255] r c = [0, 255] := by
  rw [samplesAt_pair 0 255 r c hr hc]
  rfl

theorem popMean_black_white : popMean ([0, 255] : List ℚ) = 255 / 2 := by
  norm_num [popMean]

theorem popVariance_black_white : popVariance ([0, 255] : List ℚ) = 65025 / 4 := by
  norm_num [popVariance, popMean]

/-- C12, as stated, fails: with `prevFramesToStore = 1` the three pushes leave two
frames, the samples at pixel `(0, 0)` are 0 and 255, and their mean and population
variance are not 85 and 14450. -/
theorem scenario_samples_counterexample :
    ∃ s, addAll depthOneStart [uniformFrame 0, uniformFrame 0, uniformFrame 255] = some s ∧
      samplesAt s.ringBuffer 0 0 = [0, 255] ∧
      (samplesAt s.ringBuffer 0 0).length ≠ 3 ∧
      popMean (samplesAt s.ringBuffer 0 0) ≠ 85 ∧
      popVariance (samplesAt s.ringBuffer 0 0) ≠ 14450 := by
  refine ⟨_, addAll_three_depth_one depthOneStart _ _ _ rfl rfl rfl, ?_⟩
  have hs := samplesAt_black_white 0 0 (by decide) (by decide)
  simp only [hs, popMean_black_white, popVariance_black_white]
  refine ⟨trivial, by decide, ?_, ?_⟩ <;> norm_num

/-- C12, amended: with `prevFramesToStore = 1`, pushing two all-zero frames and one
all-255 frame from the empty buffer leaves the two frames all-zero and all-255; at every
pixel of the grid the samples are 0 and 255, with mean 127.5 and population variance
16256.25. -/
theorem scenario_samples (s0 : State) (r c : Nat)
    (hempty : s0.ringBuffer = []) (hold : s0.ringBufferOldest = 0)
    (hN : s0.prevFramesToStore = 1) (hr : r < 480) (hc : c < 640) :
    ∃ s, addAll s0 [uniformFrame 0, uniformFrame 0, uniformFrame 255] = some s ∧
      s.ringBuffer = [uniformFrame 0, uniformFrame 255] ∧
      samplesAt s.ringBuffer r c = [0, 255] ∧
      popMean (samplesAt s.ringBuffer r c) = 255 / 2 ∧
      popVariance (samplesAt s.ringBuffer r c) = 65025 / 4 := by
  refine ⟨_, addAll_three_depth_one s0 _ _ _ hempty hold hN, rfl, ?_⟩
  have hs := samplesAt_black_white r c hr hc
  simp only [hs, popMean_black_white, popVariance_black_white]
  exact ⟨trivial, trivial, trivial⟩

theorem scenario_samples_witness :
    depthOneStart.ringBuffer = [] ∧ depthOneStart.ringBufferOldest = 0 ∧
    depthOneStart.prevFramesToStore = 1 ∧ 3 < 480 ∧ 5 < 640 ∧
    ∃ s, addAll depthOneStart [uniformFrame 0, uniformFrame 0, uniformFrame 255] = some s ∧
      s.ringBuffer = [uniformFrame 0, uniformFrame 255] ∧
      samplesAt s.ringBuffer 3 5 = [0, 255] ∧
      popMean (samplesAt s.ringBuffer 3 5) = 255 / 2 ∧
      popVariance (samplesAt s.ringBuffer 3 5) = 65025 / 4 :=
  ⟨rfl, rfl, rfl, by decide, by decide,
    scenario_samples depthOneStart 3 5 rfl rfl rfl (by decide) (by decide)⟩

/-- The figures of the scenario (samples 0, 0, 255, mean 85, population variance 14450)
are those of the same three pushes with `prevFramesToStore = 2`, three buffered frames. -/
theorem scenario_samples_depth_two (s0 : State) (r c : Nat)
    (hempty : s0.ringBuffer = []) (hold : s0.ringBufferOldest = 0)
    (hN : s0.prevFramesToStore = 2) (hr : r < 480) (hc : c < 640) :
    ∃ s, addAll s0 [uniformFrame 0, uniformFrame 0, uniformFrame 255] = some s ∧
      samplesAt s.ringBuffer r c = [0, 255, 0] ∧
      popMean (samplesAt s.ringBuffer r c) = 85 ∧
      popVariance (samplesAt s.ringBuffer r c) = 14450 := by
  refine ⟨_, addAll_three_depth_two s0 _ _ _ hempty hold hN, ?_⟩
  have hs : samplesAt [uniformFrame 0, uniformFrame 255, uniformFrame 0] r c = [0, 255, 0] := by
    simp only [samplesAt, List.map_cons, List.map_nil, uniformFrame_pixelAt _ r c hr hc]
    rfl
  simp only [hs]
  refine ⟨trivial, ?_, ?_⟩ <;> norm_num [popVariance, popMean]

theorem mask_black_white (t : Int) (r c : Nat) (hr : r < 480) (hc : c < 640) :
    maskValue [uniformFrame 0, uniformFrame 255] t r c =
      if t < 0 ∨ (t : ℚ) * (t : ℚ) < 65025 / 4 then 255 else 0 := by
  rw [maskValue_of_ne_nil _ _ _ _ (List.cons_ne_nil _ _), samplesAt_black_white r c hr hc,
    popVariance_black_white]
  have hq : ¬ ((65025 / 4 : ℚ) < 0) := by norm_num
  simp only [FloatVal.sqrtExceeds, if_neg hq, Bool.or_eq_true, decide_eq_true_eq]

/-- C13: with `prevFramesToStore = 1`, after pushing two all-zero frames and one
all-255 frame from the empty buffer, the mask computed with threshold 100 is 255 at
every pixel of the grid and the mask computed with threshold 150 is 0 at every pixel. -/
theorem scenario_masks (s0 : State) (r c : Nat)
    (hempty : s0.ringBuffer = []) (hold : s0.ringBufferOldest = 0)
    (hN : s0.prevFramesToStore = 1) (hr : r < 480) (hc : c < 640) :
    ∃ s, addAll s0 [uniformFrame 0, uniformFrame 0, uniformFrame 255] = some s ∧
      (renderRingBuffer { s with diffThresh := 100 }).pixelAt r c = 255 ∧
      (renderRingBuffer { s with diffThresh := 150 }).pixelAt r c = 0 := by
  refine ⟨_, addAll_three_depth_one s0 _ _ _ hempty hold hN, ?_, ?_⟩
  · rw [renderRingBuffer_pixelAt _ r c hr hc]
    show ((maskValue [uniformFrame 0, uniformFrame 255] 100 r c).val : Int) = 255
    rw [mask_black_white 100 r c hr hc, if_pos (by norm_num)]
    rfl
  · rw [renderRingBuffer_pixelAt _ r c hr hc]
    show ((maskValue [uniformFrame 0, uniformFrame 255] 150 r c).val : Int) = 0
    rw [mask_black_white 150 r c hr hc, if_neg (by norm_num)]
    rfl

theorem scenario_masks_witness :
    depthOneStart.ringBuffer = [] ∧ depthOneStart.ringBufferOldest = 0 ∧
    depthOneStart.prevFramesToStore = 1 ∧ 479 < 480 ∧ 639 < 640 ∧
    ∃ s, addAll depthOneStart [uniformFrame 0, uniformFrame 0, uniformFrame 255] = some s ∧
      (renderRingBuffer { s with diffThresh := 100 }).pixelAt 479 639 = 255 ∧
      (renderRingBuffer { s with diffThresh := 150 }).pixelAt 479 639 = 0 :=
  ⟨rfl, rfl, rfl, by decide, by decide,
    scenario_masks depthOneStart 479 639 rfl rfl rfl (by decide) (by decide)⟩

/-! ### Equal samples -/

theorem maskValue_of_variance_zero (rb : List Mat) (t : Int) (row col : Nat) (hne : rb ≠ [])
    (hvar : popVariance (samplesAt rb row col) = 0) (ht : 0 ≤ t) :
    maskValue rb t row col = 0 := by
  have hnot : ¬ (t < 0) := not_lt.mpr ht
  have hsq : ¬ ((t : ℚ) * (t : ℚ) < 0) := not_lt.mpr (mul_self_nonneg _)
  rw [maskValue_of_ne_nil _ _ _ _ hne, hvar]
  simp [FloatVal.sqrtExceeds, hnot, hsq]

theorem popVariance_of_equal_samples (rb : List Mat) (row col : Nat) (x : Int)
    (hx : ∀ m ∈ rb, m.pixelAt row col = x) :
    popVariance (samplesAt rb row col) = 0 := by
  have hrep : samplesAt rb row col = List.replicate rb.length (x : ℚ) := by
    rw [List.eq_replicate_iff]
    refine ⟨samplesAt_length rb row col, ?_⟩
    intro y hy
    obtain ⟨m, hm, rfl⟩ := List.mem_map.mp hy
    rw [hx m hm]
  rw [hrep, popVariance_replicate]

theorem holdsLast_mem {d : Nat} {hist : List Mat} {s : State} (h : HoldsLast d hist s) :
    s.ringBuffer ≠ [] ∧ ∀ m ∈ s.ringBuffer, m ∈ hist := by
  obtain ⟨_, a, b, hrb, _, hb, hba⟩ := h
  refine ⟨?_, ?_⟩
  · rw [hrb]
    intro hnil
    exact hb (List.append_eq_nil.mp hnil).2
  · intro m hm
    rw [hrb] at hm
    have : m ∈ b ++ a := by
      rcases List.mem_append.mp hm with h1 | h1
      · exact List.mem_append.mpr (Or.inr h1)
      · exact List.mem_append.mpr (Or.inl h1)
    rw [hba] at this
    exact List.mem_of_mem_drop this

/-- After any non-empty list of pushes from an empty buffer with
`prevFramesToStore = N ≥ 0`, the buffer is not empty and holds only frames that were
pushed. -/
theorem addAll_from_empty (s0 : State) (N : Nat) (frames : List Mat)
    (hempty : s0.ringBuffer = []) (hold : s0.ringBufferOldest = 0)
    (hN : s0.prevFramesToStore = (N : Int)) (hne : frames ≠ []) :
    ∃ s f1 rest, frames = f1 :: rest ∧ addAll s0 frames = some s ∧
      HoldsLast (N + 1) (List.replicate (N + 1) f1 ++ rest) s ∧
      s.ringBuffer ≠ [] ∧ ∀ m ∈ s.ringBuffer, m ∈ frames := by
  cases frames with
  | nil => exact absurd rfl hne
  | cons f1 rest =>
    have htoNat : (s0.prevFramesToStore + 1).toNat = N + 1 := by rw [hN]; omega
    have h0 : HoldsLast (N + 1) (List.replicate (N + 1) f1)
        { s0 with ringBuffer := List.replicate (N + 1) f1 } := by
      refine ⟨by simp, [], List.replicate (N + 1) f1, by simp, by simpa using hold, ?_, by simp⟩
      simp [List.replicate_succ]
    obtain ⟨s, hs, hlast⟩ := holdsLast_addAll rest _ _ h0
    refine ⟨s, f1, rest, rfl, ?_, hlast, (holdsLast_mem hlast).1, ?_⟩
    · simp [addAll, addToRingBuffer_of_empty s0 f1 hempty, htoNat, hs]
    · intro m hm
      have := (holdsLast_mem hlast).2 m hm
      rcases List.mem_append.mp this with h1 | h1
      · rw [(List.mem_replicate.mp h1).2]
        exact List.mem_cons_self _ _
      · exact List.mem_cons_of_mem _ h1

theorem drop_length_pred_eq_getLast (l : List Mat) (hne : l ≠ []) :
    l.drop (l.length - 1) = [l.getLast hne] := by
  have h := List.dropLast_append_getLast hne
  have hlen : l.length - 1 = l.dropLast.length := by simp
  calc l.drop (l.length - 1)
      = (l.dropLast ++ [l.getLast hne]).drop (l.length - 1) := by rw [h]
    _ = [l.getLast hne] := by rw [hlen]; exact List.drop_left _ _

/-! ### Depth one buffer -/

/-- C14: with `prevFramesToStore = 0`, after any non-empty sequence of pushes of
480 × 640 frames from the empty buffer the buffer holds exactly one frame, the last one
pushed, and for every threshold `t ≥ 0` the mask computed from it is 0 at every pixel of
the grid. -/
theorem single_slot_buffer (s0 : State) (frames : List Mat) (t : Int) (r c : Nat)
    (hempty : s0.ringBuffer = []) (hold : s0.ringBufferOldest = 0)
    (hN : s0.prevFramesToStore = 0) (hne : frames ≠ [])
    (_hsize : ∀ f ∈ frames, f.HasSize 480 640) (ht : 0 ≤ t) (hr : r < 480) (hc : c < 640) :
    ∃ s, addAll s0 frames = some s ∧ s.ringBuffer = [frames.getLast hne] ∧
      (renderRingBuffer { s with diffThresh := t }).pixelAt r c = 0 := by
  obtain ⟨s, f1, rest, hfr, hs, hlast, _, _⟩ :=
    addAll_from_empty s0 0 frames hempty hold (by simpa using hN) hne
  obtain ⟨_, a, b, hrb, _, hb, hba⟩ := hlast
  have hhist : (List.replicate (0 + 1) f1 ++ rest) = frames := by
    rw [hfr]; rfl
  rw [hhist, drop_length_pred_eq_getLast frames hne] at hba
  have hlen := congrArg List.length hba
  simp only [List.length_append, List.length_singleton] at hlen
  have hbpos : 0 < b.length := List.length_pos.mpr hb
  have ha : a = [] := List.length_eq_zero.mp (by omega)
  subst ha
  have hbuf : s.ringBuffer = [frames.getLast hne] := by
    rw [hrb, ← hba]; simp
  refine ⟨s, hs, hbuf, ?_⟩
  rw [renderRingBuffer_pixelAt _ r c hr hc]
  show ((maskValue s.ringBuffer t r c).val : Int) = 0
  have hvar : popVariance (samplesAt s.ringBuffer r c) = 0 := by
    apply popVariance_of_equal_samples _ _ _ ((frames.getLast hne).pixelAt r c)
    intro m hm
    rw [hbuf] at hm
    rw [List.mem_singleton.mp hm]
  rw [maskValue_of_variance_zero _ t r c (by rw [hbuf]; exact List.cons_ne_nil _ _) hvar ht]
  rfl

theorem single_slot_buffer_witness :
    depthZeroStart.ringBuffer = [] ∧ depthZeroStart.ringBufferOldest = 0 ∧
    depthZeroStart.prevFramesToStore = 0 ∧ [uniformFrame 3, uniformFrame 200] ≠ [] ∧
    (∀ f ∈ [uniformFrame 3, uniformFrame 200], f.HasSize 480 640) ∧
    (0 : Int) ≤ 0 ∧ 0 < 480 ∧ 0 < 640 ∧
    ∃ s, addAll depthZeroStart [uniformFrame 3, uniformFrame 200] = some s ∧
      s.ringBuffer =
        [[uniformFrame 3, uniformFrame 200].getLast (List.cons_ne_nil _ _)] ∧
      (renderRingBuffer { s with diffThresh := 0 }).pixelAt 0 0 = 0 :=
  ⟨rfl, rfl, rfl, List.cons_ne_nil _ _,
    fun f hf => by
      have : f = uniformFrame 3 ∨ f = uniformFrame 200 := by simpa using hf
      rcases this with rfl | rfl <;> exact uniformFrame_hasSize _,
    by decide, by decide, by decide,
    single_slot_buffer depthZeroStart [uniformFrame 3, uniformFrame 200] 0 0 0 rfl rfl rfl
      (List.cons_ne_nil _ _)
      (fun f hf => by
        have : f = uniformFrame 3 ∨ f = uniformFrame 200 := by simpa using hf
        rcases this with rfl | rfl <;> exact uniformFrame_hasSize _)
      (by decide) (by decide) (by decide)⟩

/-! ### The first frames after a reset -/

/-- C15, as stated, fails: pushing a 1 × 1 frame onto a buffer of two 480 × 640 frames
is not rejected; the frame replaces the one in the oldest slot and the index moves on. -/
theorem mismatched_push_counterexample :
    (∀ m ∈ twoSlotState.ringBuffer, m.rows = 480 ∧ m.cols = 640) ∧
    smallFrame.rows = 1 ∧ smallFrame.cols = 1 ∧
    ∃ s1, addToRingBuffer twoSlotState smallFrame = some s1 ∧
      s1.ringBuffer = [uniformFrame 1, smallFrame] ∧
      s1.ringBuffer ≠ twoSlotState.ringBuffer ∧
      s1.ringBufferOldest = 0 ∧ twoSlotState.ringBufferOldest = 1 := by
  refine ⟨?_, rfl, rfl, ?_⟩
  · intro m hm
    have hs := twoSlotState_frames m hm
    exact ⟨hs.1, hs.2.1⟩
  · have hadd : addToRingBuffer twoSlotState smallFrame =
        some { twoSlotState with
          ringBuffer := [uniformFrame 1, smallFrame], ringBufferOldest := 0 } := by
      rw [addToRingBuffer_of_slot twoSlotState smallFrame 1 (by simp [twoSlotState]) rfl]
      rfl
    refine ⟨_, hadd, rfl, ?_, rfl, rfl⟩
    intro h
    have h2 : smallFrame = uniformFrame 2 := by
      have h3 : [uniformFrame 1, smallFrame] = [uniformFrame 1, uniformFrame 2] := h
      exact (List.cons.inj (List.cons.inj h3).2).1
    exact absurd (congrArg Mat.rows h2) (by decide)

/-- C15, amended: `addToRingBuffer` makes no dimension check.  On a non-empty buffer
whose `ringBufferOldest` is the slot `i < size`, a frame whose dimensions differ from
those of every stored frame is accepted like any other: it replaces the frame in slot
`i`, the size stays the same and the index advances, so the buffer changes.  A buffer
of at least two slots then holds the new frame together with a frame of other
dimensions; a buffer of one slot then holds the new frame alone. -/
theorem push_ignores_dimensions (s : State) (f : Mat) (i : Nat)
    (hi : i < s.ringBuffer.length) (ho : s.ringBufferOldest = (i : Int))
    (hdim : ∀ m ∈ s.ringBuffer, m.rows ≠ f.rows ∨ m.cols ≠ f.cols) :
    ∃ s1, addToRingBuffer s f = some s1 ∧
      s1.ringBuffer = s.ringBuffer.set i f ∧
      s1.ringBuffer[i]? = some f ∧
      s1.ringBuffer.length = s.ringBuffer.length ∧
      s1.ringBufferOldest = (((i + 1) % s.ringBuffer.length : Nat) : Int) ∧
      s1.ringBuffer ≠ s.ringBuffer ∧
      (2 ≤ s.ringBuffer.length →
        f ∈ s1.ringBuffer ∧ ∃ m ∈ s1.ringBuffer, m.rows ≠ f.rows ∨ m.cols ≠ f.cols) ∧
      (s.ringBuffer.length = 1 → s1.ringBuffer = [f]) := by
  have hget : (s.ringBuffer.set i f)[i]? = some f := by
    simp [List.getElem?_set, hi]
  refine ⟨_, addToRingBuffer_of_slot s f i hi ho, rfl, hget, by simp, ?_, ?_, ?_, ?_⟩
  · by_cases hlast : i + 1 = s.ringBuffer.length
    · simp [hlast]
    · have hlt : i + 1 < s.ringBuffer.length := by omega
      simp [hlast, Nat.mod_eq_of_lt hlt]
  · intro heq
    have hmem : f ∈ s.ringBuffer := by
      have h1 : s.ringBuffer[i]? = some f := by
        have h2 : (s.ringBuffer.set i f)[i]? = s.ringBuffer[i]? := congrArg (fun l => l[i]?) heq
        rw [← h2]; exact hget
      exact List.getElem?_mem h1
    rcases hdim f hmem with h | h <;> exact h rfl
  · intro h2
    refine ⟨List.getElem?_mem hget, ?_⟩
    obtain ⟨j, hj, hji⟩ : ∃ j, j < s.ringBuffer.length ∧ i ≠ j := by
      by_cases h0 : i = 0
      · exact ⟨1, by omega, by omega⟩
      · exact ⟨0, by omega, h0⟩
    have hsame : (s.ringBuffer.set i f)[j]? = some (s.ringBuffer.get ⟨j, hj⟩) := by
      rw [List.getElem?_set_ne hji]
      exact List.getElem?_eq_getElem hj
    exact ⟨s.ringBuffer.get ⟨j, hj⟩, List.getElem?_mem hsame,
      hdim _ (List.get_mem _ _ _)⟩
  · intro h1
    have hi0 : i = 0 := by omega
    subst hi0
    match hrb : s.ringBuffer, h1 with
    | [m], _ => rfl

theorem push_ignores_dimensions_witness :
    1 < twoSlotState.ringBuffer.length ∧ twoSlotState.ringBufferOldest = ((1 : Nat) : Int) ∧
    (∀ m ∈ twoSlotState.ringBuffer, m.rows ≠ smallFrame.rows ∨ m.cols ≠ smallFrame.cols) ∧
    ∃ s1, addToRingBuffer twoSlotState smallFrame = some s1 ∧
      s1.ringBuffer = twoSlotState.ringBuffer.set 1 smallFrame ∧
      s1.ringBuffer[1]? = some smallFrame ∧
      s1.ringBuffer.length = twoSlotState.ringBuffer.length ∧
      s1.ringBufferOldest = (((1 + 1) % twoSlotState.ringBuffer.length : Nat) : Int) ∧
      s1.ringBuffer ≠ twoSlotState.ringBuffer ∧
      (2 ≤ twoSlotState.ringBuffer.length →
        smallFrame ∈ s1.ringBuffer ∧
          ∃ m ∈ s1.ringBuffer, m.rows ≠ smallFrame.rows ∨ m.cols ≠ smallFrame.cols) ∧
      (twoSlotState.ringBuffer.length = 1 → s1.ringBuffer = [smallFrame]) :=
  ⟨by simp [twoSlotState], rfl,
    fun m hm => Or.inl (by rw [(twoSlotState_frames m hm).1]; decide),
    push_ignores_dimensions twoSlotState smallFrame 1 (by simp [twoSlotState]) rfl
      (fun m hm => Or.inl (by rw [(twoSlotState_frames m hm).1]; decide))⟩

/-! ### The per-frame step -/

theorem pixelSum_take_le (rb : List Mat) (row col k : Nat) :
    0 ≤ pixelSum (rb.take k) row col ∧
      pixelSum (rb.take k) row col ≤ 255 * (rb.length : Int) := by
  have h := pixelSum_le (rb.take k) row col
  have hlen : (rb.take k).length ≤ rb.length := by
    rw [List.length_take]; exact Nat.min_le_right _ _
  have hlen2 : ((rb.take k).length : Int) ≤ (rb.length : Int) := by exact_mod_cast hlen
  constructor
  · exact h.1
  · have := h.2
    omega

/-- C18: in the per-frame step of `process` from a reachable state (where
`prevFramesToStore ≥ 0`), the push succeeds and the buffer is not empty when the mask is
computed, so both divisions by `ringBuffer.size()` have a non-zero divisor and give
numbers, the mean and the population variance of the samples; and when `prevFramesToStore ≤ 100` the buffer has at most 101 frames and the
`int` sum of line 99 stays, after every iteration, between 0 and `101 * 255`, below
`2 ^ 31`. -/
theorem process_frame_safe (s : State) (f : Mat) (h : Reachable s) :
    0 ≤ s.prevFramesToStore ∧
    ∃ s1, processFrame s f = some (s1, renderRingBuffer s1) ∧
      s1.ringBuffer ≠ [] ∧ s1.ringBuffer.length ≠ 0 ∧
      (∀ r c,
        FloatVal.div (FloatVal.ofInt (pixelSum s1.ringBuffer r c))
          (FloatVal.ofSize s1.ringBuffer.length) =
            FloatVal.num (popMean (samplesAt s1.ringBuffer r c)) ∧
        FloatVal.div
          (sumSquaredDifferences s1.ringBuffer
            (FloatVal.num (popMean (samplesAt s1.ringBuffer r c))) r c)
          (FloatVal.ofSize s1.ringBuffer.length) =
            FloatVal.num (popVariance (samplesAt s1.ringBuffer r c))) ∧
      (s.prevFramesToStore ≤ 100 →
        s1.ringBuffer.length ≤ 101 ∧
        ∀ r c k, 0 ≤ pixelSum (s1.ringBuffer.take k) r c ∧
          pixelSum (s1.ringBuffer.take k) r c ≤ 101 * 255 ∧ (101 * 255 : Int) < 2 ^ 31) := by
  obtain ⟨hN, _⟩ := reachable_inv h
  obtain ⟨s1, hs1⟩ : ∃ s1, addToRingBuffer s f = some s1 := by
    rcases (reachable_inv h).2 with ⟨hempty, _⟩ | ⟨_, hlo, hhi⟩
    · exact ⟨_, addToRingBuffer_of_empty s f hempty⟩
    · obtain ⟨i, hi⟩ := Int.eq_ofNat_of_zero_le hlo
      exact ⟨_, addToRingBuffer_of_slot s f i (by omega) hi⟩
  have hlen1 : (s1.ringBuffer.length : Int) = s.prevFramesToStore + 1 := by
    rcases (reachable_inv h).2 with ⟨hempty, _⟩ | ⟨hlen, hlo, hhi⟩
    · rw [addToRingBuffer_of_empty s f hempty] at hs1
      cases hs1
      simp only [List.length_replicate]; omega
    · obtain ⟨i, hi⟩ := Int.eq_ofNat_of_zero_le hlo
      rw [addToRingBuffer_of_slot s f i (by omega) hi] at hs1
      cases hs1
      simpa using hlen
  have hpos : s1.ringBuffer.length ≠ 0 := by omega
  have hne : s1.ringBuffer ≠ [] := fun hnil => hpos (by rw [hnil]; rfl)
  have hq : (s1.ringBuffer.length : ℚ) ≠ 0 := by exact_mod_cast hpos
  refine ⟨hN, s1, by simp [processFrame, hs1], hne, hpos, ?_, ?_⟩
  · intro r c
    constructor
    · simp only [FloatVal.div, FloatVal.ofInt, FloatVal.ofSize, if_neg hq, pixelSum_cast,
        popMean, samplesAt_length]
    · rw [sumSquaredDifferences_num]
      simp only [FloatVal.div, FloatVal.ofSize, if_neg hq, popVariance, samplesAt_length]
  · intro h100
    have hle : s1.ringBuffer.length ≤ 101 := by omega
    refine ⟨hle, fun r c k => ?_⟩
    have hb := pixelSum_take_le s1.ringBuffer r c k
    have hle2 : (s1.ringBuffer.length : Int) ≤ 101 := by exact_mod_cast hle
    refine ⟨hb.1, by omega, by norm_num⟩

theorem process_frame_safe_witness :
    Reachable State.initial ∧
    (0 ≤ State.initial.prevFramesToStore ∧
    ∃ s1, processFrame State.initial (uniformFrame 7) = some (s1, renderRingBuffer s1) ∧
      s1.ringBuffer ≠ [] ∧ s1.ringBuffer.length ≠ 0 ∧
      (∀ r c,
        FloatVal.div (FloatVal.ofInt (pixelSum s1.ringBuffer r c))
          (FloatVal.ofSize s1.ringBuffer.length) =
            FloatVal.num (popMean (samplesAt s1.ringBuffer r c)) ∧
        FloatVal.div
          (sumSquaredDifferences s1.ringBuffer
            (FloatVal.num (popMean (samplesAt s1.ringBuffer r c))) r c)
          (FloatVal.ofSize s1.ringBuffer.length) =
            FloatVal.num (popVariance (samplesAt s1.ringBuffer r c))) ∧
      (State.initial.prevFramesToStore ≤ 100 →
        s1.ringBuffer.length ≤ 101 ∧
        ∀ r c k, 0 ≤ pixelSum (s1.ringBuffer.take k) r c ∧
          pixelSum (s1.ringBuffer.take k) r c ≤ 101 * 255 ∧ (101 * 255 : Int) < 2 ^ 31)) :=
  ⟨Reachable.init, process_frame_safe State.initial (uniformFrame 7) Reachable.init⟩

/-! ### The key handlers -/

theorem keyDecreaseThreshold_value (pos : Int) (report : Option Int) (s : State) :
    (keyDecreaseThreshold pos report s).diffThresh = if pos - 1 < 0 then pos else pos - 1 := by
  cases report with
  | none =>
    simp only [keyDecreaseThreshold, setDiffThresholdTrackbarPos]
    split
    · simp only; omega
    · simp only
  | some v =>
    simp only [keyDecreaseThreshold, setDiffThresholdTrackbarPos, onDiffThresholdTrackbar]
    split
    · simp only; omega
    · simp only

theorem keyIncreaseThreshold_value (pos : Int) (report : Option Int) (s : State) :
    (keyIncreaseThreshold pos report s).diffThresh = if pos + 1 > 100 then pos else pos + 1 := by
  cases report with
  | none =>
    simp only [keyIncreaseThreshold, setDiffThresholdTrackbarPos]
    split
    · simp only; omega
    · simp only
  | some v =>
    simp only [keyIncreaseThreshold, setDiffThresholdTrackbarPos, onDiffThresholdTrackbar]
    split
    · simp only; omega
    · simp only

theorem processKey_digits (pos : Int) (report : Option Int) (s : State) :
    processKey '1' pos report s = (keyDecreaseThreshold pos report s, false) ∧
    processKey '2' pos report s = (keyIncreaseThreshold pos report s, false) ∧
    processKey '3' pos report s = (keyDecreaseFrames pos report s, false) ∧
    processKey '4' pos report s = (keyIncreaseFrames pos report s, false) := by
  refine ⟨?_, ?_, ?_, ?_⟩ <;> simp [processKey]

/-- C19: for a trackbar position `0 ≤ p ≤ 100`, whatever the library does on
`setTrackbarPos`, the key cases of `process` leave `diffThresh = max (p - 1) 0` for
`'1'` and `min (p + 1) 100` for `'2'`, and `prevFramesToStore = max (p - 1) 0` for `'3'`
and `min (p + 1) 100` for `'4'`; each of these values lies in `0 .. 100`. -/
theorem key_handlers_clamp (p : Int) (report : Option Int) (s : State)
    (h0 : 0 ≤ p) (h100 : p ≤ 100) :
    (processKey '1' p report s).1.diffThresh = max (p - 1) 0 ∧
    (processKey '2' p report s).1.diffThresh = min (p + 1) 100 ∧
    (processKey '3' p report s).1.prevFramesToStore = max (p - 1) 0 ∧
    (processKey '4' p report s).1.prevFramesToStore = min (p + 1) 100 ∧
    (0 ≤ (processKey '1' p report s).1.diffThresh ∧
      (processKey '1' p report s).1.diffThresh ≤ 100) ∧
    (0 ≤ (processKey '2' p report s).1.diffThresh ∧
      (processKey '2' p report s).1.diffThresh ≤ 100) ∧
    (0 ≤ (processKey '3' p report s).1.prevFramesToStore ∧
      (processKey '3' p report s).1.prevFramesToStore ≤ 100) ∧
    (0 ≤ (processKey '4' p report s).1.prevFramesToStore ∧
      (processKey '4' p report s).1.prevFramesToStore ≤ 100) := by
  obtain ⟨k1, k2, k3, k4⟩ := processKey_digits p report s
  rw [k1, k2, k3, k4]
  simp only [keyDecreaseThreshold_value, keyIncreaseThreshold_value, keyDecreaseFrames_depth,
    keyIncreaseFrames_depth]
  have e1 : (if p - 1 < 0 then p else p - 1) = max (p - 1) 0 := by
    split
    · rw [max_eq_right (by omega)]; omega
    · rw [max_eq_left (by omega)]
  have e2 : (if p + 1 > 100 then p else p + 1) = min (p + 1) 100 := by
    split
    · rw [min_eq_right (by omega)]; omega
    · rw [min_eq_left (by omega)]
  rw [e1, e2]
  have b1 : 0 ≤ max (p - 1) 0 ∧ max (p - 1) 0 ≤ 100 :=
    ⟨le_max_right _ _, max_le (by omega) (by omega)⟩
  have b2 : 0 ≤ min (p + 1) 100 ∧ min (p + 1) 100 ≤ 100 :=
    ⟨le_min (by omega) (by omega), min_le_right _ _⟩
  exact ⟨rfl, rfl, rfl, rfl, b1, b2, b1, b2⟩

theorem key_handlers_clamp_witness :
    (0 : Int) ≤ 100 ∧ (100 : Int) ≤ 100 ∧
    ((processKey '1' 100 (some 4) twoSlotState).1.diffThresh = max (100 - 1) 0 ∧
    (processKey '2' 100 (some 4) twoSlotState).1.diffThresh = min (100 + 1) 100 ∧
    (processKey '3' 100 (some 4) twoSlotState).1.prevFramesToStore = max (100 - 1) 0 ∧
    (processKey '4' 100 (some 4) twoSlotState).1.prevFramesToStore = min (100 + 1) 100 ∧
    (0 ≤ (processKey '1' 100 (some 4) twoSlotState).1.diffThresh ∧
      (processKey '1' 100 (some 4) twoSlotState).1.diffThresh ≤ 100) ∧
    (0 ≤ (processKey '2' 100 (some 4) twoSlotState).1.diffThresh ∧
      (processKey '2' 100 (some 4) twoSlotState).1.diffThresh ≤ 100) ∧
    (0 ≤ (processKey '3' 100 (some 4) twoSlotState).1.prevFramesToStore ∧
      (processKey '3' 100 (some 4) twoSlotState).1.prevFramesToStore ≤ 100) ∧
    (0 ≤ (processKey '4' 100 (some 4) twoSlotState).1.prevFramesToStore ∧
      (processKey '4' 100 (some 4) twoSlotState).1.prevFramesToStore ≤ 100)) :=
  ⟨by decide, by decide, key_handlers_clamp 100 (some 4) twoSlotState (by decide) (by decide)⟩

/-! ## Theorems: single precision -/

/-! ### Rounding -/

theorem roundHalfEven_intCast (z : Int) : roundHalfEven (z : ℚ) = z := by
  simp [roundHalfEven]

theorem floor_le_roundHalfEven (x : ℚ) : ⌊x⌋ ≤ roundHalfEven x := by
  unfold roundHalfEven
  simp only
  split
  · exact le_refl _
  · split
    · omega
    · split <;> omega

theorem roundHalfEven_neg (x : ℚ) (hx : x ≤ -1) : roundHalfEven x < 0 := by
  have h1 : (⌊x⌋ : ℚ) ≤ x := Int.floor_le x
  have h2 : x < (⌊x⌋ : ℚ) + 1 := Int.lt_floor_add_one x
  have hf : ⌊x⌋ ≤ -1 := by
    have : (⌊x⌋ : ℚ) ≤ -1 := le_trans h1 hx
    exact_mod_cast this
  unfold roundHalfEven
  simp only
  by_cases hc : x - (⌊x⌋ : ℚ) < 1 / 2
  · rw [if_pos hc]; omega
  · have hf2 : ⌊x⌋ ≤ -2 := by
      by_contra hcon
      have hfe : ⌊x⌋ = -1 := by omega
      rw [hfe] at hc h1
      push_cast at hc h1
      apply hc
      linarith
    rw [if_neg hc]
    split
    · omega
    · split <;> omega

theorem two_zpow_pos (k : Int) : (0 : ℚ) < (2 : ℚ) ^ k := zpow_pos (by norm_num) k

theorem log_abs_lt_of_rep (M k : Int) (hM0 : M ≠ 0) (hM : |M| < 2 ^ 24) :
    Int.log 2 |(M : ℚ) * (2 : ℚ) ^ k| < 24 + k := by
  have hq : (0 : ℚ) < |(M : ℚ) * (2 : ℚ) ^ k| := by
    apply abs_pos.mpr
    exact mul_ne_zero (by exact_mod_cast hM0) (ne_of_gt (two_zpow_pos k))
  rw [← Int.lt_zpow_iff_log_lt (by norm_num) hq]
  rw [abs_mul, abs_of_pos (two_zpow_pos k)]
  have hMq : |(M : ℚ)| < (2 : ℚ) ^ (24 : Int) := by
    have h1 : ((|M| : Int) : ℚ) < ((2 ^ 24 : Int) : ℚ) := by exact_mod_cast hM
    have h2 : ((|M| : Int) : ℚ) = |(M : ℚ)| := by push_cast; rfl
    have h3 : ((2 ^ 24 : Int) : ℚ) = (2 : ℚ) ^ (24 : Int) := by norm_num
    rw [h2, h3] at h1
    exact h1
  calc |(M : ℚ)| * (2 : ℚ) ^ k < (2 : ℚ) ^ (24 : Int) * (2 : ℚ) ^ k :=
        mul_lt_mul_of_pos_right hMq (two_zpow_pos k)
    _ = ((2 : ℕ) : ℚ) ^ (24 + k) := by
        rw [← zpow_add₀ (by norm_num : (2 : ℚ) ≠ 0)]; norm_num

/-- A number `M * 2 ^ k` with `|M| < 2 ^ 24` and `k ≥ -149` is on the binary32 grid:
rounding leaves it as it is. -/
theorem rnd_of_rep (M k : Int) (hM : |M| < 2 ^ 24) (hk : -149 ≤ k) :
    rnd ((M : ℚ) * (2 : ℚ) ^ k) = (M : ℚ) * (2 : ℚ) ^ k := by
  by_cases hM0 : M = 0
  · subst hM0; simp [rnd]
  have hq : (M : ℚ) * (2 : ℚ) ^ k ≠ 0 :=
    mul_ne_zero (by exact_mod_cast hM0) (ne_of_gt (two_zpow_pos k))
  have hlog := log_abs_lt_of_rep M k hM0 hM
  have hu : ulpExp ((M : ℚ) * (2 : ℚ) ^ k) ≤ k := by
    unfold ulpExp
    have : max (Int.log 2 |(M : ℚ) * (2 : ℚ) ^ k|) (-126) ≤ k + 23 := max_le (by omega) (by omega)
    omega
  obtain ⟨j, hj⟩ : ∃ j : ℕ, k = ulpExp ((M : ℚ) * (2 : ℚ) ^ k) + (j : Int) :=
    ⟨(k - ulpExp ((M : ℚ) * (2 : ℚ) ^ k)).toNat, by omega⟩
  have hdiv : (M : ℚ) * (2 : ℚ) ^ k / (2 : ℚ) ^ ulpExp ((M : ℚ) * (2 : ℚ) ^ k) =
      ((M * 2 ^ j : Int) : ℚ) := by
    generalize ulpExp ((M : ℚ) * (2 : ℚ) ^ k) = u at hj
    rw [hj, zpow_add₀ (by norm_num : (2 : ℚ) ≠ 0), zpow_natCast]
    push_cast
    field_simp
    ring
  unfold rnd
  rw [if_neg hq, hdiv, roundHalfEven_intCast, ← hdiv]
  field_simp

theorem rnd_intCast (i : Int) (hi : |i| < 2 ^ 24) : rnd (i : ℚ) = (i : ℚ) := by
  have := rnd_of_rep i 0 hi (by norm_num)
  simpa using this

theorem rnd_div64 (M : Int) (hM : |M| < 2 ^ 24) : rnd ((M : ℚ) / 64) = (M : ℚ) / 64 := by
  have h := rnd_of_rep M (-6) hM (by norm_num)
  have h64 : (M : ℚ) * (2 : ℚ) ^ (-6 : Int) = (M : ℚ) / 64 := by
    rw [zpow_neg, div_eq_mul_inv]
    norm_num
  rw [h64] at h
  exact h

theorem rnd_div512 (M : Int) (hM : |M| < 2 ^ 24) : rnd ((M : ℚ) / 512) = (M : ℚ) / 512 := by
  have h := rnd_of_rep M (-9) hM (by norm_num)
  have h512 : (M : ℚ) * (2 : ℚ) ^ (-9 : Int) = (M : ℚ) / 512 := by
    rw [zpow_neg, div_eq_mul_inv]
    norm_num
  rw [h512] at h
  exact h

theorem isqrtBits_spec (k n r : Nat) (h1 : r * r ≤ n) (h2 : n < (r + 2 ^ k) * (r + 2 ^ k)) :
    isqrtBits k n r * isqrtBits k n r ≤ n ∧
      n < (isqrtBits k n r + 1) * (isqrtBits k n r + 1) := by
  induction k generalizing r with
  | zero => simpa [isqrtBits] using And.intro h1 h2
  | succ k ih =>
    unfold isqrtBits
    split
    · rename_i hle
      apply ih _ hle
      have : r + 2 ^ k + 2 ^ k = r + 2 ^ (k + 1) := by rw [pow_succ]; omega
      rw [this]; exact h2
    · rename_i hle
      exact ih r h1 (not_le.mp hle)

theorem isqrt_spec (n : Nat) :
    isqrt n * isqrt n ≤ n ∧ n < (isqrt n + 1) * (isqrt n + 1) := by
  unfold isqrt
  apply isqrtBits_spec
  · simp
  · have h := @Nat.lt_log2_self n
    have hle : 2 ^ (n.log2 + 1) ≤ 2 ^ (2 * (n.log2 / 2 + 1)) :=
      Nat.pow_le_pow_right (by norm_num) (by omega)
    have hsq : (0 + 2 ^ (n.log2 / 2 + 1)) * (0 + 2 ^ (n.log2 / 2 + 1)) =
        2 ^ (2 * (n.log2 / 2 + 1)) := by
      rw [Nat.zero_add, ← pow_add]; congr 1; omega
    rw [hsq]
    omega

/-- The rounded integer: for an integer `N` with `s = isqrt N`, the nearest integer to
its square root is `s` when `N ≤ s² + s` and `s + 1` otherwise. -/
theorem nearest_root_le (N W s : Nat) (hs1 : s * s ≤ N) (hN : N ≤ W * W) :
    (if N ≤ s * s + s then s else s + 1) ≤ W := by
  have hsW : s ≤ W := by
    by_contra h
    have : W + 1 ≤ s := by omega
    have : (W + 1) * (W + 1) ≤ s * s := Nat.mul_le_mul this this
    nlinarith
  by_cases hcase : N ≤ s * s + s
  · rw [if_pos hcase]; exact hsW
  · rw [if_neg hcase]
    by_contra h
    have hEq : s = W := by omega
    subst hEq
    apply hcase
    omega

theorem nearest_root_gt (N W s g : Nat) (hs2 : N < (s + 1) * (s + 1)) (hN : W * W + g ≤ N)
    (hg : W < g) : W < (if N ≤ s * s + s then s else s + 1) := by
  have hWs : W ≤ s := by
    by_contra h
    have : s + 1 ≤ W := by omega
    have : (s + 1) * (s + 1) ≤ W * W := Nat.mul_le_mul this this
    omega
  by_cases hcase : N ≤ s * s + s
  · rw [if_pos hcase]
    by_contra h
    have hEq : s = W := by omega
    subst hEq
    omega
  · rw [if_neg hcase]; omega

theorem sqrtRound_eq (q : ℚ) (a N : Nat) (hu : Int.log 2 q / 2 - 23 = -(a : Int))
    (hx : q * (2 : ℚ) ^ (2 * a) = (N : ℚ)) :
    sqrtRound q =
      ((if N ≤ isqrt N * isqrt N + isqrt N then isqrt N else isqrt N + 1 : Nat) : ℚ) /
        (2 : ℚ) ^ a := by
  have hxx : q / (2 : ℚ) ^ (2 * (-(a : Int))) = (N : ℚ) := by
    rw [← hx, mul_neg, zpow_neg, div_eq_mul_inv, inv_inv]
    congr 1
    have : (2 * (a : Int)) = ((2 * a : Nat) : Int) := by push_cast; ring
    rw [this, zpow_natCast]
  unfold sqrtRound
  simp only [hu, hxx, Nat.floor_natCast]
  have hmid1 : ((N : ℚ) < (isqrt N : ℚ) * (isqrt N) + (isqrt N) + 1 / 4) ↔
      N ≤ isqrt N * isqrt N + isqrt N := by
    constructor
    · intro h
      by_contra hc
      have h1 : isqrt N * isqrt N + isqrt N + 1 ≤ N := by omega
      have h2 : ((isqrt N * isqrt N + isqrt N + 1 : Nat) : ℚ) ≤ (N : ℚ) := by exact_mod_cast h1
      push_cast at h2
      linarith
    · intro h
      have h2 : ((N : Nat) : ℚ) ≤ ((isqrt N * isqrt N + isqrt N : Nat) : ℚ) := by exact_mod_cast h
      push_cast at h2
      linarith
  have hmid2 : ((isqrt N : ℚ) * (isqrt N) + (isqrt N) + 1 / 4 < (N : ℚ)) ↔
      ¬ N ≤ isqrt N * isqrt N + isqrt N := by
    constructor
    · intro h hc
      have := hmid1.mpr hc
      linarith
    · intro h
      have h1 : isqrt N * isqrt N + isqrt N + 1 ≤ N := by omega
      have h2 : ((isqrt N * isqrt N + isqrt N + 1 : Nat) : ℚ) ≤ (N : ℚ) := by exact_mod_cast h1
      push_cast at h2
      linarith
  have hm : (if (N : ℚ) < (isqrt N : ℚ) * (isqrt N) + (isqrt N) + 1 / 4 then isqrt N
      else if (isqrt N : ℚ) * (isqrt N) + (isqrt N) + 1 / 4 < (N : ℚ) then isqrt N + 1
      else if isqrt N % 2 = 0 then isqrt N else isqrt N + 1) =
      (if N ≤ isqrt N * isqrt N + isqrt N then isqrt N else isqrt N + 1) := by
    by_cases hc : N ≤ isqrt N * isqrt N + isqrt N
    · rw [if_pos (hmid1.mpr hc), if_pos hc]
    · rw [if_neg (fun h => hc (hmid1.mp h)), if_pos (hmid2.mpr hc), if_neg hc]
  rw [hm, zpow_neg, zpow_natCast, div_eq_mul_inv]

theorem sqrtRound_gt_iff512 (M t : Nat) (hM0 : 0 < M) (hM : M < 2 ^ 23) :
    (t : ℚ) < sqrtRound ((M : ℚ) / 512) ↔ (t : ℚ) * t < (M : ℚ) / 512 := by
  have hq : (0 : ℚ) < (M : ℚ) / 512 := by positivity
  have hL : Int.log 2 ((M : ℚ) / 512) < 14 := by
    rw [← Int.lt_zpow_iff_log_lt (by norm_num) hq]
    have h1 : (M : ℚ) < 8388608 := by
      have h0 := hM
      norm_num at h0
      exact_mod_cast h0
    have h2 : ((2 : ℕ) : ℚ) ^ (14 : ℤ) = 16384 := by norm_num
    rw [h2, div_lt_iff₀ (by norm_num)]
    linarith
  obtain ⟨a, ha, ha17⟩ : ∃ a : Nat, Int.log 2 ((M : ℚ) / 512) / 2 - 23 = -(a : Int) ∧ 17 ≤ a := by
    refine ⟨(23 - Int.log 2 ((M : ℚ) / 512) / 2).toNat, ?_, ?_⟩
    · rw [Int.toNat_of_nonneg (by omega)]; ring
    · omega
  obtain ⟨b, rfl⟩ : ∃ b : Nat, a = b + 17 := ⟨a - 17, by omega⟩
  have hx : (M : ℚ) / 512 * (2 : ℚ) ^ (2 * (b + 17)) = ((M * 2 ^ (2 * b + 25) : Nat) : ℚ) := by
    push_cast
    have : (2 : ℚ) ^ (2 * (b + 17)) = 512 * 2 ^ (2 * b + 25) := by
      rw [show 2 * (b + 17) = 9 + (2 * b + 25) by ring, pow_add]; norm_num
    rw [this]; ring
  rw [sqrtRound_eq _ _ _ ha hx]
  set N := M * 2 ^ (2 * b + 25) with hN
  set W := t * 2 ^ (b + 17) with hW
  have hpos : (0 : ℚ) < (2 : ℚ) ^ (b + 17) := by positivity
  have hWW : W * W = 512 * t * t * 2 ^ (2 * b + 25) := by
    rw [hW, show 2 * b + 25 = (b + 17) + (b + 17) - 9 by omega]
    have : 2 ^ (b + 17 + (b + 17)) = 512 * 2 ^ (b + 17 + (b + 17) - 9) := by
      rw [show b + 17 + (b + 17) = 9 + (b + 17 + (b + 17) - 9) by omega, pow_add]
      norm_num
    calc t * 2 ^ (b + 17) * (t * 2 ^ (b + 17)) = t * t * 2 ^ (b + 17 + (b + 17)) := by
          rw [pow_add]; ring
      _ = _ := by rw [this]; ring
  have hlhs : ∀ m : Nat, ((t : ℚ) < (m : ℚ) / (2 : ℚ) ^ (b + 17)) ↔ W < m := by
    intro m
    rw [lt_div_iff₀ hpos]
    rw [hW]
    constructor
    · intro h; exact_mod_cast h
    · intro h; exact_mod_cast h
  have hrhs : ((t : ℚ) * t < (M : ℚ) / 512) ↔ 512 * t * t < M := by
    rw [lt_div_iff₀ (by norm_num)]
    constructor
    · intro h
      have : ((512 * t * t : Nat) : ℚ) < (M : ℚ) := by push_cast; linarith
      exact_mod_cast this
    · intro h
      have : ((512 * t * t : Nat) : ℚ) < (M : ℚ) := by exact_mod_cast h
      push_cast at this; linarith
  rw [hlhs, hrhs]
  have hp : 0 < 2 ^ (2 * b + 25) := by positivity
  constructor
  · intro h
    by_contra hc
    have hNW : N ≤ W * W := by
      rw [hWW, hN]
      exact Nat.mul_le_mul_right _ (by omega)
    have := nearest_root_le N W (isqrt N) (isqrt_spec N).1 hNW
    omega
  · intro h
    have ht : t < 128 := by
      by_contra hc
      have h1 : 128 * 128 ≤ t * t := Nat.mul_le_mul (by omega) (by omega)
      have h2 : 512 * t * t = 512 * (t * t) := by ring
      have h3 := hM
      norm_num at h3
      omega
    have hg : W < 2 ^ (2 * b + 25) := by
      rw [hW, show 2 * b + 25 = 8 + b + (b + 17) by ring, pow_add (2 : Nat) (8 + b) (b + 17)]
      apply Nat.mul_lt_mul_of_pos_right _ (by positivity)
      have : 2 ^ 8 ≤ 2 ^ (8 + b) := Nat.pow_le_pow_right (by norm_num) (by omega)
      omega
    have hNW : W * W + 2 ^ (2 * b + 25) ≤ N := by
      rw [hWW, hN]
      have : (512 * t * t + 1) * 2 ^ (2 * b + 25) ≤ M * 2 ^ (2 * b + 25) :=
        Nat.mul_le_mul_right _ (by omega)
      linarith
    exact nearest_root_gt N W (isqrt N) _ (isqrt_spec N).2 hNW hg

theorem rnd_nonneg (q : ℚ) (hq : 0 ≤ q) : 0 ≤ rnd q := by
  unfold rnd
  split
  · exact le_refl _
  · apply mul_nonneg _ (le_of_lt (two_zpow_pos _))
    have h1 : (0 : ℚ) ≤ q / (2 : ℚ) ^ ulpExp q := div_nonneg hq (le_of_lt (two_zpow_pos _))
    have h2 : (0 : Int) ≤ ⌊q / (2 : ℚ) ^ ulpExp q⌋ := Int.floor_nonneg.mpr h1
    have h3 := floor_le_roundHalfEven (q / (2 : ℚ) ^ ulpExp q)
    exact_mod_cast le_trans h2 h3

theorem ulpExp_of_one_le (q : ℚ) (hq : 1 ≤ |q|) :
    0 ≤ Int.log 2 |q| ∧ ulpExp q = Int.log 2 |q| - 23 := by
  have hpos : (0 : ℚ) < |q| := lt_of_lt_of_le one_pos hq
  have hL : 0 ≤ Int.log 2 |q| := by
    rw [← Int.zpow_le_iff_le_log (by norm_num) hpos]
    simpa using hq
  refine ⟨hL, ?_⟩
  unfold ulpExp
  rw [max_eq_left (by omega)]

theorem zpow_log_le_rnd (q : ℚ) (hq : 1 ≤ q) : ((2 : ℕ) : ℚ) ^ Int.log 2 q ≤ rnd q := by
  have hq0 : (0 : ℚ) < q := lt_of_lt_of_le one_pos hq
  have habs : |q| = q := abs_of_pos hq0
  obtain ⟨hL, hu⟩ := ulpExp_of_one_le q (by rw [habs]; exact hq)
  rw [habs] at hL hu
  have hle : ((2 : ℕ) : ℚ) ^ Int.log 2 q ≤ q := Int.zpow_log_le_self (by norm_num) hq0
  have hsplit : ((2 : ℕ) : ℚ) ^ Int.log 2 q = (2 : ℚ) ^ (23 : Int) * (2 : ℚ) ^ ulpExp q := by
    rw [← zpow_add₀ (by norm_num : (2 : ℚ) ≠ 0), hu]
    norm_num
  have h23 : (((2 ^ 23 : Int)) : ℚ) ≤ q / (2 : ℚ) ^ ulpExp q := by
    rw [le_div_iff₀ (two_zpow_pos _)]
    have : (((2 ^ 23 : Int)) : ℚ) = (2 : ℚ) ^ (23 : Int) := by norm_num
    rw [this, ← hsplit]
    exact hle
  have hfl : (2 ^ 23 : Int) ≤ ⌊q / (2 : ℚ) ^ ulpExp q⌋ := Int.le_floor.mpr h23
  have hr : ((2 ^ 23 : Int) : ℚ) ≤ (roundHalfEven (q / (2 : ℚ) ^ ulpExp q) : ℚ) := by
    exact_mod_cast le_trans hfl (floor_le_roundHalfEven _)
  unfold rnd
  rw [if_neg (ne_of_gt hq0), hsplit]
  apply mul_le_mul_of_nonneg_right _ (le_of_lt (two_zpow_pos _))
  have : (((2 ^ 23 : Int)) : ℚ) = (2 : ℚ) ^ (23 : Int) := by norm_num
  rw [← this]
  exact hr

theorem le_rnd_of_large (t : Int) (ht : 2 ^ 24 ≤ t) : (2 : ℚ) ^ (24 : Nat) ≤ rnd (t : ℚ) := by
  have htq : ((2 : ℕ) : ℚ) ^ (24 : Int) ≤ (t : ℚ) := by
    have : ((2 ^ 24 : Int) : ℚ) ≤ (t : ℚ) := by exact_mod_cast ht
    norm_num at this ⊢
    exact this
  have h1 : (1 : ℚ) ≤ (t : ℚ) := le_trans (by norm_num) htq
  have hpos : (0 : ℚ) < (t : ℚ) := lt_of_lt_of_le one_pos h1
  have hL : (24 : Int) ≤ Int.log 2 (t : ℚ) :=
    (Int.zpow_le_iff_le_log (by norm_num) hpos).mp htq
  have h2 : ((2 : ℕ) : ℚ) ^ (24 : Int) ≤ ((2 : ℕ) : ℚ) ^ Int.log 2 (t : ℚ) :=
    zpow_le_zpow_right₀ (by norm_num) hL
  have h3 := zpow_log_le_rnd (t : ℚ) h1
  have h4 : ((2 : ℕ) : ℚ) ^ (24 : Int) = (2 : ℚ) ^ (24 : Nat) := by norm_num
  rw [← h4]
  exact le_trans h2 h3

theorem rnd_neg_of_neg (t : Int) (ht : t ≤ -1) : rnd (t : ℚ) < 0 := by
  have htq : (t : ℚ) ≤ -1 := by exact_mod_cast ht
  have hneg : (t : ℚ) < 0 := by linarith
  have habs : |(t : ℚ)| = -(t : ℚ) := abs_of_neg hneg
  obtain ⟨hL, hu⟩ := ulpExp_of_one_le (t : ℚ) (by rw [habs]; linarith)
  have hpos : (0 : ℚ) < |(t : ℚ)| := by rw [habs]; linarith
  have hle : ((2 : ℕ) : ℚ) ^ Int.log 2 |(t : ℚ)| ≤ |(t : ℚ)| :=
    Int.zpow_log_le_self (by norm_num) hpos
  have hmono : ((2 : ℕ) : ℚ) ^ ulpExp (t : ℚ) ≤ ((2 : ℕ) : ℚ) ^ Int.log 2 |(t : ℚ)| :=
    zpow_le_zpow_right₀ (by norm_num) (by omega)
  have hx : (t : ℚ) / (2 : ℚ) ^ ulpExp (t : ℚ) ≤ -1 := by
    rw [div_le_iff₀ (two_zpow_pos _)]
    have h2 : ((2 : ℕ) : ℚ) = (2 : ℚ) := by norm_num
    rw [h2] at hmono hle
    rw [habs] at hle hmono
    linarith
  have hr := roundHalfEven_neg _ hx
  unfold rnd
  rw [if_neg (ne_of_lt hneg)]
  apply mul_neg_of_neg_of_pos _ (two_zpow_pos _)
  exact_mod_cast hr

theorem sqrtRound_nonneg (q : ℚ) : 0 ≤ sqrtRound q := by
  unfold sqrtRound
  simp only
  exact mul_nonneg (Nat.cast_nonneg _) (le_of_lt (two_zpow_pos _))

namespace FloatVal

theorem round32_div64 (M : Int) (hM : |M| < 2 ^ 24) :
    round32 (num ((M : ℚ) / 64)) = num ((M : ℚ) / 64) := by
  show (if (2 : ℚ) ^ (128 : Nat) ≤ |rnd ((M : ℚ) / 64)| then inf (decide ((M : ℚ) / 64 < 0))
    else num (rnd ((M : ℚ) / 64))) = num ((M : ℚ) / 64)
  rw [rnd_div64 M hM]
  have hlt : |(M : ℚ) / 64| < (2 : ℚ) ^ (128 : Nat) := by
    have h1 : ((|M| : Int) : ℚ) < ((2 ^ 24 : Int) : ℚ) := by exact_mod_cast hM
    have h2 : ((|M| : Int) : ℚ) = |(M : ℚ)| := by push_cast; rfl
    rw [h2] at h1
    rw [abs_div, abs_of_pos (by norm_num : (0 : ℚ) < 64)]
    have h3 : |(M : ℚ)| / 64 ≤ |(M : ℚ)| := by
      apply div_le_self (abs_nonneg _); norm_num
    have h4 : ((2 ^ 24 : Int) : ℚ) ≤ (2 : ℚ) ^ (128 : Nat) := by norm_num
    linarith
  rw [if_neg (not_le.mpr hlt)]

end FloatVal

theorem roundHalfEven_of_near (x : ℚ) (M : Int) (h : |x - (M : ℚ)| < 1 / 2) :
    roundHalfEven x = M := by
  have h1 := (abs_lt.mp h).1
  have h2 := (abs_lt.mp h).2
  have hfl1 : (⌊x⌋ : ℚ) ≤ x := Int.floor_le x
  have hfl2 : x < (⌊x⌋ : ℚ) + 1 := Int.lt_floor_add_one x
  by_cases hx : (M : ℚ) ≤ x
  · have hf : ⌊x⌋ = M := by
      rw [Int.floor_eq_iff]
      exact ⟨hx, by linarith⟩
    unfold roundHalfEven
    simp only
    rw [hf, if_pos (by linarith)]
  · have hx2 : x < (M : ℚ) := not_le.mp hx
    have hf : ⌊x⌋ = M - 1 := by
      rw [Int.floor_eq_iff]
      push_cast
      exact ⟨by linarith, by linarith⟩
    unfold roundHalfEven
    simp only
    rw [hf]
    push_cast
    rw [if_neg (by linarith), if_pos (by linarith)]
    ring

theorem ulpExp_of_binade (q : ℚ) (k : Int) (hk : -149 ≤ k)
    (h1 : (2 : ℚ) ^ (k + 23) ≤ |q|) (h2 : |q| < (2 : ℚ) ^ (k + 24)) : ulpExp q = k := by
  have hpos : (0 : ℚ) < |q| := lt_of_lt_of_le (two_zpow_pos _) h1
  have hc : ((2 : ℕ) : ℚ) = (2 : ℚ) := by norm_num
  have hlo : k + 23 ≤ Int.log 2 |q| := by
    rw [← Int.zpow_le_iff_le_log (by norm_num) hpos, hc]; exact h1
  have hhi : Int.log 2 |q| < k + 24 := by
    rw [← Int.lt_zpow_iff_log_lt (by norm_num) hpos, hc]; exact h2
  unfold ulpExp
  rw [max_eq_left (by omega)]
  omega

/-- A rounding certificate: `q` lies in the binade whose grid spacing is `2 ^ k`, and
the grid point `c = M * 2 ^ k` is less than half a spacing away. -/
theorem rnd_near (q c : ℚ) (M k : Int) (hk : -149 ≤ k)
    (h1 : (2 : ℚ) ^ (k + 23) ≤ |q|) (h2 : |q| < (2 : ℚ) ^ (k + 24))
    (hc : c = (M : ℚ) * (2 : ℚ) ^ k) (hn : |q - c| < (2 : ℚ) ^ k / 2) : rnd q = c := by
  have hu := ulpExp_of_binade q k hk h1 h2
  have hq : q ≠ 0 := by
    intro h0
    rw [h0, abs_zero] at h1
    exact absurd h1 (not_le.mpr (two_zpow_pos _))
  have hp := two_zpow_pos k
  have hnear : |q / (2 : ℚ) ^ k - (M : ℚ)| < 1 / 2 := by
    have : q / (2 : ℚ) ^ k - (M : ℚ) = (q - c) / (2 : ℚ) ^ k := by
      rw [hc]; field_simp; ring
    rw [this, abs_div, abs_of_pos hp, div_lt_iff₀ hp]
    linarith
  unfold rnd
  rw [if_neg hq, hu, roundHalfEven_of_near _ M hnear, hc]

theorem sqrtRound_cert (q c : ℚ) (L u : Int) (m : Nat)
    (hL1 : (2 : ℚ) ^ L ≤ q) (hL2 : q < (2 : ℚ) ^ (L + 1)) (hu : L / 2 - 23 = u)
    (hm1 : ((m : ℚ) - 1 / 2) * ((m : ℚ) - 1 / 2) < q / (2 : ℚ) ^ (2 * u))
    (hm2 : q / (2 : ℚ) ^ (2 * u) < ((m : ℚ) + 1 / 2) * ((m : ℚ) + 1 / 2))
    (hm0 : 1 ≤ m) (hc : c = (m : ℚ) * (2 : ℚ) ^ u) : sqrtRound q = c := by
  have hpos : (0 : ℚ) < q := lt_of_lt_of_le (two_zpow_pos _) hL1
  have h2c : ((2 : ℕ) : ℚ) = (2 : ℚ) := by norm_num
  have hlo : L ≤ Int.log 2 q := by
    rw [← Int.zpow_le_iff_le_log (by norm_num) hpos, h2c]; exact hL1
  have hhi : Int.log 2 q < L + 1 := by
    rw [← Int.lt_zpow_iff_log_lt (by norm_num) hpos, h2c]; exact hL2
  have hlog : Int.log 2 q = L := by omega
  have hx0 : (0 : ℚ) ≤ q / (2 : ℚ) ^ (2 * u) := le_of_lt (div_pos hpos (two_zpow_pos _))
  unfold sqrtRound
  simp only [hlog, hu]
  generalize q / (2 : ℚ) ^ (2 * u) = x at hm1 hm2 hx0
  have hs := isqrt_spec ⌊x⌋₊
  generalize isqrt ⌊x⌋₊ = s at hs
  have hf1 : ((⌊x⌋₊ : Nat) : ℚ) ≤ x := Nat.floor_le hx0
  have hf2 : x < ((⌊x⌋₊ : Nat) : ℚ) + 1 := Nat.lt_floor_add_one x
  have hs1 : (s : ℚ) * s ≤ x := by
    have : ((s * s : Nat) : ℚ) ≤ ((⌊x⌋₊ : Nat) : ℚ) := by exact_mod_cast hs.1
    push_cast at this
    linarith
  have hs2 : x < ((s : ℚ) + 1) * ((s : ℚ) + 1) := by
    have h : ⌊x⌋₊ + 1 ≤ (s + 1) * (s + 1) := hs.2
    have : ((⌊x⌋₊ + 1 : Nat) : ℚ) ≤ (((s + 1) * (s + 1) : Nat) : ℚ) := by exact_mod_cast h
    push_cast at this
    linarith
  have hm0q : (1 : ℚ) ≤ (m : ℚ) := by exact_mod_cast hm0
  have hsq : (0 : ℚ) ≤ (s : ℚ) := Nat.cast_nonneg s
  have hmid : (s : ℚ) * s + s + 1 / 4 = ((s : ℚ) + 1 / 2) * ((s : ℚ) + 1 / 2) := by ring
  rw [hc]
  congr 2
  have key : ∀ a b : ℚ, 0 ≤ a → a ≤ b → a * a ≤ b * b := fun a b ha hab =>
    mul_self_le_mul_self ha hab
  by_cases hA : x < (s : ℚ) * s + s + 1 / 4
  · rw [if_pos hA]
    rw [hmid] at hA
    have hle1 : m ≤ s := by
      by_contra hcon
      have h : (s : ℚ) + 1 ≤ (m : ℚ) := by exact_mod_cast (by omega : s + 1 ≤ m)
      have := key ((s : ℚ) + 1 / 2) ((m : ℚ) - 1 / 2) (by linarith) (by linarith)
      linarith
    have hle2 : s ≤ m := by
      by_contra hcon
      have h : (m : ℚ) + 1 ≤ (s : ℚ) := by exact_mod_cast (by omega : m + 1 ≤ s)
      have := key ((m : ℚ) + 1 / 2) (s : ℚ) (by linarith) (by linarith)
      linarith
    omega
  · rw [if_neg hA]
    by_cases hB : (s : ℚ) * s + s + 1 / 4 < x
    · rw [if_pos hB]
      rw [hmid] at hB
      have hle1 : s + 1 ≤ m := by
        by_contra hcon
        have h : (m : ℚ) ≤ (s : ℚ) := by exact_mod_cast (by omega : m ≤ s)
        have := key ((m : ℚ) + 1 / 2) ((s : ℚ) + 1 / 2) (by linarith) (by linarith)
        linarith
      have hle2 : m ≤ s + 1 := by
        by_contra hcon
        have h : (s : ℚ) + 2 ≤ (m : ℚ) := by exact_mod_cast (by omega : s + 2 ≤ m)
        have := key ((s : ℚ) + 1) ((m : ℚ) - 1 / 2) (by linarith) (by linarith)
        linarith
      omega
    · exfalso
      have hE : x = ((s : ℚ) + 1 / 2) * ((s : ℚ) + 1 / 2) := by
        rw [← hmid]; exact le_antisymm (not_lt.mp hB) (not_lt.mp hA)
      rw [hE] at hm1 hm2
      rcases Nat.lt_or_ge s m with h | h
      · have h3 : (s : ℚ) + 1 ≤ (m : ℚ) := by exact_mod_cast h
        have := key ((s : ℚ) + 1 / 2) ((m : ℚ) - 1 / 2) (by linarith) (by linarith)
        linarith
      · have h3 : (m : ℚ) ≤ (s : ℚ) := by exact_mod_cast h
        have := key ((m : ℚ) + 1 / 2) ((s : ℚ) + 1 / 2) (by linarith) (by linarith)
        linarith

/-! ### Operations whose result is on the grid -/

theorem FloatVal.round32_of_rnd (q c : ℚ) (h : rnd q = c) (h1 : -(2 : ℚ) ^ (128 : Nat) < c)
    (h2 : c < (2 : ℚ) ^ (128 : Nat)) : FloatVal.round32 (FloatVal.num q) = FloatVal.num c := by
  show (if (2 : ℚ) ^ (128 : Nat) ≤ |rnd q| then FloatVal.inf (decide (q < 0))
    else FloatVal.num (rnd q)) = FloatVal.num c
  rw [h, if_neg (not_le.mpr (abs_lt.mpr ⟨h1, h2⟩))]

theorem FloatVal.round32_div64_of_bounds (M : Int) (h1 : -16777216 < M) (h2 : M < 16777216) :
    FloatVal.round32 (FloatVal.num ((M : ℚ) / 64)) = FloatVal.num ((M : ℚ) / 64) :=
  FloatVal.round32_div64 M (by rw [abs_lt]; norm_num; exact ⟨h1, h2⟩)

theorem FloatVal.ofInt32_of_bounds (i : Int) (h1 : -16777216 < i) (h2 : i < 16777216) :
    FloatVal.ofInt32 i = FloatVal.num (i : ℚ) := by
  have hr := rnd_intCast i (by rw [abs_lt]; norm_num; exact ⟨h1, h2⟩)
  have hq1 : (-16777216 : ℚ) < (i : ℚ) := by exact_mod_cast h1
  have hq2 : (i : ℚ) < 16777216 := by exact_mod_cast h2
  exact FloatVal.round32_of_rnd _ _ hr (by norm_num; linarith) (by norm_num; linarith)

theorem FloatVal.ofSize32_of_bounds (n : Nat) (h : n < 16777216) :
    FloatVal.ofSize32 n = FloatVal.num (n : ℚ) := by
  have := FloatVal.ofInt32_of_bounds (n : Int) (by omega) (by omega)
  simpa [FloatVal.ofInt32, FloatVal.ofSize32] using this

theorem FloatVal.round32_div512_of_bounds (M : Int) (h1 : -16777216 < M) (h2 : M < 16777216) :
    FloatVal.round32 (FloatVal.num ((M : ℚ) / 512)) = FloatVal.num ((M : ℚ) / 512) := by
  have hr := rnd_div512 M (by rw [abs_lt]; norm_num; exact ⟨h1, h2⟩)
  have hq1 : (-16777216 : ℚ) < (M : ℚ) := by exact_mod_cast h1
  have hq2 : (M : ℚ) < 16777216 := by exact_mod_cast h2
  refine FloatVal.round32_of_rnd _ _ hr ?_ ?_
  · have : (-16777216 : ℚ) ≤ (M : ℚ) / 512 := by
      rw [le_div_iff₀ (by norm_num)]; linarith
    norm_num
    linarith
  · have : (M : ℚ) / 512 ≤ 16777216 := by
      rw [div_le_iff₀ (by norm_num)]; linarith
    norm_num
    linarith

/-! ### The comparison with the threshold -/

/-- For a variance `M / 512` below `2 ^ 14`, comparing its rounded square root with the
threshold converted to `float` gives the same answer as comparing the variance with
the square of the threshold. -/
theorem gt_sqrt32_eq512 (M : Int) (hM0 : 0 ≤ M) (hM : M < 8388608) (t : Int) :
    FloatVal.gt (FloatVal.sqrt32 (FloatVal.num ((M : ℚ) / 512))) (FloatVal.ofInt32 t) =
      FloatVal.sqrtExceeds (FloatVal.num ((M : ℚ) / 512)) t := by
  have hq0 : (0 : ℚ) ≤ (M : ℚ) / 512 := by
    have : (0 : ℚ) ≤ (M : ℚ) := by exact_mod_cast hM0
    positivity
  have hqn : ¬ (M : ℚ) / 512 < 0 := not_lt.mpr hq0
  have hqlt : (M : ℚ) / 512 < 16384 := by
    have : (M : ℚ) < 8388608 := by exact_mod_cast hM
    rw [div_lt_iff₀ (by norm_num)]
    linarith
  obtain ⟨r, hr, hr0⟩ : ∃ r : ℚ,
      FloatVal.sqrt32 (FloatVal.num ((M : ℚ) / 512)) = FloatVal.num r ∧ 0 ≤ r := by
    by_cases hz : (M : ℚ) / 512 = 0
    · refine ⟨0, ?_, le_refl _⟩
      show (if (M : ℚ) / 512 < 0 then FloatVal.nan
        else if (M : ℚ) / 512 = 0 then FloatVal.num 0
        else FloatVal.num (sqrtRound ((M : ℚ) / 512))) = _
      rw [if_neg hqn, if_pos hz]
    · refine ⟨sqrtRound ((M : ℚ) / 512), ?_, sqrtRound_nonneg _⟩
      show (if (M : ℚ) / 512 < 0 then FloatVal.nan
        else if (M : ℚ) / 512 = 0 then FloatVal.num 0
        else FloatVal.num (sqrtRound ((M : ℚ) / 512))) = _
      rw [if_neg hqn, if_neg hz]
  have hof : FloatVal.ofInt32 t =
      if (2 : ℚ) ^ (128 : Nat) ≤ |rnd (t : ℚ)| then FloatVal.inf (decide ((t : ℚ) < 0))
      else FloatVal.num (rnd (t : ℚ)) := rfl
  by_cases ht : t < 0
  · have htq : (t : ℚ) < 0 := by exact_mod_cast ht
    have hrhs : FloatVal.sqrtExceeds (FloatVal.num ((M : ℚ) / 512)) t = true := by
      simp [FloatVal.sqrtExceeds, hqn, ht]
    rw [hrhs, hr, hof]
    split
    · simp [FloatVal.gt, htq]
    · have := rnd_neg_of_neg t (by omega)
      simp only [FloatVal.gt, decide_eq_true_eq]
      linarith
  · have ht0 : 0 ≤ t := not_lt.mp ht
    have htq : ¬ (t : ℚ) < 0 := by
      have : (0 : ℚ) ≤ (t : ℚ) := by exact_mod_cast ht0
      exact not_lt.mpr this
    have hrhs : FloatVal.sqrtExceeds (FloatVal.num ((M : ℚ) / 512)) t =
        decide ((t : ℚ) * (t : ℚ) < (M : ℚ) / 512) := by
      simp [FloatVal.sqrtExceeds, hqn, ht]
    rw [hrhs]
    by_cases hMz : M = 0
    · subst hMz
      have hs : FloatVal.sqrt32 (FloatVal.num (((0 : Int) : ℚ) / 512)) = FloatVal.num 0 := by
        simp [FloatVal.sqrt32]
      have hsq : ¬ ((t : ℚ) * (t : ℚ) < ((0 : Int) : ℚ) / 512) := by
        have := mul_self_nonneg (t : ℚ)
        simp only [Int.cast_zero, zero_div]
        exact not_lt.mpr this
      rw [hs, hof, decide_eq_false hsq]
      split
      · simp [FloatVal.gt, htq]
      · have := rnd_nonneg (t : ℚ) (not_lt.mp htq)
        simp only [FloatVal.gt, decide_eq_false_iff_not, not_lt]
        exact this
    · have hMpos : 0 < M := by omega
      obtain ⟨Mn, rfl⟩ := Int.eq_ofNat_of_zero_le hM0
      obtain ⟨tn, rfl⟩ := Int.eq_ofNat_of_zero_le ht0
      have hMn0 : 0 < Mn := by exact_mod_cast hMpos
      have hMn : Mn < 2 ^ 23 := by
        have : Mn < 8388608 := by exact_mod_cast hM
        norm_num
        exact this
      have hz : ((Mn : Int) : ℚ) / 512 ≠ 0 := by
        have : (0 : ℚ) < ((Mn : Int) : ℚ) := by exact_mod_cast hMn0
        positivity
      have hs : FloatVal.sqrt32 (FloatVal.num (((Mn : Int) : ℚ) / 512)) =
          FloatVal.num (sqrtRound (((Mn : Int) : ℚ) / 512)) := by
        show (if ((Mn : Int) : ℚ) / 512 < 0 then FloatVal.nan
          else if ((Mn : Int) : ℚ) / 512 = 0 then FloatVal.num 0
          else FloatVal.num (sqrtRound (((Mn : Int) : ℚ) / 512))) = _
        rw [if_neg hqn, if_neg hz]
      rw [hs]
      have hcast : (((Mn : Int)) : ℚ) = (Mn : ℚ) := Int.cast_natCast Mn
      have htcast : (((tn : Int)) : ℚ) = (tn : ℚ) := Int.cast_natCast tn
      by_cases hsmall : (tn : Int) < 16777216
      · rw [FloatVal.ofInt32_of_bounds (tn : Int) (by omega) hsmall]
        have key := sqrtRound_gt_iff512 Mn tn hMn0 hMn
        rw [hcast, htcast]
        simp only [FloatVal.gt]
        exact decide_eq_decide.mpr key
      · have hbig : (2 : Int) ^ 24 ≤ (tn : Int) := by norm_num; omega
        have hrnd := le_rnd_of_large (tn : Int) hbig
        have htq2 : (16777216 : ℚ) ≤ ((tn : Int) : ℚ) := by
          exact_mod_cast (not_lt.mp hsmall)
        have hsq : ¬ ((((tn : Int)) : ℚ) * ((tn : Int) : ℚ) < ((Mn : Int) : ℚ) / 512) := by
          apply not_lt.mpr
          have : (16777216 : ℚ) * 16777216 ≤ ((tn : Int) : ℚ) * ((tn : Int) : ℚ) :=
            mul_le_mul htq2 htq2 (by norm_num) (by linarith)
          linarith
        have hroot : sqrtRound (((Mn : Int) : ℚ) / 512) ≤ 4096 := by
          have key := sqrtRound_gt_iff512 Mn 4096 hMn0 hMn
          rw [hcast]
          apply not_lt.mp
          intro hcon
          have h1 : ((4096 : Nat) : ℚ) < sqrtRound ((Mn : ℚ) / 512) := by
            simpa using hcon
          have h2 := key.mp h1
          rw [hcast] at hqlt
          norm_num at h2
          linarith
        rw [hof, decide_eq_false hsq]
        split
        · simp [FloatVal.gt, htq]
        · simp only [FloatVal.gt, decide_eq_false_iff_not, not_lt]
          have : (2 : ℚ) ^ (24 : Nat) = 16777216 := by norm_num
          rw [this] at hrnd
          linarith

/-! ### Buffers of one, two, four or eight frames -/

/-- One pass of the accumulation loop is exact when the mean is a multiple of `1/8`
within `0 .. 255` and the accumulator a multiple of `1/64` that stays below `2 ^ 18`. -/
theorem ssdStep32_exact (A P x : Int) (hA0 : 0 ≤ A) (hA : A ≤ 2040) (hx0 : 0 ≤ x)
    (hx : x ≤ 255) (hP0 : 0 ≤ P) (hP : P + (8 * x - A) ^ 2 < 16777216) :
    ssdStep32 (FloatVal.num ((A : ℚ) / 8)) (FloatVal.num ((P : ℚ) / 64)) x =
      FloatVal.num (((P + (8 * x - A) ^ 2 : Int) : ℚ) / 64) := by
  have hB0 : 0 ≤ (8 * x - A) ^ 2 := sq_nonneg _
  have hd : FloatVal.sub32 (FloatVal.ofInt32 x) (FloatVal.num ((A : ℚ) / 8)) =
      FloatVal.num (((8 * x - A : Int) : ℚ) / 8) := by
    rw [FloatVal.ofInt32_of_bounds x (by omega) (by omega)]
    have h := FloatVal.round32_div64_of_bounds (8 * (8 * x - A)) (by omega) (by omega)
    have e : (((8 * (8 * x - A) : Int)) : ℚ) / 64 = (x : ℚ) + -((A : ℚ) / 8) := by
      push_cast; ring
    have e2 : (((8 * x - A : Int)) : ℚ) / 8 = (x : ℚ) + -((A : ℚ) / 8) := by
      push_cast; ring
    rw [e] at h
    rw [e2]
    exact h
  have hp : FloatVal.mul32 (FloatVal.num (((8 * x - A : Int) : ℚ) / 8))
      (FloatVal.num (((8 * x - A : Int) : ℚ) / 8)) =
      FloatVal.num ((((8 * x - A) ^ 2 : Int) : ℚ) / 64) := by
    have h := FloatVal.round32_div64_of_bounds ((8 * x - A) ^ 2) (by omega) (by omega)
    have e : ((((8 * x - A) ^ 2 : Int)) : ℚ) / 64 =
        ((8 * x - A : Int) : ℚ) / 8 * (((8 * x - A : Int) : ℚ) / 8) := by
      push_cast; ring
    rw [e] at h ⊢
    exact h
  have ha : FloatVal.add32 (FloatVal.num ((P : ℚ) / 64))
      (FloatVal.num ((((8 * x - A) ^ 2 : Int) : ℚ) / 64)) =
      FloatVal.num (((P + (8 * x - A) ^ 2 : Int) : ℚ) / 64) := by
    have h := FloatVal.round32_div64_of_bounds (P + (8 * x - A) ^ 2) (by omega) (by omega)
    have e : (((P + (8 * x - A) ^ 2 : Int)) : ℚ) / 64 =
        (P : ℚ) / 64 + (((8 * x - A) ^ 2 : Int) : ℚ) / 64 := by
      push_cast; ring
    rw [e] at h ⊢
    exact h
  unfold ssdStep32
  rw [hd, hp, ha]

/-- With the mean a multiple of `1/8` and a sum of squared differences below `2 ^ 18`,
the binary32 accumulation of the squared differences is exact: it ends on the same
value as the exact accumulation, a multiple of `1/64`. -/
theorem ssd32_fold_exact (rb : List Mat) (A : Int) (hA0 : 0 ≤ A) (hA : A ≤ 2040)
    (row col : Nat) :
    ∀ P : Int, 0 ≤ P →
      P + (rb.map (fun m => (8 * m.pixelAt row col - A) ^ 2)).sum < 16777216 →
        rb.foldl (fun acc m => ssdStep32 (FloatVal.num ((A : ℚ) / 8)) acc (m.pixelAt row col))
          (FloatVal.num ((P : ℚ) / 64)) =
          FloatVal.num
            (((P + (rb.map (fun m => (8 * m.pixelAt row col - A) ^ 2)).sum : Int) : ℚ) / 64) ∧
        rb.foldl
          (fun acc m =>
            FloatVal.add acc
              (FloatVal.mul
                (FloatVal.sub (FloatVal.ofInt (m.pixelAt row col)) (FloatVal.num ((A : ℚ) / 8)))
                (FloatVal.sub (FloatVal.ofInt (m.pixelAt row col)) (FloatVal.num ((A : ℚ) / 8)))))
          (FloatVal.num ((P : ℚ) / 64)) =
          FloatVal.num
            (((P + (rb.map (fun m => (8 * m.pixelAt row col - A) ^ 2)).sum : Int) : ℚ) / 64) := by
  induction rb with
  | nil =>
    intro P _ _
    simp
  | cons m rb ih =>
    intro P hP0 hP
    have hb := Mat.pixelAt_bounds m row col
    rw [List.map_cons, List.sum_cons] at hP
    have hB0 : 0 ≤ (8 * m.pixelAt row col - A) ^ 2 := sq_nonneg _
    have hrest : 0 ≤ (rb.map (fun m => (8 * m.pixelAt row col - A) ^ 2)).sum :=
      List.sum_nonneg (by
        intro x hx
        obtain ⟨m2, _, rfl⟩ := List.mem_map.mp hx
        exact sq_nonneg _)
    obtain ⟨h32, hex⟩ := ih (P + (8 * m.pixelAt row col - A) ^ 2) (by omega) (by omega)
    have hsum : P + ((8 * m.pixelAt row col - A) ^ 2 +
        (rb.map (fun m => (8 * m.pixelAt row col - A) ^ 2)).sum) =
        P + (8 * m.pixelAt row col - A) ^ 2 +
          (rb.map (fun m => (8 * m.pixelAt row col - A) ^ 2)).sum := by ring
    rw [List.map_cons, List.sum_cons, hsum]
    constructor
    · rw [List.foldl_cons,
        ssdStep32_exact A P (m.pixelAt row col) hA0 hA hb.1 (by omega) hP0 (by omega)]
      exact h32
    · rw [List.foldl_cons]
      have step := FloatVal.sq_diff_num ((P : ℚ) / 64) ((m.pixelAt row col : Int) : ℚ)
        ((A : ℚ) / 8)
      have e : (P : ℚ) / 64 + (((m.pixelAt row col : Int) : ℚ) - (A : ℚ) / 8) ^ 2 =
          (((P + (8 * m.pixelAt row col - A) ^ 2 : Int)) : ℚ) / 64 := by
        push_cast; ring
      rw [e] at step
      simp only [FloatVal.ofInt] at hex ⊢
      rw [step]
      exact hex

/-- The sum of the squares of the samples is at most 255 times their sum. -/
theorem pixelSumSq_le (rb : List Mat) (row col : Nat) :
    pixelSumSq rb row col ≤ 255 * pixelSum rb row col := by
  rw [pixelSum_eq_sum]
  unfold pixelSumSq
  induction rb with
  | nil => simp
  | cons m rb ih =>
    have hb := Mat.pixelAt_bounds m row col
    simp only [List.map_cons, List.sum_cons]
    have : m.pixelAt row col ^ 2 ≤ 255 * m.pixelAt row col := by nlinarith
    omega

/-- The scaled squared differences from `A / 8`, summed over the buffer. -/
theorem sum_sq_diff_scaled (rb : List Mat) (A : Int) (row col : Nat) :
    (rb.map (fun m => (8 * m.pixelAt row col - A) ^ 2)).sum =
      64 * pixelSumSq rb row col - 16 * A * pixelSum rb row col + (rb.length : Int) * A ^ 2 := by
  rw [pixelSum_eq_sum]
  unfold pixelSumSq
  induction rb with
  | nil => simp
  | cons m rb ih =>
    simp only [List.map_cons, List.sum_cons, List.length_cons]
    rw [ih]
    push_cast
    ring

/-- For a buffer of `n` frames with `n * c = 8` (that is `n` = 1, 2, 4 or 8) every
binary32 operation before the square root is exact, and the pixel written in binary32
is the one written in the exact reading. -/
theorem maskValue32_eq_of_eighth (rb : List Mat) (c : Int) (hc0 : 0 < c)
    (hc : (rb.length : Int) * c = 8) (t : Int) (row col : Nat) :
    maskValue32 rb t row col = maskValue rb t row col := by
  have hn1 : 1 ≤ (rb.length : Int) := by
    by_contra hcon
    have : (rb.length : Int) = 0 := by omega
    rw [this] at hc
    omega
  have hn8 : (rb.length : Int) ≤ 8 := by nlinarith
  have hnq : (rb.length : ℚ) ≠ 0 := by
    have : (0 : ℚ) < (rb.length : ℚ) := by exact_mod_cast hn1
    exact ne_of_gt this
  have hcq : (rb.length : ℚ) * (c : ℚ) = 8 := by exact_mod_cast hc
  have hinv : ∀ y : ℚ, y / (rb.length : ℚ) = y * (c : ℚ) / 8 := by
    intro y
    field_simp
    rw [mul_assoc, mul_comm (c : ℚ), hcq]
  obtain ⟨hS0, hS⟩ := pixelSum_le rb row col
  have hQ := pixelSumSq_le rb row col
  have hA0 : 0 ≤ pixelSum rb row col * c := mul_nonneg hS0 (le_of_lt hc0)
  have hA : pixelSum rb row col * c ≤ 2040 := by
    have : pixelSum rb row col * c ≤ 255 * (rb.length : Int) * c :=
      mul_le_mul_of_nonneg_right hS (le_of_lt hc0)
    nlinarith
  have hSlt : pixelSum rb row col ≤ 2040 := by omega
  have hlen : rb.length < 16777216 := by omega
  -- the sum of the squared differences, scaled by 64
  have hsum := sum_sq_diff_scaled rb (pixelSum rb row col * c) row col
  have hsum0 : 0 ≤ (rb.map (fun m => (8 * m.pixelAt row col - pixelSum rb row col * c) ^ 2)).sum :=
    List.sum_nonneg (by
      intro x hx
      obtain ⟨m2, _, rfl⟩ := List.mem_map.mp hx
      exact sq_nonneg _)
  have hsumle : (rb.map (fun m => (8 * m.pixelAt row col - pixelSum rb row col * c) ^ 2)).sum * c ≤
      8323200 := by
    have h1 : (rb.map (fun m => (8 * m.pixelAt row col - pixelSum rb row col * c) ^ 2)).sum =
        64 * pixelSumSq rb row col - 8 * (pixelSum rb row col * c) * pixelSum rb row col := by
      rw [hsum]
      have : (rb.length : Int) * (pixelSum rb row col * c) ^ 2 =
          ((rb.length : Int) * c) * (pixelSum rb row col * (pixelSum rb row col * c)) := by ring
      rw [this, hc]
      ring
    have h2 : (rb.map (fun m => (8 * m.pixelAt row col - pixelSum rb row col * c) ^ 2)).sum ≤
        8 * pixelSum rb row col * (2040 - pixelSum rb row col * c) := by
      rw [h1]
      have : 64 * pixelSumSq rb row col ≤ 64 * (255 * pixelSum rb row col) := by omega
      nlinarith
    have h3 : (rb.map (fun m => (8 * m.pixelAt row col - pixelSum rb row col * c) ^ 2)).sum * c ≤
        8 * pixelSum rb row col * (2040 - pixelSum rb row col * c) * c :=
      mul_le_mul_of_nonneg_right h2 (le_of_lt hc0)
    have h4 : 8 * pixelSum rb row col * (2040 - pixelSum rb row col * c) * c =
        8 * ((pixelSum rb row col * c) * (2040 - pixelSum rb row col * c)) := by ring
    have h5 : (pixelSum rb row col * c) * (2040 - pixelSum rb row col * c) ≤ 1040400 := by
      nlinarith [sq_nonneg (pixelSum rb row col * c - 1020)]
    rw [h4] at h3
    omega
  have hsumlt : (rb.map (fun m => (8 * m.pixelAt row col - pixelSum rb row col * c) ^ 2)).sum ≤
      8323200 := by
    have : (rb.map (fun m => (8 * m.pixelAt row col - pixelSum rb row col * c) ^ 2)).sum * 1 ≤
        (rb.map (fun m => (8 * m.pixelAt row col - pixelSum rb row col * c) ^ 2)).sum * c :=
      mul_le_mul_of_nonneg_left (by omega) hsum0
    omega
  generalize hP2 : (rb.map (fun m => (8 * m.pixelAt row col - pixelSum rb row col * c) ^ 2)).sum =
    P2 at hsum0 hsumle hsumlt
  -- the mean
  have hmeanE : FloatVal.div (FloatVal.ofInt (pixelSum rb row col)) (FloatVal.ofSize rb.length) =
      FloatVal.num (((pixelSum rb row col * c : Int) : ℚ) / 8) := by
    simp only [FloatVal.ofInt, FloatVal.ofSize, FloatVal.div, if_neg hnq]
    rw [hinv]
    push_cast
    rfl
  have hmean32 : FloatVal.div32 (FloatVal.ofInt32 (pixelSum rb row col))
      (FloatVal.ofSize32 rb.length) =
      FloatVal.num (((pixelSum rb row col * c : Int) : ℚ) / 8) := by
    rw [FloatVal.ofInt32_of_bounds _ (by omega) (by omega), FloatVal.ofSize32_of_bounds _ hlen]
    have h := FloatVal.round32_div64_of_bounds (8 * (pixelSum rb row col * c))
      (by omega) (by omega)
    have e : (((8 * (pixelSum rb row col * c) : Int)) : ℚ) / 64 =
        ((pixelSum rb row col : Int) : ℚ) / (rb.length : ℚ) := by
      rw [hinv]; push_cast; ring
    have e2 : (((pixelSum rb row col * c : Int)) : ℚ) / 8 =
        ((pixelSum rb row col : Int) : ℚ) / (rb.length : ℚ) := by
      rw [hinv]; push_cast; ring
    rw [e] at h
    rw [e2]
    show FloatVal.round32 (FloatVal.div (FloatVal.num _) (FloatVal.num _)) = _
    simp only [FloatVal.div, if_neg hnq]
    exact h
  -- the accumulation
  obtain ⟨h32, hex⟩ := ssd32_fold_exact rb (pixelSum rb row col * c) hA0 hA
    row col 0 (le_refl _) (by rw [hP2]; omega)
  rw [hP2] at h32 hex
  have hzero : FloatVal.num (((0 : Int) : ℚ) / 64) = FloatVal.num 0 := by simp
  have hzero2 : (((0 + P2 : Int)) : ℚ) = (P2 : ℚ) := by simp
  rw [hzero, hzero2] at h32 hex
  have hM0 : 0 ≤ P2 * c := mul_nonneg hsum0 (le_of_lt hc0)
  -- the variance
  have hvE : FloatVal.div (FloatVal.num ((P2 : ℚ) / 64)) (FloatVal.ofSize rb.length) =
      FloatVal.num (((P2 * c : Int) : ℚ) / 512) := by
    simp only [FloatVal.ofSize, FloatVal.div, if_neg hnq]
    rw [hinv]
    congr 1
    push_cast
    ring
  have hv32 : FloatVal.div32 (FloatVal.num ((P2 : ℚ) / 64)) (FloatVal.ofSize32 rb.length) =
      FloatVal.num (((P2 * c : Int) : ℚ) / 512) := by
    rw [FloatVal.ofSize32_of_bounds _ hlen]
    have h := FloatVal.round32_div512_of_bounds (P2 * c) (by omega) (by omega)
    have e : (((P2 * c : Int)) : ℚ) / 512 = (P2 : ℚ) / 64 / (rb.length : ℚ) := by
      rw [hinv]; push_cast; ring
    show FloatVal.round32 (FloatVal.div (FloatVal.num _) (FloatVal.num _)) = _
    simp only [FloatVal.div, if_neg hnq]
    rw [← e]
    exact h
  unfold maskValue32 stdDev32 maskValue sumSquaredDifferences32 sumSquaredDifferences
  simp only [hmean32, hmeanE, h32, hex, hv32, hvE, gt_sqrt32_eq512 _ hM0 (by omega)]

/-! ### The pixel loops in single precision -/

theorem renderRow32_spec (rb : List Mat) (t : Int) (row : Nat) (dm : Mat) (hW : dm.cols = 640) :
    (renderRow32 rb t row dm).cols = 640 ∧
    (renderRow32 rb t row dm).data.length = dm.data.length ∧
    ∀ r c, c < 640 →
      (renderRow32 rb t row dm).data[r * 640 + c]? =
        if r = row ∧ r * 640 + c < dm.data.length then some (maskValue32 rb t row c)
        else dm.data[r * 640 + c]? := by
  unfold renderRow32
  rw [hW]
  obtain ⟨h1, h2, h3⟩ := setAt_fold_cols (fun col => maskValue32 rb t row col) row dm hW 640
    (le_refl _)
  refine ⟨h1, h2, ?_⟩
  intro r c hc
  rw [h3 r c hc]
  simp only [hc, true_and]

theorem render32_fold_rows (rb : List Mat) (t : Int) (dm : Mat) (hW : dm.cols = 640) (k : Nat) :
    ((List.range k).foldl (fun d row => renderRow32 rb t row d) dm).cols = 640 ∧
    ((List.range k).foldl (fun d row => renderRow32 rb t row d) dm).data.length =
      dm.data.length ∧
    ∀ r c, c < 640 →
      ((List.range k).foldl (fun d row => renderRow32 rb t row d) dm).data[r * 640 + c]? =
        if r < k ∧ r * 640 + c < dm.data.length then some (maskValue32 rb t r c)
        else dm.data[r * 640 + c]? := by
  induction k with
  | zero => simp [hW]
  | succ k ih =>
    obtain ⟨ihW, ihlen, ihget⟩ := ih
    rw [List.range_succ, List.foldl_append]
    simp only [List.foldl_cons, List.foldl_nil]
    obtain ⟨h1, h2, h3⟩ := renderRow32_spec rb t k _ ihW
    refine ⟨h1, h2.trans ihlen, ?_⟩
    intro r c hc
    rw [h3 r c hc, ihget r c hc, ihlen]
    by_cases hlt : r * 640 + c < dm.data.length
    · by_cases hrk : r = k
      · subst hrk; simp [hlt]
      · by_cases hr : r < k
        · have : r < k + 1 := by omega
          simp [hrk, hr, this, hlt]
        · have : ¬ r < k + 1 := by omega
          simp [hrk, hr, this]
    · simp [hlt]

/-- Reading the `drawMask` computed in binary32 at a pixel of the 480 × 640 grid gives
the value the loop body computed for that pixel. -/
theorem renderRingBuffer32_pixelAt (s : State) (r c : Nat) (hr : r < 480) (hc : c < 640) :
    (renderRingBuffer32 s).pixelAt r c =
      ((maskValue32 s.ringBuffer s.diffThresh r c).val : Int) := by
  obtain ⟨h1, _, h3⟩ :=
    render32_fold_rows s.ringBuffer s.diffThresh (Mat.zeros 480 640) (Mat.zeros_cols 480 640) 480
  have hget := h3 r c hc
  have hidx : r * 640 + c < 480 * 640 := by omega
  rw [Mat.zeros_data_length, if_pos ⟨hr, hidx⟩] at hget
  have hdef : renderRingBuffer32 s =
      (List.range 480).foldl (fun d row => renderRow32 s.ringBuffer s.diffThresh row d)
        (Mat.zeros 480 640) := by
    unfold renderRingBuffer32
    simp only [Mat.zeros_rows]
  rw [hdef]
  unfold Mat.pixelAt
  rw [h1, List.getD_eq_getElem?_getD, hget, Option.getD_some]

/-- The pixel written in binary32 is 255 or 0, as the comparison of the computed
`stdDev` with the converted threshold decides. -/
theorem renderRingBuffer32_pixelAt_iff (s : State) (r c : Nat) (hr : r < 480) (hc : c < 640) :
    ((renderRingBuffer32 s).pixelAt r c = 255 ↔
      FloatVal.gt (stdDev32 s.ringBuffer r c) (FloatVal.ofInt32 s.diffThresh) = true) ∧
    ((renderRingBuffer32 s).pixelAt r c = 0 ↔
      FloatVal.gt (stdDev32 s.ringBuffer r c) (FloatVal.ofInt32 s.diffThresh) = false) := by
  rw [renderRingBuffer32_pixelAt s r c hr hc]
  unfold maskValue32
  by_cases h : FloatVal.gt (stdDev32 s.ringBuffer r c) (FloatVal.ofInt32 s.diffThresh) = true
  · rw [if_pos h]
    refine ⟨⟨fun _ => h, fun _ => rfl⟩, ⟨fun h0 => absurd h0 (by decide), fun hf => ?_⟩⟩
    rw [h] at hf
    exact absurd hf (by decide)
  · rw [if_neg h]
    have hf : FloatVal.gt (stdDev32 s.ringBuffer r c) (FloatVal.ofInt32 s.diffThresh) = false :=
      Bool.eq_false_iff.mpr h
    exact ⟨⟨fun h0 => absurd h0 (by decide), fun ht => absurd ht h⟩, ⟨fun _ => hf, fun _ => rfl⟩⟩

/-- The whole mask of a buffer of one, two, four or eight frames is the same in binary32
as in the exact reading. -/
theorem renderRingBuffer32_eq_of_eighth (s : State) (c : Int) (hc0 : 0 < c)
    (hc : (s.ringBuffer.length : Int) * c = 8) :
    renderRingBuffer32 s = renderRingBuffer s := by
  have hmv : ∀ row col, maskValue32 s.ringBuffer s.diffThresh row col =
      maskValue s.ringBuffer s.diffThresh row col :=
    fun row col => maskValue32_eq_of_eighth s.ringBuffer c hc0 hc s.diffThresh row col
  unfold renderRingBuffer32 renderRingBuffer renderRow32 renderRow
  simp only [hmv]

/-- The sizes 1, 2, 4 and 8 are those with `size * c = 8` for a positive integer `c`. -/
theorem eighth_of_length (n : Nat) (h : n = 1 ∨ n = 2 ∨ n = 4 ∨ n = 8) :
    ∃ c : Int, 0 < c ∧ (n : Int) * c = 8 := by
  rcases h with h | h | h | h
  · exact ⟨8, by norm_num, by rw [h]; norm_num⟩
  · exact ⟨4, by norm_num, by rw [h]; norm_num⟩
  · exact ⟨2, by norm_num, by rw [h]; norm_num⟩
  · exact ⟨1, by norm_num, by rw [h]; norm_num⟩

/-! ### Evaluating the single-precision operations -/

/-- A rounding certificate for a positive exact result `q`: it lies in the binade with
grid spacing `2 ^ k`, and the grid point `c = M * 2 ^ k` is less than half a spacing
away. -/
theorem FloatVal.round32_near_pos (q c : ℚ) (M k : Int) (hk : -149 ≤ k) (hk2 : k ≤ 100)
    (h1 : (2 : ℚ) ^ (k + 23) ≤ q) (h2 : q < (2 : ℚ) ^ (k + 24))
    (hc : c = (M : ℚ) * (2 : ℚ) ^ k) (hn1 : q - c < (2 : ℚ) ^ k / 2)
    (hn2 : c - q < (2 : ℚ) ^ k / 2) :
    FloatVal.round32 (FloatVal.num q) = FloatVal.num c := by
  have hq : (0 : ℚ) < q := lt_of_lt_of_le (two_zpow_pos _) h1
  have habs : |q| = q := abs_of_pos hq
  have hr := rnd_near q c M k hk (by rw [habs]; exact h1) (by rw [habs]; exact h2) hc
    (abs_lt.mpr ⟨by linarith, hn1⟩)
  have hp := two_zpow_pos k
  have hb1 : (2 : ℚ) ^ k ≤ (2 : ℚ) ^ (100 : Int) := zpow_le_zpow_right₀ (by norm_num) hk2
  have hb2 : (2 : ℚ) ^ (k + 24) ≤ (2 : ℚ) ^ (124 : Int) :=
    zpow_le_zpow_right₀ (by norm_num) (by omega)
  have e1 : (2 : ℚ) ^ (100 : Int) = 2 ^ (100 : Nat) := by norm_num
  have e2 : (2 : ℚ) ^ (124 : Int) = 2 ^ (124 : Nat) := by norm_num
  rw [e1] at hb1
  rw [e2] at hb2
  have hbig : (2 : ℚ) ^ (124 : Nat) + 2 ^ (100 : Nat) < 2 ^ (128 : Nat) := by norm_num
  have hpos128 : (0 : ℚ) < 2 ^ (128 : Nat) := by positivity
  exact FloatVal.round32_of_rnd q c hr (by linarith) (by linarith)

/-- The rounding certificate for a negative exact result. -/
theorem FloatVal.round32_near_neg (q c : ℚ) (M k : Int) (hk : -149 ≤ k) (hk2 : k ≤ 100)
    (h1 : (2 : ℚ) ^ (k + 23) ≤ -q) (h2 : -q < (2 : ℚ) ^ (k + 24))
    (hc : c = (M : ℚ) * (2 : ℚ) ^ k) (hn1 : q - c < (2 : ℚ) ^ k / 2)
    (hn2 : c - q < (2 : ℚ) ^ k / 2) :
    FloatVal.round32 (FloatVal.num q) = FloatVal.num c := by
  have hq : q < 0 := by
    have := lt_of_lt_of_le (two_zpow_pos (k + 23)) h1
    linarith
  have habs : |q| = -q := abs_of_neg hq
  have hr := rnd_near q c M k hk (by rw [habs]; exact h1) (by rw [habs]; exact h2) hc
    (abs_lt.mpr ⟨by linarith, hn1⟩)
  have hp := two_zpow_pos k
  have hb1 : (2 : ℚ) ^ k ≤ (2 : ℚ) ^ (100 : Int) := zpow_le_zpow_right₀ (by norm_num) hk2
  have hb2 : (2 : ℚ) ^ (k + 24) ≤ (2 : ℚ) ^ (124 : Int) :=
    zpow_le_zpow_right₀ (by norm_num) (by omega)
  have e1 : (2 : ℚ) ^ (100 : Int) = 2 ^ (100 : Nat) := by norm_num
  have e2 : (2 : ℚ) ^ (124 : Int) = 2 ^ (124 : Nat) := by norm_num
  rw [e1] at hb1
  rw [e2] at hb2
  have hbig : (2 : ℚ) ^ (124 : Nat) + 2 ^ (100 : Nat) < 2 ^ (128 : Nat) := by norm_num
  have hpos128 : (0 : ℚ) < 2 ^ (128 : Nat) := by positivity
  exact FloatVal.round32_of_rnd q c hr (by linarith) (by linarith)

/-- One pass of the accumulation loop, from the three roundings it makes. -/
theorem ssdStep32_eval (mean acc d p r : ℚ) (x : Int) (hx1 : -16777216 < x)
    (hx2 : x < 16777216)
    (hd : FloatVal.round32 (FloatVal.num ((x : ℚ) + -mean)) = FloatVal.num d)
    (hp : FloatVal.round32 (FloatVal.num (d * d)) = FloatVal.num p)
    (hr : FloatVal.round32 (FloatVal.num (acc + p)) = FloatVal.num r) :
    ssdStep32 (FloatVal.num mean) (FloatVal.num acc) x = FloatVal.num r := by
  have h1 : FloatVal.sub32 (FloatVal.ofInt32 x) (FloatVal.num mean) = FloatVal.num d := by
    rw [FloatVal.ofInt32_of_bounds x hx1 hx2]
    exact hd
  have h2 : FloatVal.mul32 (FloatVal.num d) (FloatVal.num d) = FloatVal.num p := hp
  have h3 : FloatVal.add32 (FloatVal.num acc) (FloatVal.num p) = FloatVal.num r := hr
  unfold ssdStep32
  rw [h1, h2, h3]

/-- A division of two numbers, from its rounding. -/
theorem FloatVal.div32_eval (a b c : ℚ) (hb : b ≠ 0)
    (h : FloatVal.round32 (FloatVal.num (a / b)) = FloatVal.num c) :
    FloatVal.div32 (FloatVal.num a) (FloatVal.num b) = FloatVal.num c := by
  show FloatVal.round32 (FloatVal.div (FloatVal.num a) (FloatVal.num b)) = _
  simp only [FloatVal.div, if_neg hb]
  exact h

/-- The square root of a positive number, from a certificate for `sqrtRound`. -/
theorem FloatVal.sqrt32_eval (q c : ℚ) (hq : 0 < q) (h : sqrtRound q = c) :
    FloatVal.sqrt32 (FloatVal.num q) = FloatVal.num c := by
  show (if q < 0 then FloatVal.nan else if q = 0 then FloatVal.num 0
    else FloatVal.num (sqrtRound q)) = _
  rw [if_neg (not_lt.mpr (le_of_lt hq)), if_neg (ne_of_gt hq), h]

theorem sumSquaredDifferences32_eq_foldl (rb : List Mat) (mean : FloatVal) (row col : Nat) :
    sumSquaredDifferences32 rb mean row col =
      (rb.map (fun m => m.pixelAt row col)).foldl (ssdStep32 mean) (FloatVal.num 0) := by
  unfold sumSquaredDifferences32
  rw [List.foldl_map]

/-- The computed `stdDev` of a pixel, from the values of the samples, of the mean, of
the accumulated sum, of the variance and of the square root. -/
theorem stdDev32_eval (rb : List Mat) (row col : Nat) (xs : List Int) (S : Int) (n : Nat)
    (mean ssd v sd : ℚ)
    (hxs : rb.map (fun m => m.pixelAt row col) = xs) (hn : rb.length = n) (hS : xs.sum = S)
    (hmean : FloatVal.div32 (FloatVal.ofInt32 S) (FloatVal.ofSize32 n) = FloatVal.num mean)
    (hssd : xs.foldl (ssdStep32 (FloatVal.num mean)) (FloatVal.num 0) = FloatVal.num ssd)
    (hv : FloatVal.div32 (FloatVal.num ssd) (FloatVal.ofSize32 n) = FloatVal.num v)
    (hsd : FloatVal.sqrt32 (FloatVal.num v) = FloatVal.num sd) :
    stdDev32 rb row col = FloatVal.num sd := by
  unfold stdDev32
  simp only
  rw [pixelSum_eq_sum, hxs, hn, hS, hmean, sumSquaredDifferences32_eq_foldl, hxs, hssd, hv, hsd]

theorem roundHalfEven_of_tie (x : ℚ) (E : Int) (hE : E % 2 = 0)
    (h : x - (E : ℚ) = 1 / 2 ∨ (E : ℚ) - x = 1 / 2) : roundHalfEven x = E := by
  rcases h with h | h
  · have hf : ⌊x⌋ = E := by
      rw [Int.floor_eq_iff]
      exact ⟨by linarith, by linarith⟩
    unfold roundHalfEven
    simp only
    rw [hf, if_neg (by linarith), if_neg (by linarith), if_pos hE]
  · have hf : ⌊x⌋ = E - 1 := by
      rw [Int.floor_eq_iff]
      push_cast
      exact ⟨by linarith, by linarith⟩
    unfold roundHalfEven
    simp only
    rw [hf]
    push_cast
    rw [if_neg (by linarith), if_neg (by linarith), if_neg (by omega)]
    ring

/-- A rounding certificate for a tie: `q` is exactly half a grid spacing away from the
grid point `c = E * 2 ^ k` with `E` even. -/
theorem rnd_tie (q c : ℚ) (E k : Int) (hk : -149 ≤ k)
    (h1 : (2 : ℚ) ^ (k + 23) ≤ |q|) (h2 : |q| < (2 : ℚ) ^ (k + 24)) (hE : E % 2 = 0)
    (hc : c = (E : ℚ) * (2 : ℚ) ^ k)
    (hn : q - c = (2 : ℚ) ^ k / 2 ∨ c - q = (2 : ℚ) ^ k / 2) : rnd q = c := by
  have hu := ulpExp_of_binade q k hk h1 h2
  have hq : q ≠ 0 := by
    intro h0
    rw [h0, abs_zero] at h1
    exact absurd h1 (not_le.mpr (two_zpow_pos _))
  have hp := two_zpow_pos k
  have hx : q / (2 : ℚ) ^ k - (E : ℚ) = (q - c) / (2 : ℚ) ^ k := by
    rw [hc]; field_simp; ring
  have hx2 : (E : ℚ) - q / (2 : ℚ) ^ k = (c - q) / (2 : ℚ) ^ k := by
    rw [hc]; field_simp
  have hnear : q / (2 : ℚ) ^ k - (E : ℚ) = 1 / 2 ∨ (E : ℚ) - q / (2 : ℚ) ^ k = 1 / 2 := by
    rcases hn with h | h
    · left; rw [hx, h]; field_simp; ring
    · right; rw [hx2, h]; field_simp; ring
  unfold rnd
  rw [if_neg hq, hu, roundHalfEven_of_tie _ E hE hnear, hc]

/-- The tie certificate for a positive exact result. -/
theorem FloatVal.round32_tie_pos (q c : ℚ) (E k : Int) (hk : -149 ≤ k) (hk2 : k ≤ 100)
    (h1 : (2 : ℚ) ^ (k + 23) ≤ q) (h2 : q < (2 : ℚ) ^ (k + 24)) (hE : E % 2 = 0)
    (hc : c = (E : ℚ) * (2 : ℚ) ^ k)
    (hn : q - c = (2 : ℚ) ^ k / 2 ∨ c - q = (2 : ℚ) ^ k / 2) :
    FloatVal.round32 (FloatVal.num q) = FloatVal.num c := by
  have hq : (0 : ℚ) < q := lt_of_lt_of_le (two_zpow_pos _) h1
  have habs : |q| = q := abs_of_pos hq
  have hr := rnd_tie q c E k hk (by rw [habs]; exact h1) (by rw [habs]; exact h2) hE hc hn
  have hp := two_zpow_pos k
  have hb1 : (2 : ℚ) ^ k ≤ (2 : ℚ) ^ (100 : Int) := zpow_le_zpow_right₀ (by norm_num) hk2
  have hb2 : (2 : ℚ) ^ (k + 24) ≤ (2 : ℚ) ^ (124 : Int) :=
    zpow_le_zpow_right₀ (by norm_num) (by omega)
  have e1 : (2 : ℚ) ^ (100 : Int) = 2 ^ (100 : Nat) := by norm_num
  have e2 : (2 : ℚ) ^ (124 : Int) = 2 ^ (124 : Nat) := by norm_num
  rw [e1] at hb1
  rw [e2] at hb2
  have hbig : (2 : ℚ) ^ (124 : Nat) + 2 ^ (100 : Nat) < 2 ^ (128 : Nat) := by norm_num
  have hpos128 : (0 : ℚ) < 2 ^ (128 : Nat) := by positivity
  refine FloatVal.round32_of_rnd q c hr ?_ ?_
  · rcases hn with h | h <;> linarith
  · rcases hn with h | h <;> linarith

/-! ### Three buffers of nine frames, evaluated in single precision -/

/-- The accumulation loop on the samples of `nineFrameState`, rounding by rounding. -/
theorem nineFrame_ssd32 :
    List.foldl (ssdStep32 (FloatVal.num (14199467 / 131072))) (FloatVal.num 0)
      ([3, 191, 195, 4, 193, 4, 190, 193, 2] : List Int) = FloatVal.num (10179073 / 128) := by
  have s1 : ssdStep32 (FloatVal.num (14199467 / 131072))
      (FloatVal.num 0) 3 =
      FloatVal.num (5680697 / 512) :=
    ssdStep32_eval _ _ (-13806251 / 131072) (5680697 / 512) _ _ (by norm_num) (by norm_num)
      (FloatVal.round32_near_neg _ _ (-13806251) (-17) (by norm_num) (by norm_num) (by norm_num)
        (by norm_num) (by norm_num) (by norm_num) (by norm_num))
      (FloatVal.round32_near_pos _ _ (11361394) (-10) (by norm_num) (by norm_num) (by norm_num)
        (by norm_num) (by norm_num) (by norm_num) (by norm_num))
      (FloatVal.round32_near_pos _ _ (11361394) (-10) (by norm_num) (by norm_num) (by norm_num)
        (by norm_num) (by norm_num) (by norm_num) (by norm_num))
  have s2 : ssdStep32 (FloatVal.num (14199467 / 131072))
      (FloatVal.num (5680697 / 512)) 191 =
      FloatVal.num (9179591 / 512) :=
    ssdStep32_eval _ _ (10835285 / 131072) (1749447 / 256) _ _ (by norm_num) (by norm_num)
      (FloatVal.round32_near_pos _ _ (10835285) (-17) (by norm_num) (by norm_num) (by norm_num)
        (by norm_num) (by norm_num) (by norm_num) (by norm_num))
      (FloatVal.round32_near_pos _ _ (13995576) (-11) (by norm_num) (by norm_num) (by norm_num)
        (by norm_num) (by norm_num) (by norm_num) (by norm_num))
      (FloatVal.round32_near_pos _ _ (9179591) (-9) (by norm_num) (by norm_num) (by norm_num)
        (by norm_num) (by norm_num) (by norm_num) (by norm_num))
  have s3 : ssdStep32 (FloatVal.num (14199467 / 131072))
      (FloatVal.num (9179591 / 512)) 195 =
      FloatVal.num (25440) :=
    ssdStep32_eval _ _ (11359573 / 131072) (15382755 / 2048) _ _ (by norm_num) (by norm_num)
      (FloatVal.round32_near_pos _ _ (11359573) (-17) (by norm_num) (by norm_num) (by norm_num)
        (by norm_num) (by norm_num) (by norm_num) (by norm_num))
      (FloatVal.round32_near_pos _ _ (15382755) (-11) (by norm_num) (by norm_num) (by norm_num)
        (by norm_num) (by norm_num) (by norm_num) (by norm_num))
      (FloatVal.round32_near_pos _ _ (13025280) (-9) (by norm_num) (by norm_num) (by norm_num)
        (by norm_num) (by norm_num) (by norm_num) (by norm_num))
  have s4 : ssdStep32 (FloatVal.num (14199467 / 131072))
      (FloatVal.num (25440)) 4 =
      FloatVal.num (4649657 / 128) :=
    ssdStep32_eval _ _ (-13675179 / 131072) (1393337 / 128) _ _ (by norm_num) (by norm_num)
      (FloatVal.round32_near_neg _ _ (-13675179) (-17) (by norm_num) (by norm_num) (by norm_num)
        (by norm_num) (by norm_num) (by norm_num) (by norm_num))
      (FloatVal.round32_near_pos _ _ (11146696) (-10) (by norm_num) (by norm_num) (by norm_num)
        (by norm_num) (by norm_num) (by norm_num) (by norm_num))
      (FloatVal.round32_near_pos _ _ (9299314) (-8) (by norm_num) (by norm_num) (by norm_num)
        (by norm_num) (by norm_num) (by norm_num) (by norm_num))
  have s5 : ssdStep32 (FloatVal.num (14199467 / 131072))
      (FloatVal.num (4649657 / 128)) 193 =
      FloatVal.num (2783609 / 64) :=
    ssdStep32_eval _ _ (11097429 / 131072) (14680973 / 2048) _ _ (by norm_num) (by norm_num)
      (FloatVal.round32_near_pos _ _ (11097429) (-17) (by norm_num) (by norm_num) (by norm_num)
        (by norm_num) (by norm_num) (by norm_num) (by norm_num))
      (FloatVal.round32_near_pos _ _ (14680973) (-11) (by norm_num) (by norm_num) (by norm_num)
        (by norm_num) (by norm_num) (by norm_num) (by norm_num))
      (FloatVal.round32_near_pos _ _ (11134436) (-8) (by norm_num) (by norm_num) (by norm_num)
        (by norm_num) (by norm_num) (by norm_num) (by norm_num))
  have s6 : ssdStep32 (FloatVal.num (14199467 / 131072))
      (FloatVal.num (2783609 / 64)) 4 =
      FloatVal.num (6960555 / 128) :=
    ssdStep32_eval _ _ (-13675179 / 131072) (1393337 / 128) _ _ (by norm_num) (by norm_num)
      (FloatVal.round32_near_neg _ _ (-13675179) (-17) (by norm_num) (by norm_num) (by norm_num)
        (by norm_num) (by norm_num) (by norm_num) (by norm_num))
      (FloatVal.round32_near_pos _ _ (11146696) (-10) (by norm_num) (by norm_num) (by norm_num)
        (by norm_num) (by norm_num) (by norm_num) (by norm_num))
      (FloatVal.round32_near_pos _ _ (13921110) (-8) (by norm_num) (by norm_num) (by norm_num)
        (by norm_num) (by norm_num) (by norm_num) (by norm_num))
  have s7 : ssdStep32 (FloatVal.num (14199467 / 131072))
      (FloatVal.num (6960555 / 128)) 190 =
      FloatVal.num (1953561 / 32) :=
    ssdStep32_eval _ _ (10704213 / 131072) (13659021 / 2048) _ _ (by norm_num) (by norm_num)
      (FloatVal.round32_near_pos _ _ (10704213) (-17) (by norm_num) (by norm_num) (by norm_num)
        (by norm_num) (by norm_num) (by norm_num) (by norm_num))
      (FloatVal.round32_near_pos _ _ (13659021) (-11) (by norm_num) (by norm_num) (by norm_num)
        (by norm_num) (by norm_num) (by norm_num) (by norm_num))
      (FloatVal.round32_near_pos _ _ (15628488) (-8) (by norm_num) (by norm_num) (by norm_num)
        (by norm_num) (by norm_num) (by norm_num) (by norm_num))
  have s8 : ssdStep32 (FloatVal.num (14199467 / 131072))
      (FloatVal.num (1953561 / 32)) 193 =
      FloatVal.num (8731805 / 128) :=
    ssdStep32_eval _ _ (11097429 / 131072) (14680973 / 2048) _ _ (by norm_num) (by norm_num)
      (FloatVal.round32_near_pos _ _ (11097429) (-17) (by norm_num) (by norm_num) (by norm_num)
        (by norm_num) (by norm_num) (by norm_num) (by norm_num))
      (FloatVal.round32_near_pos _ _ (14680973) (-11) (by norm_num) (by norm_num) (by norm_num)
        (by norm_num) (by norm_num) (by norm_num) (by norm_num))
      (FloatVal.round32_near_pos _ _ (8731805) (-7) (by norm_num) (by norm_num) (by norm_num)
        (by norm_num) (by norm_num) (by norm_num) (by norm_num))
  have s9 : ssdStep32 (FloatVal.num (14199467 / 131072))
      (FloatVal.num (8731805 / 128)) 2 =
      FloatVal.num (10179073 / 128) :=
    ssdStep32_eval _ _ (-13937323 / 131072) (11578141 / 1024) _ _ (by norm_num) (by norm_num)
      (FloatVal.round32_near_neg _ _ (-13937323) (-17) (by norm_num) (by norm_num) (by norm_num)
        (by norm_num) (by norm_num) (by norm_num) (by norm_num))
      (FloatVal.round32_near_pos _ _ (11578141) (-10) (by norm_num) (by norm_num) (by norm_num)
        (by norm_num) (by norm_num) (by norm_num) (by norm_num))
      (FloatVal.round32_near_pos _ _ (10179073) (-7) (by norm_num) (by norm_num) (by norm_num)
        (by norm_num) (by norm_num) (by norm_num) (by norm_num))
  rw [List.foldl_cons, s1,
    List.foldl_cons, s2,
    List.foldl_cons, s3,
    List.foldl_cons, s4,
    List.foldl_cons, s5,
    List.foldl_cons, s6,
    List.foldl_cons, s7,
    List.foldl_cons, s8,
    List.foldl_cons, s9,
    List.foldl_nil]

theorem nineFrame_stdDev32 (r c : Nat) (hr : r < 480) (hc : c < 640) :
    stdDev32 nineFrameState.ringBuffer r c = FloatVal.num (12320769 / 131072) := by
  have hxs : nineFrameState.ringBuffer.map (fun m => m.pixelAt r c) =
      ([3, 191, 195, 4, 193, 4, 190, 193, 2] : List Int) := by
    show List.map (fun m => m.pixelAt r c)
      [uniformFrame 3,
        uniformFrame 191,
        uniformFrame 195,
        uniformFrame 4,
        uniformFrame 193,
        uniformFrame 4,
        uniformFrame 190,
        uniformFrame 193,
        uniformFrame 2] = _
    simp only [List.map_cons, List.map_nil, uniformFrame_pixelAt _ r c hr hc]
    rfl
  have hmean : FloatVal.div32 (FloatVal.ofInt32 975) (FloatVal.ofSize32 9) =
      FloatVal.num (14199467 / 131072) := by
    rw [FloatVal.ofInt32_of_bounds 975 (by norm_num) (by norm_num),
      FloatVal.ofSize32_of_bounds 9 (by norm_num)]
    exact FloatVal.div32_eval _ _ _ (by norm_num)
      (FloatVal.round32_near_pos _ _ (14199467) (-17) (by norm_num) (by norm_num) (by norm_num)
        (by norm_num) (by norm_num) (by norm_num) (by norm_num))
  have hv : FloatVal.div32 (FloatVal.num (10179073 / 128)) (FloatVal.ofSize32 9) =
      FloatVal.num (9048065 / 1024) := by
    rw [FloatVal.ofSize32_of_bounds 9 (by norm_num)]
    exact FloatVal.div32_eval _ _ _ (by norm_num)
      (FloatVal.round32_near_pos _ _ (9048065) (-10) (by norm_num) (by norm_num) (by norm_num)
        (by norm_num) (by norm_num) (by norm_num) (by norm_num))
  have hsd : FloatVal.sqrt32 (FloatVal.num (9048065 / 1024)) = FloatVal.num (12320769 / 131072) :=
    FloatVal.sqrt32_eval _ _ (by norm_num)
      (sqrtRound_cert _ _ (13) (-17) 12320769 (by norm_num) (by norm_num) (by norm_num)
        (by norm_num) (by norm_num) (by norm_num) (by norm_num))
  exact stdDev32_eval _ r c _ 975 9 _ _ _ _ hxs rfl (by norm_num) hmean
    nineFrame_ssd32 hv hsd

/-- The accumulation loop on the samples of `orderedState`, rounding by rounding. -/
theorem ordered_ssd32 :
    List.foldl (ssdStep32 (FloatVal.num (8497835 / 65536))) (FloatVal.num 0)
      ([6, 216, 26, 245, 33, 39, 241, 228, 133] : List Int) = FloatVal.num (86436) := by
  have s1 : ssdStep32 (FloatVal.num (8497835 / 65536))
      (FloatVal.num 0) 6 =
      FloatVal.num (1957561 / 128) :=
    ssdStep32_eval _ _ (-8104619 / 65536) (1957561 / 128) _ _ (by norm_num) (by norm_num)
      (FloatVal.round32_near_neg _ _ (-16209238) (-17) (by norm_num) (by norm_num) (by norm_num)
        (by norm_num) (by norm_num) (by norm_num) (by norm_num))
      (FloatVal.round32_near_pos _ _ (15660488) (-10) (by norm_num) (by norm_num) (by norm_num)
        (by norm_num) (by norm_num) (by norm_num) (by norm_num))
      (FloatVal.round32_near_pos _ _ (15660488) (-10) (by norm_num) (by norm_num) (by norm_num)
        (by norm_num) (by norm_num) (by norm_num) (by norm_num))
  have s2 : ssdStep32 (FloatVal.num (8497835 / 65536))
      (FloatVal.num (1957561 / 128)) 216 =
      FloatVal.num (11646407 / 512) :=
    ssdStep32_eval _ _ (5657941 / 65536) (3816163 / 512) _ _ (by norm_num) (by norm_num)
      (FloatVal.round32_near_pos _ _ (11315882) (-17) (by norm_num) (by norm_num) (by norm_num)
        (by norm_num) (by norm_num) (by norm_num) (by norm_num))
      (FloatVal.round32_near_pos _ _ (15264652) (-11) (by norm_num) (by norm_num) (by norm_num)
        (by norm_num) (by norm_num) (by norm_num) (by norm_num))
      (FloatVal.round32_near_pos _ _ (11646407) (-9) (by norm_num) (by norm_num) (by norm_num)
        (by norm_num) (by norm_num) (by norm_num) (by norm_num))
  have s3 : ssdStep32 (FloatVal.num (8497835 / 65536))
      (FloatVal.num (11646407 / 512)) 26 =
      FloatVal.num (8574379 / 256) :=
    ssdStep32_eval _ _ (-6793899 / 65536) (5502351 / 512) _ _ (by norm_num) (by norm_num)
      (FloatVal.round32_near_neg _ _ (-13587798) (-17) (by norm_num) (by norm_num) (by norm_num)
        (by norm_num) (by norm_num) (by norm_num) (by norm_num))
      (FloatVal.round32_near_pos _ _ (11004702) (-10) (by norm_num) (by norm_num) (by norm_num)
        (by norm_num) (by norm_num) (by norm_num) (by norm_num))
      (FloatVal.round32_near_pos _ _ (8574379) (-8) (by norm_num) (by norm_num) (by norm_num)
        (by norm_num) (by norm_num) (by norm_num) (by norm_num))
  have s4 : ssdStep32 (FloatVal.num (8497835 / 65536))
      (FloatVal.num (8574379 / 256)) 245 =
      FloatVal.num (5989817 / 128) :=
    ssdStep32_eval _ _ (7558485 / 65536) (13621019 / 1024) _ _ (by norm_num) (by norm_num)
      (FloatVal.round32_near_pos _ _ (15116970) (-17) (by norm_num) (by norm_num) (by norm_num)
        (by norm_num) (by norm_num) (by norm_num) (by norm_num))
      (FloatVal.round32_near_pos _ _ (13621019) (-10) (by norm_num) (by norm_num) (by norm_num)
        (by norm_num) (by norm_num) (by norm_num) (by norm_num))
      (FloatVal.round32_near_pos _ _ (11979634) (-8) (by norm_num) (by norm_num) (by norm_num)
        (by norm_num) (by norm_num) (by norm_num) (by norm_num))
  have s5 : ssdStep32 (FloatVal.num (8497835 / 65536))
      (FloatVal.num (5989817 / 128)) 33 =
      FloatVal.num (3592953 / 64) :=
    ssdStep32_eval _ _ (-6335147 / 65536) (1196089 / 128) _ _ (by norm_num) (by norm_num)
      (FloatVal.round32_near_neg _ _ (-12670294) (-17) (by norm_num) (by norm_num) (by norm_num)
        (by norm_num) (by norm_num) (by norm_num) (by norm_num))
      (FloatVal.round32_near_pos _ _ (9568712) (-10) (by norm_num) (by norm_num) (by norm_num)
        (by norm_num) (by norm_num) (by norm_num) (by norm_num))
      (FloatVal.round32_near_pos _ _ (14371812) (-8) (by norm_num) (by norm_num) (by norm_num)
        (by norm_num) (by norm_num) (by norm_num) (by norm_num))
  have s6 : ssdStep32 (FloatVal.num (8497835 / 65536))
      (FloatVal.num (3592953 / 64)) 39 =
      FloatVal.num (8238123 / 128) :=
    ssdStep32_eval _ _ (-5941931 / 65536) (1052217 / 128) _ _ (by norm_num) (by norm_num)
      (FloatVal.round32_near_neg _ _ (-11883862) (-17) (by norm_num) (by norm_num) (by norm_num)
        (by norm_num) (by norm_num) (by norm_num) (by norm_num))
      (FloatVal.round32_near_pos _ _ (8417736) (-10) (by norm_num) (by norm_num) (by norm_num)
        (by norm_num) (by norm_num) (by norm_num) (by norm_num))
      (FloatVal.round32_near_pos _ _ (16476246) (-8) (by norm_num) (by norm_num) (by norm_num)
        (by norm_num) (by norm_num) (by norm_num) (by norm_num))
  have s7 : ssdStep32 (FloatVal.num (8497835 / 65536))
      (FloatVal.num (8238123 / 128)) 241 =
      FloatVal.num (9824697 / 128) :=
    ssdStep32_eval _ _ (7296341 / 65536) (12692593 / 1024) _ _ (by norm_num) (by norm_num)
      (FloatVal.round32_near_pos _ _ (14592682) (-17) (by norm_num) (by norm_num) (by norm_num)
        (by norm_num) (by norm_num) (by norm_num) (by norm_num))
      (FloatVal.round32_near_pos _ _ (12692593) (-10) (by norm_num) (by norm_num) (by norm_num)
        (by norm_num) (by norm_num) (by norm_num) (by norm_num))
      (FloatVal.round32_near_pos _ _ (9824697) (-7) (by norm_num) (by norm_num) (by norm_num)
        (by norm_num) (by norm_num) (by norm_num) (by norm_num))
  have s8 : ssdStep32 (FloatVal.num (8497835 / 65536))
      (FloatVal.num (9824697 / 128)) 228 =
      FloatVal.num (5531193 / 64) :=
    ssdStep32_eval _ _ (6444373 / 65536) (4950755 / 512) _ _ (by norm_num) (by norm_num)
      (FloatVal.round32_near_pos _ _ (12888746) (-17) (by norm_num) (by norm_num) (by norm_num)
        (by norm_num) (by norm_num) (by norm_num) (by norm_num))
      (FloatVal.round32_near_pos _ _ (9901510) (-10) (by norm_num) (by norm_num) (by norm_num)
        (by norm_num) (by norm_num) (by norm_num) (by norm_num))
      (FloatVal.round32_near_pos _ _ (11062386) (-7) (by norm_num) (by norm_num) (by norm_num)
        (by norm_num) (by norm_num) (by norm_num) (by norm_num))
  have s9 : ssdStep32 (FloatVal.num (8497835 / 65536))
      (FloatVal.num (5531193 / 64)) 133 =
      FloatVal.num (86436) :=
    ssdStep32_eval _ _ (218453 / 65536) (11650809 / 1048576) _ _ (by norm_num) (by norm_num)
      (FloatVal.round32_near_pos _ _ (13980992) (-22) (by norm_num) (by norm_num) (by norm_num)
        (by norm_num) (by norm_num) (by norm_num) (by norm_num))
      (FloatVal.round32_near_pos _ _ (11650809) (-20) (by norm_num) (by norm_num) (by norm_num)
        (by norm_num) (by norm_num) (by norm_num) (by norm_num))
      (FloatVal.round32_near_pos _ _ (11063808) (-7) (by norm_num) (by norm_num) (by norm_num)
        (by norm_num) (by norm_num) (by norm_num) (by norm_num))
  rw [List.foldl_cons, s1,
    List.foldl_cons, s2,
    List.foldl_cons, s3,
    List.foldl_cons, s4,
    List.foldl_cons, s5,
    List.foldl_cons, s6,
    List.foldl_cons, s7,
    List.foldl_cons, s8,
    List.foldl_cons, s9,
    List.foldl_nil]

theorem ordered_stdDev32 (r c : Nat) (hr : r < 480) (hc : c < 640) :
    stdDev32 orderedState.ringBuffer r c = FloatVal.num (98) := by
  have hxs : orderedState.ringBuffer.map (fun m => m.pixelAt r c) =
      ([6, 216, 26, 245, 33, 39, 241, 228, 133] : List Int) := by
    show List.map (fun m => m.pixelAt r c)
      [uniformFrame 6,
        uniformFrame 216,
        uniformFrame 26,
        uniformFrame 245,
        uniformFrame 33,
        uniformFrame 39,
        uniformFrame 241,
        uniformFrame 228,
        uniformFrame 133] = _
    simp only [List.map_cons, List.map_nil, uniformFrame_pixelAt _ r c hr hc]
    rfl
  have hmean : FloatVal.div32 (FloatVal.ofInt32 1167) (FloatVal.ofSize32 9) =
      FloatVal.num (8497835 / 65536) := by
    rw [FloatVal.ofInt32_of_bounds 1167 (by norm_num) (by norm_num),
      FloatVal.ofSize32_of_bounds 9 (by norm_num)]
    exact FloatVal.div32_eval _ _ _ (by norm_num)
      (FloatVal.round32_near_pos _ _ (8497835) (-16) (by norm_num) (by norm_num) (by norm_num)
        (by norm_num) (by norm_num) (by norm_num) (by norm_num))
  have hv : FloatVal.div32 (FloatVal.num (86436)) (FloatVal.ofSize32 9) =
      FloatVal.num (9604) := by
    rw [FloatVal.ofSize32_of_bounds 9 (by norm_num)]
    exact FloatVal.div32_eval _ _ _ (by norm_num)
      (FloatVal.round32_near_pos _ _ (9834496) (-10) (by norm_num) (by norm_num) (by norm_num)
        (by norm_num) (by norm_num) (by norm_num) (by norm_num))
  have hsd : FloatVal.sqrt32 (FloatVal.num (9604)) = FloatVal.num (98) :=
    FloatVal.sqrt32_eval _ _ (by norm_num)
      (sqrtRound_cert _ _ (13) (-17) 12845056 (by norm_num) (by norm_num) (by norm_num)
        (by norm_num) (by norm_num) (by norm_num) (by norm_num))
  exact stdDev32_eval _ r c _ 1167 9 _ _ _ _ hxs rfl (by norm_num) hmean
    ordered_ssd32 hv hsd

/-- The accumulation loop on the samples of `permutedState`, rounding by rounding. -/
theorem permuted_ssd32 :
    List.foldl (ssdStep32 (FloatVal.num (8497835 / 65536))) (FloatVal.num 0)
      ([133, 26, 228, 6, 245, 33, 39, 241, 216] : List Int) = FloatVal.num (11063809 / 128) := by
  have s1 : ssdStep32 (FloatVal.num (8497835 / 65536))
      (FloatVal.num 0) 133 =
      FloatVal.num (11650809 / 1048576) :=
    ssdStep32_eval _ _ (218453 / 65536) (11650809 / 1048576) _ _ (by norm_num) (by norm_num)
      (FloatVal.round32_near_pos _ _ (13980992) (-22) (by norm_num) (by norm_num) (by norm_num)
        (by norm_num) (by norm_num) (by norm_num) (by norm_num))
      (FloatVal.round32_near_pos _ _ (11650809) (-20) (by norm_num) (by norm_num) (by norm_num)
        (by norm_num) (by norm_num) (by norm_num) (by norm_num))
      (FloatVal.round32_near_pos _ _ (11650809) (-20) (by norm_num) (by norm_num) (by norm_num)
        (by norm_num) (by norm_num) (by norm_num) (by norm_num))
  have s2 : ssdStep32 (FloatVal.num (8497835 / 65536))
      (FloatVal.num (11650809 / 1048576)) 26 =
      FloatVal.num (688505 / 64) :=
    ssdStep32_eval _ _ (-6793899 / 65536) (5502351 / 512) _ _ (by norm_num) (by norm_num)
      (FloatVal.round32_near_neg _ _ (-13587798) (-17) (by norm_num) (by norm_num) (by norm_num)
        (by norm_num) (by norm_num) (by norm_num) (by norm_num))
      (FloatVal.round32_near_pos _ _ (11004702) (-10) (by norm_num) (by norm_num) (by norm_num)
        (by norm_num) (by norm_num) (by norm_num) (by norm_num))
      (FloatVal.round32_near_pos _ _ (11016080) (-10) (by norm_num) (by norm_num) (by norm_num)
        (by norm_num) (by norm_num) (by norm_num) (by norm_num))
  have s3 : ssdStep32 (FloatVal.num (8497835 / 65536))
      (FloatVal.num (688505 / 64)) 228 =
      FloatVal.num (10458795 / 512) :=
    ssdStep32_eval _ _ (6444373 / 65536) (4950755 / 512) _ _ (by norm_num) (by norm_num)
      (FloatVal.round32_near_pos _ _ (12888746) (-17) (by norm_num) (by norm_num) (by norm_num)
        (by norm_num) (by norm_num) (by norm_num) (by norm_num))
      (FloatVal.round32_near_pos _ _ (9901510) (-10) (by norm_num) (by norm_num) (by norm_num)
        (by norm_num) (by norm_num) (by norm_num) (by norm_num))
      (FloatVal.round32_near_pos _ _ (10458795) (-9) (by norm_num) (by norm_num) (by norm_num)
        (by norm_num) (by norm_num) (by norm_num) (by norm_num))
  have s4 : ssdStep32 (FloatVal.num (8497835 / 65536))
      (FloatVal.num (10458795 / 512)) 6 =
      FloatVal.num (1143065 / 32) :=
    ssdStep32_eval _ _ (-8104619 / 65536) (1957561 / 128) _ _ (by norm_num) (by norm_num)
      (FloatVal.round32_near_neg _ _ (-16209238) (-17) (by norm_num) (by norm_num) (by norm_num)
        (by norm_num) (by norm_num) (by norm_num) (by norm_num))
      (FloatVal.round32_near_pos _ _ (15660488) (-10) (by norm_num) (by norm_num) (by norm_num)
        (by norm_num) (by norm_num) (by norm_num) (by norm_num))
      (FloatVal.round32_tie_pos _ _ (9144520) (-8) (by norm_num) (by norm_num) (by norm_num)
        (by norm_num) (by norm_num) (by norm_num) (Or.inr (by norm_num)))
  have s5 : ssdStep32 (FloatVal.num (8497835 / 65536))
      (FloatVal.num (1143065 / 32)) 245 =
      FloatVal.num (12549775 / 256) :=
    ssdStep32_eval _ _ (7558485 / 65536) (13621019 / 1024) _ _ (by norm_num) (by norm_num)
      (FloatVal.round32_near_pos _ _ (15116970) (-17) (by norm_num) (by norm_num) (by norm_num)
        (by norm_num) (by norm_num) (by norm_num) (by norm_num))
      (FloatVal.round32_near_pos _ _ (13621019) (-10) (by norm_num) (by norm_num) (by norm_num)
        (by norm_num) (by norm_num) (by norm_num) (by norm_num))
      (FloatVal.round32_near_pos _ _ (12549775) (-8) (by norm_num) (by norm_num) (by norm_num)
        (by norm_num) (by norm_num) (by norm_num) (by norm_num))
  have s6 : ssdStep32 (FloatVal.num (8497835 / 65536))
      (FloatVal.num (12549775 / 256)) 33 =
      FloatVal.num (14941953 / 256) :=
    ssdStep32_eval _ _ (-6335147 / 65536) (1196089 / 128) _ _ (by norm_num) (by norm_num)
      (FloatVal.round32_near_neg _ _ (-12670294) (-17) (by norm_num) (by norm_num) (by norm_num)
        (by norm_num) (by norm_num) (by norm_num) (by norm_num))
      (FloatVal.round32_near_pos _ _ (9568712) (-10) (by norm_num) (by norm_num) (by norm_num)
        (by norm_num) (by norm_num) (by norm_num) (by norm_num))
      (FloatVal.round32_near_pos _ _ (14941953) (-8) (by norm_num) (by norm_num) (by norm_num)
        (by norm_num) (by norm_num) (by norm_num) (by norm_num))
  have s7 : ssdStep32 (FloatVal.num (8497835 / 65536))
      (FloatVal.num (14941953 / 256)) 39 =
      FloatVal.num (4261597 / 64) :=
    ssdStep32_eval _ _ (-5941931 / 65536) (1052217 / 128) _ _ (by norm_num) (by norm_num)
      (FloatVal.round32_near_neg _ _ (-11883862) (-17) (by norm_num) (by norm_num) (by norm_num)
        (by norm_num) (by norm_num) (by norm_num) (by norm_num))
      (FloatVal.round32_near_pos _ _ (8417736) (-10) (by norm_num) (by norm_num) (by norm_num)
        (by norm_num) (by norm_num) (by norm_num) (by norm_num))
      (FloatVal.round32_tie_pos _ _ (8523194) (-7) (by norm_num) (by norm_num) (by norm_num)
        (by norm_num) (by norm_num) (by norm_num) (Or.inr (by norm_num)))
  have s8 : ssdStep32 (FloatVal.num (8497835 / 65536))
      (FloatVal.num (4261597 / 64)) 241 =
      FloatVal.num (1263721 / 16) :=
    ssdStep32_eval _ _ (7296341 / 65536) (12692593 / 1024) _ _ (by norm_num) (by norm_num)
      (FloatVal.round32_near_pos _ _ (14592682) (-17) (by norm_num) (by norm_num) (by norm_num)
        (by norm_num) (by norm_num) (by norm_num) (by norm_num))
      (FloatVal.round32_near_pos _ _ (12692593) (-10) (by norm_num) (by norm_num) (by norm_num)
        (by norm_num) (by norm_num) (by norm_num) (by norm_num))
      (FloatVal.round32_near_pos _ _ (10109768) (-7) (by norm_num) (by norm_num) (by norm_num)
        (by norm_num) (by norm_num) (by norm_num) (by norm_num))
  have s9 : ssdStep32 (FloatVal.num (8497835 / 65536))
      (FloatVal.num (1263721 / 16)) 216 =
      FloatVal.num (11063809 / 128) :=
    ssdStep32_eval _ _ (5657941 / 65536) (3816163 / 512) _ _ (by norm_num) (by norm_num)
      (FloatVal.round32_near_pos _ _ (11315882) (-17) (by norm_num) (by norm_num) (by norm_num)
        (by norm_num) (by norm_num) (by norm_num) (by norm_num))
      (FloatVal.round32_near_pos _ _ (15264652) (-11) (by norm_num) (by norm_num) (by norm_num)
        (by norm_num) (by norm_num) (by norm_num) (by norm_num))
      (FloatVal.round32_near_pos _ _ (11063809) (-7) (by norm_num) (by norm_num) (by norm_num)
        (by norm_num) (by norm_num) (by norm_num) (by norm_num))
  rw [List.foldl_cons, s1,
    List.foldl_cons, s2,
    List.foldl_cons, s3,
    List.foldl_cons, s4,
    List.foldl_cons, s5,
    List.foldl_cons, s6,
    List.foldl_cons, s7,
    List.foldl_cons, s8,
    List.foldl_cons, s9,
    List.foldl_nil]

theorem permuted_stdDev32 (r c : Nat) (hr : r < 480) (hc : c < 640) :
    stdDev32 permutedState.ringBuffer r c = FloatVal.num (12845057 / 131072) := by
  have hxs : permutedState.ringBuffer.map (fun m => m.pixelAt r c) =
      ([133, 26, 228, 6, 245, 33, 39, 241, 216] : List Int) := by
    show List.map (fun m => m.pixelAt r c)
      [uniformFrame 133,
        uniformFrame 26,
        uniformFrame 228,
        uniformFrame 6,
        uniformFrame 245,
        uniformFrame 33,
        uniformFrame 39,
        uniformFrame 241,
        uniformFrame 216] = _
    simp only [List.map_cons, List.map_nil, uniformFrame_pixelAt _ r c hr hc]
    rfl
  have hmean : FloatVal.div32 (FloatVal.ofInt32 1167) (FloatVal.ofSize32 9) =
      FloatVal.num (8497835 / 65536) := by
    rw [FloatVal.ofInt32_of_bounds 1167 (by norm_num) (by norm_num),
      FloatVal.ofSize32_of_bounds 9 (by norm_num)]
    exact FloatVal.div32_eval _ _ _ (by norm_num)
      (FloatVal.round32_near_pos _ _ (8497835) (-16) (by norm_num) (by norm_num) (by norm_num)
        (by norm_num) (by norm_num) (by norm_num) (by norm_num))
  have hv : FloatVal.div32 (FloatVal.num (11063809 / 128)) (FloatVal.ofSize32 9) =
      FloatVal.num (9834497 / 1024) := by
    rw [FloatVal.ofSize32_of_bounds 9 (by norm_num)]
    exact FloatVal.div32_eval _ _ _ (by norm_num)
      (FloatVal.round32_near_pos _ _ (9834497) (-10) (by norm_num) (by norm_num) (by norm_num)
        (by norm_num) (by norm_num) (by norm_num) (by norm_num))
  have hsd : FloatVal.sqrt32 (FloatVal.num (9834497 / 1024)) = FloatVal.num (12845057 / 131072) :=
    FloatVal.sqrt32_eval _ _ (by norm_num)
      (sqrtRound_cert _ _ (13) (-17) 12845057 (by norm_num) (by norm_num) (by norm_num)
        (by norm_num) (by norm_num) (by norm_num) (by norm_num))
  exact stdDev32_eval _ r c _ 1167 9 _ _ _ _ hxs rfl (by norm_num) hmean
    permuted_ssd32 hv hsd

/-! ### The buffer of two frames with samples 0 and 20, evaluated in single precision -/

/-- The accumulation loop on the samples 0 and 20 of `boundaryState`: every step is exact. -/
theorem boundary_ssd32 :
    List.foldl (ssdStep32 (FloatVal.num (10))) (FloatVal.num 0)
      ([0, 20] : List Int) = FloatVal.num (200) := by
  have s1 : ssdStep32 (FloatVal.num (10))
      (FloatVal.num 0) 0 =
      FloatVal.num (100) :=
    ssdStep32_eval _ _ (-10) (100) _ _ (by norm_num) (by norm_num)
      (FloatVal.round32_near_neg _ _ (-10485760) (-20) (by norm_num) (by norm_num) (by norm_num)
        (by norm_num) (by norm_num) (by norm_num) (by norm_num))
      (FloatVal.round32_near_pos _ _ (13107200) (-17) (by norm_num) (by norm_num) (by norm_num)
        (by norm_num) (by norm_num) (by norm_num) (by norm_num))
      (FloatVal.round32_near_pos _ _ (13107200) (-17) (by norm_num) (by norm_num) (by norm_num)
        (by norm_num) (by norm_num) (by norm_num) (by norm_num))
  have s2 : ssdStep32 (FloatVal.num (10))
      (FloatVal.num (100)) 20 =
      FloatVal.num (200) :=
    ssdStep32_eval _ _ (10) (100) _ _ (by norm_num) (by norm_num)
      (FloatVal.round32_near_pos _ _ (10485760) (-20) (by norm_num) (by norm_num) (by norm_num)
        (by norm_num) (by norm_num) (by norm_num) (by norm_num))
      (FloatVal.round32_near_pos _ _ (13107200) (-17) (by norm_num) (by norm_num) (by norm_num)
        (by norm_num) (by norm_num) (by norm_num) (by norm_num))
      (FloatVal.round32_near_pos _ _ (13107200) (-16) (by norm_num) (by norm_num) (by norm_num)
        (by norm_num) (by norm_num) (by norm_num) (by norm_num))
  rw [List.foldl_cons, s1,
    List.foldl_cons, s2,
    List.foldl_nil]

theorem boundary_stdDev32 (r c : Nat) (hr : r < 480) (hc : c < 640) :
    stdDev32 boundaryState.ringBuffer r c = FloatVal.num (10) := by
  have hxs : boundaryState.ringBuffer.map (fun m => m.pixelAt r c) =
      ([0, 20] : List Int) := by
    show List.map (fun m => m.pixelAt r c)
      [uniformFrame 0,
        uniformFrame 20] = _
    simp only [List.map_cons, List.map_nil, uniformFrame_pixelAt _ r c hr hc]
    rfl
  have hmean : FloatVal.div32 (FloatVal.ofInt32 20) (FloatVal.ofSize32 2) =
      FloatVal.num (10) := by
    rw [FloatVal.ofInt32_of_bounds 20 (by norm_num) (by norm_num),
      FloatVal.ofSize32_of_bounds 2 (by norm_num)]
    exact FloatVal.div32_eval _ _ _ (by norm_num)
      (FloatVal.round32_near_pos _ _ (10485760) (-20) (by norm_num) (by norm_num) (by norm_num)
        (by norm_num) (by norm_num) (by norm_num) (by norm_num))
  have hv : FloatVal.div32 (FloatVal.num (200)) (FloatVal.ofSize32 2) =
      FloatVal.num (100) := by
    rw [FloatVal.ofSize32_of_bounds 2 (by norm_num)]
    exact FloatVal.div32_eval _ _ _ (by norm_num)
      (FloatVal.round32_near_pos _ _ (13107200) (-17) (by norm_num) (by norm_num) (by norm_num)
        (by norm_num) (by norm_num) (by norm_num) (by norm_num))
  have hsd : FloatVal.sqrt32 (FloatVal.num (100)) = FloatVal.num (10) :=
    FloatVal.sqrt32_eval _ _ (by norm_num)
      (sqrtRound_cert _ _ (6) (-20) 10485760 (by norm_num) (by norm_num) (by norm_num)
        (by norm_num) (by norm_num) (by norm_num) (by norm_num))
  exact stdDev32_eval _ r c _ 20 2 _ _ _ _ hxs rfl (by norm_num) hmean
    boundary_ssd32 hv hsd

/-! ### The exact reading against single precision -/

theorem uniformFrames_hasSize (vs : List UChar) :
    ∀ m ∈ vs.map uniformFrame, m.HasSize 480 640 := by
  intro m hm
  obtain ⟨v, _, rfl⟩ := List.mem_map.mp hm
  exact uniformFrame_hasSize v

theorem FloatVal.gt_self (x : FloatVal) : FloatVal.gt x x = false := by
  cases x with
  | num q => simp [FloatVal.gt]
  | inf s => cases s <;> rfl
  | nan => rfl

theorem FloatVal.gt_num_ofInt32 (a : ℚ) (t : Int) (h1 : -16777216 < t) (h2 : t < 16777216) :
    FloatVal.gt (FloatVal.num a) (FloatVal.ofInt32 t) = decide ((t : ℚ) < a) := by
  rw [FloatVal.ofInt32_of_bounds t h1 h2]
  rfl

theorem nineFrame_samples :
    samplesAt nineFrameState.ringBuffer 0 0 = [3, 191, 195, 4, 193, 4, 190, 193, 2] := by
  show samplesAt [uniformFrame 3, uniformFrame 191, uniformFrame 195, uniformFrame 4,
    uniformFrame 193, uniformFrame 4, uniformFrame 190, uniformFrame 193, uniformFrame 2] 0 0 = _
  simp only [samplesAt, List.map_cons, List.map_nil,
    uniformFrame_pixelAt _ 0 0 (by decide) (by decide)]
  rfl

theorem nineFrame_variance :
    popVariance (samplesAt nineFrameState.ringBuffer 0 0) = 8836 := by
  rw [nineFrame_samples]
  norm_num [popVariance, popMean]

theorem permuted_samples :
    samplesAt permutedState.ringBuffer 0 0 = [133, 26, 228, 6, 245, 33, 39, 241, 216] := by
  show samplesAt [uniformFrame 133, uniformFrame 26, uniformFrame 228, uniformFrame 6,
    uniformFrame 245, uniformFrame 33, uniformFrame 39, uniformFrame 241, uniformFrame 216] 0 0 = _
  simp only [samplesAt, List.map_cons, List.map_nil,
    uniformFrame_pixelAt _ 0 0 (by decide) (by decide)]
  rfl

theorem permuted_variance :
    popVariance (samplesAt permutedState.ringBuffer 0 0) = 9604 := by
  rw [permuted_samples]
  norm_num [popVariance, popMean]

theorem nineFrame_flagged : (renderRingBuffer32 nineFrameState).pixelAt 0 0 = 255 := by
  rw [(renderRingBuffer32_pixelAt_iff nineFrameState 0 0 (by decide) (by decide)).1,
    nineFrame_stdDev32 0 0 (by decide) (by decide)]
  show FloatVal.gt _ (FloatVal.ofInt32 94) = true
  rw [FloatVal.gt_num_ofInt32 _ 94 (by norm_num) (by norm_num)]
  norm_num

theorem permuted_flagged : (renderRingBuffer32 permutedState).pixelAt 0 0 = 255 := by
  rw [(renderRingBuffer32_pixelAt_iff permutedState 0 0 (by decide) (by decide)).1,
    permuted_stdDev32 0 0 (by decide) (by decide)]
  show FloatVal.gt _ (FloatVal.ofInt32 98) = true
  rw [FloatVal.gt_num_ofInt32 _ 98 (by norm_num) (by norm_num)]
  norm_num

theorem ordered_not_flagged : (renderRingBuffer32 orderedState).pixelAt 0 0 = 0 := by
  rw [(renderRingBuffer32_pixelAt_iff orderedState 0 0 (by decide) (by decide)).2,
    ordered_stdDev32 0 0 (by decide) (by decide)]
  show FloatVal.gt _ (FloatVal.ofInt32 98) = false
  rw [FloatVal.gt_num_ofInt32 _ 98 (by norm_num) (by norm_num)]
  norm_num

/-! ### The mask on a non-empty buffer, in single precision -/

/-- C1, as stated, fails on the `float` arithmetic of the code: in `nineFrameState` the
nine samples 3, 191, 195, 4, 193, 4, 190, 193, 2 of a pixel have the population
standard deviation 94 exactly, which is not greater than the threshold 94
(`94² · 9² = 9 · 185149 − 975²`), yet the `stdDev` computed in binary32 is
`12320769 / 131072 = 94 + 2 ^ (-17)` and the pixel is written as 255. -/
theorem exact_criterion_counterexample :
    nineFrameState.ringBuffer ≠ [] ∧
    (∀ m ∈ nineFrameState.ringBuffer, m.HasSize 480 640) ∧
    0 ≤ nineFrameState.diffThresh ∧
    stdDev32 nineFrameState.ringBuffer 0 0 = FloatVal.num (12320769 / 131072) ∧
    (renderRingBuffer32 nineFrameState).pixelAt 0 0 = 255 ∧
    Real.sqrt ((popVariance (samplesAt nineFrameState.ringBuffer 0 0) : ℚ) : ℝ) = 94 ∧
    ¬ ((nineFrameState.diffThresh : ℝ) <
      Real.sqrt ((popVariance (samplesAt nineFrameState.ringBuffer 0 0) : ℚ) : ℝ)) ∧
    ¬ (nineFrameState.diffThresh ^ 2 * (nineFrameState.ringBuffer.length : Int) ^ 2 <
        (nineFrameState.ringBuffer.length : Int) * pixelSumSq nineFrameState.ringBuffer 0 0 -
          pixelSum nineFrameState.ringBuffer 0 0 ^ 2) := by
  have hsqrt : Real.sqrt ((popVariance (samplesAt nineFrameState.ringBuffer 0 0) : ℚ) : ℝ) =
      94 := by
    rw [nineFrame_variance]
    have h : ((8836 : ℚ) : ℝ) = (94 : ℝ) ^ 2 := by norm_num
    rw [h, Real.sqrt_sq (by norm_num)]
  have ht : (nineFrameState.diffThresh : ℝ) = 94 := by
    show (((94 : Int)) : ℝ) = 94
    norm_num
  refine ⟨List.cons_ne_nil _ _, uniformFrames_hasSize [3, 191, 195, 4, 193, 4, 190, 193, 2],
    by decide, nineFrame_stdDev32 0 0 (by decide) (by decide), nineFrame_flagged, hsqrt, ?_, ?_⟩
  · rw [hsqrt, ht]
    exact lt_irrefl _
  · rw [← variance_test_int nineFrameState.ringBuffer nineFrameState.diffThresh 0 0
      (List.cons_ne_nil _ _), nineFrame_variance]
    show ¬ ((((94 : Int)) : ℚ) * (((94 : Int)) : ℚ) < 8836)
    norm_num

/-- C1, amended: for a non-empty buffer of 480 × 640 frames, a threshold `t ≥ 0` and a
pixel `(r, c)` of the grid, `renderRingBuffer` writes 255 exactly when the `stdDev` it
computes in binary32 (the mean `(float)sum / (float)n`, the squared differences
accumulated in slot order, the division by `n` and the square root, each rounded to
nearest) is greater than `(float)t`, and 0 otherwise.  For a buffer of 1, 2, 4 or 8
frames 255 is written exactly when the population standard deviation of the samples is
strictly greater than `t`, that is when `t² n² < n Σx² − (Σx)²`, and 0 otherwise. -/
theorem renderRingBuffer32_flags_iff (s : State) (r c : Nat)
    (hne : s.ringBuffer ≠ []) (hsize : ∀ m ∈ s.ringBuffer, m.HasSize 480 640)
    (ht : 0 ≤ s.diffThresh) (hr : r < 480) (hc : c < 640) :
    ((renderRingBuffer32 s).pixelAt r c = 255 ↔
      FloatVal.gt (stdDev32 s.ringBuffer r c) (FloatVal.ofInt32 s.diffThresh) = true) ∧
    ((renderRingBuffer32 s).pixelAt r c = 0 ↔
      FloatVal.gt (stdDev32 s.ringBuffer r c) (FloatVal.ofInt32 s.diffThresh) = false) ∧
    (s.ringBuffer.length = 1 ∨ s.ringBuffer.length = 2 ∨ s.ringBuffer.length = 4 ∨
        s.ringBuffer.length = 8 →
      ((renderRingBuffer32 s).pixelAt r c = 255 ↔
        (s.diffThresh : ℝ) <
          Real.sqrt ((popVariance (samplesAt s.ringBuffer r c) : ℚ) : ℝ)) ∧
      ((renderRingBuffer32 s).pixelAt r c = 0 ↔
        ¬ (s.diffThresh : ℝ) <
          Real.sqrt ((popVariance (samplesAt s.ringBuffer r c) : ℚ) : ℝ)) ∧
      ((renderRingBuffer32 s).pixelAt r c = 255 ↔
        s.diffThresh ^ 2 * (s.ringBuffer.length : Int) ^ 2 <
          (s.ringBuffer.length : Int) * pixelSumSq s.ringBuffer r c -
            pixelSum s.ringBuffer r c ^ 2)) := by
  obtain ⟨h255, h0⟩ := renderRingBuffer32_pixelAt_iff s r c hr hc
  refine ⟨h255, h0, ?_⟩
  intro hlen
  obtain ⟨k, hk0, hk⟩ := eighth_of_length s.ringBuffer.length hlen
  rw [renderRingBuffer32_eq_of_eighth s k hk0 hk]
  exact renderRingBuffer_flags_iff s r c hne hsize ht hr hc

theorem fourSlotState_frames : ∀ m ∈ fourSlotState.ringBuffer, m.HasSize 480 640 :=
  uniformFrames_hasSize [0, 0, 20, 20]

theorem renderRingBuffer32_flags_iff_witness :
    fourSlotState.ringBuffer ≠ [] ∧ (∀ m ∈ fourSlotState.ringBuffer, m.HasSize 480 640) ∧
    0 ≤ fourSlotState.diffThresh ∧ 0 < 480 ∧ 0 < 640 ∧
    (((renderRingBuffer32 fourSlotState).pixelAt 0 0 = 255 ↔
      FloatVal.gt (stdDev32 fourSlotState.ringBuffer 0 0)
        (FloatVal.ofInt32 fourSlotState.diffThresh) = true) ∧
    ((renderRingBuffer32 fourSlotState).pixelAt 0 0 = 0 ↔
      FloatVal.gt (stdDev32 fourSlotState.ringBuffer 0 0)
        (FloatVal.ofInt32 fourSlotState.diffThresh) = false) ∧
    (fourSlotState.ringBuffer.length = 1 ∨ fourSlotState.ringBuffer.length = 2 ∨
        fourSlotState.ringBuffer.length = 4 ∨ fourSlotState.ringBuffer.length = 8 →
      ((renderRingBuffer32 fourSlotState).pixelAt 0 0 = 255 ↔
        (fourSlotState.diffThresh : ℝ) <
          Real.sqrt ((popVariance (samplesAt fourSlotState.ringBuffer 0 0) : ℚ) : ℝ)) ∧
      ((renderRingBuffer32 fourSlotState).pixelAt 0 0 = 0 ↔
        ¬ (fourSlotState.diffThresh : ℝ) <
          Real.sqrt ((popVariance (samplesAt fourSlotState.ringBuffer 0 0) : ℚ) : ℝ)) ∧
      ((renderRingBuffer32 fourSlotState).pixelAt 0 0 = 255 ↔
        fourSlotState.diffThresh ^ 2 * (fourSlotState.ringBuffer.length : Int) ^ 2 <
          (fourSlotState.ringBuffer.length : Int) * pixelSumSq fourSlotState.ringBuffer 0 0 -
            pixelSum fourSlotState.ringBuffer 0 0 ^ 2))) :=
  ⟨List.cons_ne_nil _ _, fourSlotState_frames, by decide, by decide, by decide,
    renderRingBuffer32_flags_iff fourSlotState 0 0 (List.cons_ne_nil _ _) fourSlotState_frames
      (by decide) (by decide) (by decide)⟩

/-! ### The boundary case, in single precision -/

/-- C11, as stated, fails on the `float` arithmetic of the code: in `permutedState` the
nine samples of a pixel have the population standard deviation 98 exactly, equal to the
threshold 98, yet the `stdDev` computed in binary32 is `98 + 2 ^ (-17)` and the pixel is
written as 255. -/
theorem boundary_flagged_counterexample :
    permutedState.ringBuffer ≠ [] ∧
    (∀ m ∈ permutedState.ringBuffer, m.HasSize 480 640) ∧
    Real.sqrt ((popVariance (samplesAt permutedState.ringBuffer 0 0) : ℚ) : ℝ) =
      (permutedState.diffThresh : ℝ) ∧
    stdDev32 permutedState.ringBuffer 0 0 = FloatVal.num (12845057 / 131072) ∧
    (renderRingBuffer32 permutedState).pixelAt 0 0 = 255 := by
  refine ⟨List.cons_ne_nil _ _,
    uniformFrames_hasSize [133, 26, 228, 6, 245, 33, 39, 241, 216], ?_,
    permuted_stdDev32 0 0 (by decide) (by decide), permuted_flagged⟩
  rw [permuted_variance]
  have h : ((9604 : ℚ) : ℝ) = (98 : ℝ) ^ 2 := by norm_num
  rw [h, Real.sqrt_sq (by norm_num)]
  show (98 : ℝ) = (((98 : Int)) : ℝ)
  norm_num

/-- C11, amended: for a non-empty buffer of 480 × 640 frames and a pixel of the grid,
`renderRingBuffer` writes 0 when the `stdDev` it computes in binary32 equals the
threshold converted to `float` (the comparison is strict), as for two frames with the
samples 0 and 20 and `t = 10`; for a buffer of 1, 2, 4 or 8 frames it writes 0 whenever
the population standard deviation of the samples equals the threshold exactly. -/
theorem boundary_not_flagged32 (s : State) (r c : Nat)
    (hne : s.ringBuffer ≠ []) (hsize : ∀ m ∈ s.ringBuffer, m.HasSize 480 640)
    (hr : r < 480) (hc : c < 640)
    (hsd : stdDev32 s.ringBuffer r c = FloatVal.ofInt32 s.diffThresh ∨
      ((s.ringBuffer.length = 1 ∨ s.ringBuffer.length = 2 ∨ s.ringBuffer.length = 4 ∨
        s.ringBuffer.length = 8) ∧
        Real.sqrt ((popVariance (samplesAt s.ringBuffer r c) : ℚ) : ℝ) =
          (s.diffThresh : ℝ))) :
    (renderRingBuffer32 s).pixelAt r c = 0 := by
  rcases hsd with h | ⟨hlen, h⟩
  · rw [(renderRingBuffer32_pixelAt_iff s r c hr hc).2, h]
    exact FloatVal.gt_self _
  · obtain ⟨k, hk0, hk⟩ := eighth_of_length s.ringBuffer.length hlen
    rw [renderRingBuffer32_eq_of_eighth s k hk0 hk]
    exact boundary_not_flagged s r c hne hsize hr hc h

theorem boundaryState_stdDev32 :
    stdDev32 boundaryState.ringBuffer 0 0 = FloatVal.ofInt32 boundaryState.diffThresh := by
  rw [boundary_stdDev32 0 0 (by decide) (by decide)]
  show _ = FloatVal.ofInt32 10
  rw [FloatVal.ofInt32_of_bounds 10 (by norm_num) (by norm_num)]
  norm_num

theorem boundary_not_flagged32_witness :
    boundaryState.ringBuffer ≠ [] ∧ (∀ m ∈ boundaryState.ringBuffer, m.HasSize 480 640) ∧
    0 < 480 ∧ 0 < 640 ∧
    (stdDev32 boundaryState.ringBuffer 0 0 = FloatVal.ofInt32 boundaryState.diffThresh ∨
      ((boundaryState.ringBuffer.length = 1 ∨ boundaryState.ringBuffer.length = 2 ∨
          boundaryState.ringBuffer.length = 4 ∨ boundaryState.ringBuffer.length = 8) ∧
        Real.sqrt ((popVariance (samplesAt boundaryState.ringBuffer 0 0) : ℚ) : ℝ) =
          (boundaryState.diffThresh : ℝ))) ∧
    (renderRingBuffer32 boundaryState).pixelAt 0 0 = 0 :=
  ⟨List.cons_ne_nil _ _, boundaryState_frames, by decide, by decide,
    Or.inl boundaryState_stdDev32,
    boundary_not_flagged32 boundaryState 0 0 (List.cons_ne_nil _ _) boundaryState_frames
      (by decide) (by decide) (Or.inl boundaryState_stdDev32)⟩

/-! ### The order of the slots, in single precision -/

theorem ordered_perm_permuted : orderedState.ringBuffer.Perm permutedState.ringBuffer := by
  have h : ([6, 216, 26, 245, 33, 39, 241, 228, 133] : List UChar).Perm
      [133, 26, 228, 6, 245, 33, 39, 241, 216] := by decide
  exact h.map uniformFrame

/-- C16, as stated, fails on the `float` arithmetic of the code: `orderedState` and
`permutedState` hold the same nine frames in different slots, with the same threshold
98, and the pixel `(0, 0)` is written as 0 for the one and as 255 for the other: the
squared differences are accumulated in slot order, and the roundings differ. -/
theorem permutation_changes_mask_counterexample :
    orderedState.ringBuffer ≠ [] ∧
    orderedState.ringBuffer.Perm permutedState.ringBuffer ∧
    orderedState.diffThresh = permutedState.diffThresh ∧
    (renderRingBuffer32 orderedState).pixelAt 0 0 = 0 ∧
    (renderRingBuffer32 permutedState).pixelAt 0 0 = 255 ∧
    renderRingBuffer32 orderedState ≠ renderRingBuffer32 permutedState := by
  refine ⟨List.cons_ne_nil _ _, ordered_perm_permuted, rfl, ordered_not_flagged,
    permuted_flagged, ?_⟩
  intro h
  have h0 := ordered_not_flagged
  rw [h, permuted_flagged] at h0
  exact absurd h0 (by decide)

/-- C16, amended: the mask that `renderRingBuffer` computes depends on the state only
through the sequence of stored frames and the threshold, so not on `ringBufferOldest`;
and for a buffer of 1, 2, 4 or 8 frames it is the same for every permutation of the
stored frames. -/
theorem renderRingBuffer32_perm (s1 s2 : State) (hperm : s1.ringBuffer.Perm s2.ringBuffer)
    (ht : s1.diffThresh = s2.diffThresh) :
    (s1.ringBuffer = s2.ringBuffer → renderRingBuffer32 s1 = renderRingBuffer32 s2) ∧
    (s1.ringBuffer.length = 1 ∨ s1.ringBuffer.length = 2 ∨ s1.ringBuffer.length = 4 ∨
        s1.ringBuffer.length = 8 →
      renderRingBuffer32 s1 = renderRingBuffer32 s2) := by
  constructor
  · intro hrb
    unfold renderRingBuffer32
    rw [hrb, ht]
  · intro hlen
    have hlen2 : s2.ringBuffer.length = 1 ∨ s2.ringBuffer.length = 2 ∨
        s2.ringBuffer.length = 4 ∨ s2.ringBuffer.length = 8 := by
      rw [← hperm.length_eq]; exact hlen
    obtain ⟨k, hk0, hk⟩ := eighth_of_length s1.ringBuffer.length hlen
    obtain ⟨k2, hk20, hk2⟩ := eighth_of_length s2.ringBuffer.length hlen2
    rw [renderRingBuffer32_eq_of_eighth s1 k hk0 hk,
      renderRingBuffer32_eq_of_eighth s2 k2 hk20 hk2]
    exact renderRingBuffer_perm s1 s2 hperm ht

theorem renderRingBuffer32_perm_witness :
    twoSlotState.ringBuffer.Perm
      ({ twoSlotState with
          ringBuffer := [uniformFrame 2, uniformFrame 1], ringBufferOldest := 0 } :
        State).ringBuffer ∧
    twoSlotState.diffThresh =
      ({ twoSlotState with
          ringBuffer := [uniformFrame 2, uniformFrame 1], ringBufferOldest := 0 } :
        State).diffThresh ∧
    ((twoSlotState.ringBuffer =
        ({ twoSlotState with
            ringBuffer := [uniformFrame 2, uniformFrame 1], ringBufferOldest := 0 } :
          State).ringBuffer →
      renderRingBuffer32 twoSlotState =
        renderRingBuffer32 { twoSlotState with
          ringBuffer := [uniformFrame 2, uniformFrame 1], ringBufferOldest := 0 }) ∧
    (twoSlotState.ringBuffer.length = 1 ∨ twoSlotState.ringBuffer.length = 2 ∨
        twoSlotState.ringBuffer.length = 4 ∨ twoSlotState.ringBuffer.length = 8 →
      renderRingBuffer32 twoSlotState =
        renderRingBuffer32 { twoSlotState with
          ringBuffer := [uniformFrame 2, uniformFrame 1], ringBufferOldest := 0 })) :=
  ⟨List.Perm.swap _ _ _, rfl,
    renderRingBuffer32_perm twoSlotState _ (List.Perm.swap _ _ _) rfl⟩

/-! ### Further cases in which single precision agrees with the exact reading -/

theorem FloatVal.round32_zero : FloatVal.round32 (FloatVal.num 0) = FloatVal.num 0 :=
  FloatVal.round32_of_rnd 0 0 (by simp [rnd]) (by norm_num) (by norm_num)

theorem FloatVal.gt_zero_ofInt32 (t : Int) (ht : 0 ≤ t) :
    FloatVal.gt (FloatVal.num 0) (FloatVal.ofInt32 t) = false := by
  have htq : (0 : ℚ) ≤ (t : ℚ) := by exact_mod_cast ht
  have hof : FloatVal.ofInt32 t =
      if (2 : ℚ) ^ (128 : Nat) ≤ |rnd (t : ℚ)| then FloatVal.inf (decide ((t : ℚ) < 0))
      else FloatVal.num (rnd (t : ℚ)) := rfl
  rw [hof]
  split
  · simp [FloatVal.gt, not_lt.mpr htq]
  · have := rnd_nonneg (t : ℚ) htq
    simp only [FloatVal.gt, decide_eq_false_iff_not, not_lt]
    exact this

theorem ssdStep32_of_equal (x : Int) (hx1 : -16777216 < x) (hx2 : x < 16777216) :
    ssdStep32 (FloatVal.num (x : ℚ)) (FloatVal.num 0) x = FloatVal.num 0 := by
  have h0 : FloatVal.round32 (FloatVal.num ((x : ℚ) + -(x : ℚ))) = FloatVal.num 0 := by
    rw [add_neg_cancel]; exact FloatVal.round32_zero
  have h1 : FloatVal.round32 (FloatVal.num ((0 : ℚ) * 0)) = FloatVal.num 0 := by
    rw [mul_zero]; exact FloatVal.round32_zero
  have h2 : FloatVal.round32 (FloatVal.num ((0 : ℚ) + 0)) = FloatVal.num 0 := by
    rw [add_zero]; exact FloatVal.round32_zero
  exact ssdStep32_eval (x : ℚ) 0 0 0 0 x hx1 hx2 h0 h1 h2

theorem pixelSum_of_equal (rb : List Mat) (row col : Nat) (x : Int)
    (hx : ∀ m ∈ rb, m.pixelAt row col = x) : pixelSum rb row col = (rb.length : Int) * x := by
  rw [pixelSum_eq_sum]
  induction rb with
  | nil => simp
  | cons m rb ih =>
    simp only [List.map_cons, List.sum_cons, List.length_cons]
    rw [ih (fun m2 hm2 => hx m2 (List.mem_cons_of_mem _ hm2)), hx m (List.mem_cons_self _ _)]
    push_cast
    ring

/-- Equal samples in single precision: at a pixel where all the frames of a non-empty
buffer of at most 65793 frames (so that the `int` sum converts exactly) hold the same
sample, the mean is that sample, every difference is 0, and for a threshold `t ≥ 0` the
pixel is written as 0, as in the exact reading. -/
theorem maskValue32_of_equal_samples (rb : List Mat) (t : Int) (row col : Nat) (x : Int)
    (hne : rb ≠ []) (hlen : rb.length ≤ 65793) (ht : 0 ≤ t)
    (hx : ∀ m ∈ rb, m.pixelAt row col = x) :
    maskValue32 rb t row col = 0 ∧ maskValue rb t row col = 0 := by
  have hpos : 0 < rb.length := List.length_pos.mpr hne
  obtain ⟨m0, hm0⟩ := List.exists_mem_of_ne_nil rb hne
  have hb := Mat.pixelAt_bounds m0 row col
  rw [hx m0 hm0] at hb
  have hnq : (rb.length : ℚ) ≠ 0 := by
    have : (0 : ℚ) < (rb.length : ℚ) := by exact_mod_cast hpos
    exact ne_of_gt this
  have hsum := pixelSum_of_equal rb row col x hx
  have hlenI : (rb.length : Int) ≤ 65793 := by exact_mod_cast hlen
  have hS0 : 0 ≤ (rb.length : Int) * x := mul_nonneg (by omega) hb.1
  have hS : (rb.length : Int) * x ≤ 16777215 := by nlinarith
  have hmean : FloatVal.div32 (FloatVal.ofInt32 (pixelSum rb row col))
      (FloatVal.ofSize32 rb.length) = FloatVal.num (x : ℚ) := by
    rw [hsum, FloatVal.ofInt32_of_bounds _ (by omega) (by omega),
      FloatVal.ofSize32_of_bounds _ (by omega)]
    apply FloatVal.div32_eval _ _ _ hnq
    have e : (((rb.length : Int) * x : Int) : ℚ) / (rb.length : ℚ) = (x : ℚ) := by
      push_cast
      field_simp
    rw [e]
    exact FloatVal.ofInt32_of_bounds x (by omega) (by omega)
  have hfold : ∀ l : List Mat, (∀ m ∈ l, m.pixelAt row col = x) →
      l.foldl (fun acc m => ssdStep32 (FloatVal.num (x : ℚ)) acc (m.pixelAt row col))
        (FloatVal.num 0) = FloatVal.num 0 := by
    intro l
    induction l with
    | nil => intro _; rfl
    | cons m l ih =>
      intro hl
      rw [List.foldl_cons, hl m (List.mem_cons_self _ _),
        ssdStep32_of_equal x (by omega) (by omega)]
      exact ih (fun m2 hm2 => hl m2 (List.mem_cons_of_mem _ hm2))
  have hv : FloatVal.div32 (FloatVal.num 0) (FloatVal.ofSize32 rb.length) = FloatVal.num 0 := by
    rw [FloatVal.ofSize32_of_bounds _ (by omega)]
    apply FloatVal.div32_eval _ _ _ hnq
    rw [zero_div]
    exact FloatVal.round32_zero
  have hsqrt : FloatVal.sqrt32 (FloatVal.num 0) = FloatVal.num 0 := by
    simp [FloatVal.sqrt32]
  constructor
  · unfold maskValue32 stdDev32 sumSquaredDifferences32
    simp only [hmean, hfold rb hx, hv, hsqrt, FloatVal.gt_zero_ofInt32 t ht]
    rfl
  · have hvar : popVariance (samplesAt rb row col) = 0 :=
      popVariance_of_equal_samples rb row col x hx
    exact maskValue_of_variance_zero rb t row col hne hvar ht

/-- Threshold monotonicity in single precision, for thresholds that convert to `float`
exactly: a pixel flagged with the threshold `t2` is flagged with every `t1 ≤ t2`. -/
theorem threshold_monotone32 (s : State) (t1 t2 : Int) (r c : Nat) (h : t1 ≤ t2)
    (h1 : -16777216 < t1) (h2 : t2 < 16777216) (hr : r < 480) (hc : c < 640)
    (hflag : (renderRingBuffer32 { s with diffThresh := t2 }).pixelAt r c = 255) :
    (renderRingBuffer32 { s with diffThresh := t1 }).pixelAt r c = 255 := by
  rw [(renderRingBuffer32_pixelAt_iff _ r c hr hc).1] at hflag ⊢
  have e1 : FloatVal.ofInt32 t1 = FloatVal.num (t1 : ℚ) :=
    FloatVal.ofInt32_of_bounds t1 h1 (by omega)
  have e2 : FloatVal.ofInt32 t2 = FloatVal.num (t2 : ℚ) :=
    FloatVal.ofInt32_of_bounds t2 (by omega) h2
  show FloatVal.gt (stdDev32 s.ringBuffer r c) (FloatVal.ofInt32 t1) = true
  have hflag2 : FloatVal.gt (stdDev32 s.ringBuffer r c) (FloatVal.ofInt32 t2) = true := hflag
  rw [e1]
  rw [e2] at hflag2
  have hq : (t1 : ℚ) ≤ (t2 : ℚ) := by exact_mod_cast h
  cases hsd : stdDev32 s.ringBuffer r c with
  | num a =>
    rw [hsd] at hflag2
    simp only [FloatVal.gt, decide_eq_true_eq] at hflag2 ⊢
    linarith
  | inf b =>
    rw [hsd] at hflag2
    exact hflag2
  | nan =>
    rw [hsd] at hflag2
    exact hflag2

end TRexVision
